import Mathlib

/-!
# Verification of the TSDB meta engine (`src/tsdb/src/tsdbMeta.c`)

A shallow embedding of the metadata catalog of the TSDB storage layer:
the table model (normal / super / child / stream), schema histories,
the per-super tag index, the uid map and tid array, the DDL operations
(`tsdbCreateTable`, `tsdbDropTable`, `tsdbUpdateTable`,
`tsdbUpdateTagValue`), the binary table codec
(`tsdbEncodeTable` / `tsdbDecodeTable`) and the restore path
(`tsdbRestoreTable` / `tsdbOrgMeta`).

Machine integers are modelled as `Nat` / `Int` with explicit range
side-conditions where the source relies on fixed-width
representations.  Heap pointers are modelled by table `uid`s: the
catalog's uid map is the single owner of every live table value, and
the dense tid array, the super list and each super's tag index store
uids into it.  Aliased in-place pointer mutation in the C source is
reflected by re-storing the mutated table value under its uid.
Functions external to the translated file (`tdEncodeSchema`,
`tdEncodeKVRow`, the CRC32 checksum, the skip list) are modelled from
the specification, as noted at each definition.
-/

set_option maxHeartbeats 1000000

namespace Tsdb

/-- Table kind tags.  The C enum values are not in the translated file;
only their distinctness is relied upon. -/
def TSDB_SUPER_TABLE : Nat := 0

def TSDB_CHILD_TABLE : Nat := 1

def TSDB_NORMAL_TABLE : Nat := 2

def TSDB_STREAM_TABLE : Nat := 3

/-- Bound on the in-memory schema history (`TSDB_MAX_TABLE_SCHEMAS`).
Modelled from the spec: `SchemaHistoryMax ≥ 2`; the concrete value is
defined outside the translated file. -/
def TSDB_MAX_TABLE_SCHEMAS : Nat := 16

/-- `TSDB_TABLE_NAME_LEN`; names are truncated to length
`TSDB_TABLE_NAME_LEN - 1` by `tsdbNewTable` (via `strnlen`). -/
def TSDB_TABLE_NAME_LEN : Nat := 193

/-- `TSDB_INVALID_SUPER_TABLE_ID`: the C source assigns `-1` to the
`uint64_t` suid field of non-child tables. -/
def TSDB_INVALID_SUPER_TABLE_ID : Nat := 2 ^ 64 - 1

def DEFAULT_TAG_INDEX_COLUMN : Nat := 0

/-- Action types of the meta action log (`TSDB_UPDATE_META` /
`TSDB_DROP_META`); values are not in the translated file, only
distinctness matters. -/
def TSDB_UPDATE_META : Nat := 0

def TSDB_DROP_META : Nat := 1

/-- One column descriptor of a schema (`STColumn`): column id, data
type tag and byte width.  The ids, types and widths produced by the
vetted config builder are non-negative, so they are carried as `Nat`
with explicit `i16`/`u8` range conditions where the codec needs them. -/
structure STColumn where
  colId : Nat
  ctype : Nat
  bytes : Nat
deriving DecidableEq

/-- A schema (`STSchema`): a version number and the ordered column
descriptors. -/
structure STSchema where
  version : Nat
  columns : List STColumn
deriving DecidableEq

def schemaNCols (s : STSchema) : Nat := s.columns.length

def schemaVersion (s : STSchema) : Nat := s.version

/-- Row byte width of a schema.  `schemaTLen` and
`dataRowMaxBytesFromSchema` live outside the translated file; modelled
from the spec as the row byte width, the sum of the column widths. -/
def schemaTLen (s : STSchema) : Nat := s.columns.foldl (fun a c => a + c.bytes) 0

def emptySchema : STSchema := { version := 0, columns := [] }

/-- `schemaColAt`: column descriptor at a position. -/
def schemaColAt (s : STSchema) (i : Nat) : STColumn := s.columns.getD i ⟨0, 0, 0⟩

/-- One entry of a `SKVRow`: column id, type tag, value bytes. -/
structure SKVEntry where
  colId : Nat
  vtype : Nat
  value : List Nat
deriving DecidableEq

/-- `SKVRow`: sparse column-id keyed tuple used for child tag values.
Modelled from the spec (the KV-row implementation is outside the
translated file). -/
abbrev SKVRow : Type := List SKVEntry

/-- `tdGetKVRowValOfCol`: value bytes stored under a column id. -/
def tdGetKVRowValOfCol (row : SKVRow) (colId : Nat) : Option (List Nat) :=
  (row.find? (fun e => e.colId = colId)).map SKVEntry.value

/-- `tdSetKVRowDataOfCol`: in-place update of the value stored under a
column id (modelled from the spec: mutate `tag_values` in place). -/
def tdSetKVRowDataOfCol (row : SKVRow) (colId : Nat) (vtype : Nat) (data : List Nat) : SKVRow :=
  match row with
  | [] => [⟨colId, vtype, data⟩]
  | e :: rest =>
      if e.colId = colId then ⟨colId, vtype, data⟩ :: rest
      else e :: tdSetKVRowDataOfCol rest colId vtype data

/-- A table record (`STable`).  `pSuper` is the weak back pointer of a
child to its super (a uid into the catalog, `none` while unlinked);
`pIndex` is a super's tag index, the list of its children's uids in
tag-key order. -/
structure STable where
  ttype : Nat
  name : List Nat
  uid : Nat
  tid : Int
  suid : Nat
  schema : List STSchema
  tagSchema : Option STSchema
  tagVal : SKVRow
  sql : Option (List Nat)
  pSuper : Option Nat
  pIndex : List Nat
deriving DecidableEq

/-! ## Fixed-width little-endian byte codec

`taosEncodeFixedU8/I16/I32/U64` and the decoders live outside the
translated file; modelled from the spec: little-endian fixed-width
primitives, length-prefixed variable bytes. -/

/-- `k` little-endian base-256 digits of `n`. -/
def encBytes : Nat → Nat → List Nat
  | 0, _ => []
  | k + 1, n => n % 256 :: encBytes k (n / 256)

/-- Read `k` little-endian base-256 digits. -/
def decBytes : Nat → List Nat → Option (Nat × List Nat)
  | 0, l => some (0, l)
  | k + 1, l =>
      match l with
      | [] => none
      | b :: rest => (decBytes k rest).map (fun p => (b + 256 * p.1, p.2))

def encFixedU8 (n : Nat) : List Nat := encBytes 1 n

def encFixedU16 (n : Nat) : List Nat := encBytes 2 n

def encFixedU32 (n : Nat) : List Nat := encBytes 4 n

def encFixedU64 (n : Nat) : List Nat := encBytes 8 n

def decFixedU8 (l : List Nat) : Option (Nat × List Nat) := decBytes 1 l

def decFixedU16 (l : List Nat) : Option (Nat × List Nat) := decBytes 2 l

def decFixedU32 (l : List Nat) : Option (Nat × List Nat) := decBytes 4 l

def decFixedU64 (l : List Nat) : Option (Nat × List Nat) := decBytes 8 l

/-- Two's-complement `i32` encoding. -/
def encFixedI32 (v : Int) : List Nat := encBytes 4 (v % (2 ^ 32 : Int)).toNat

/-- Two's-complement `i32` decoding. -/
def decFixedI32 (l : List Nat) : Option (Int × List Nat) :=
  (decBytes 4 l).map (fun p => (if p.1 < 2 ^ 31 then (p.1 : Int) else (p.1 : Int) - 2 ^ 32, p.2))

/-- Length-prefixed raw bytes (`u16` length).  Used by the table-name
codec, `taosEncodeString` and KV-row values; modelled from the spec:
length-prefixed variable bytes. -/
def encVarBytes (l : List Nat) : List Nat := encFixedU16 l.length ++ l

def decVarBytes (b : List Nat) : Option (List Nat × List Nat) := do
  let (len, b1) ← decFixedU16 b
  if len ≤ b1.length then some (b1.take len, b1.drop len) else none

/-- Decode `k` consecutive items with an item decoder. -/
def decList {α : Type} (dec1 : List Nat → Option (α × List Nat)) :
    Nat → List Nat → Option (List α × List Nat)
  | 0, b => some ([], b)
  | k + 1, b => do
      let (x, b1) ← dec1 b
      let (xs, b2) ← decList dec1 k b1
      some (x :: xs, b2)

/-- `tdEncodeSchema` column layout; modelled from the spec:
`cols:[\x7bcolId:i16,type:u8,bytes:i16\x7d]`. -/
def tdEncodeColumn (c : STColumn) : List Nat :=
  encFixedU16 c.colId ++ encFixedU8 c.ctype ++ encFixedU16 c.bytes

def tdDecodeColumn (b : List Nat) : Option (STColumn × List Nat) := do
  let (colId, b1) ← decFixedU16 b
  let (ctype, b2) ← decFixedU8 b1
  let (bytes, b3) ← decFixedU16 b2
  some (⟨colId, ctype, bytes⟩, b3)

/-- `tdEncodeSchema`; modelled from the spec:
`Schema\x7bversion:i32, ncols:i16, cols:[...]*\x7d`. -/
def tdEncodeSchema (s : STSchema) : List Nat :=
  encFixedU32 s.version ++ encFixedU16 s.columns.length ++ (s.columns.map tdEncodeColumn).flatten

def tdDecodeSchema (b : List Nat) : Option (STSchema × List Nat) := do
  let (version, b1) ← decFixedU32 b
  let (n, b2) ← decFixedU16 b1
  let (cols, b3) ← decList tdDecodeColumn n b2
  some (⟨version, cols⟩, b3)

def wfColumn (c : STColumn) : Prop := c.colId < 2 ^ 15 ∧ c.ctype < 2 ^ 8 ∧ c.bytes < 2 ^ 15

def wfSchema (s : STSchema) : Prop :=
  s.version < 2 ^ 31 ∧ s.columns.length < 2 ^ 15 ∧ ∀ c ∈ s.columns, wfColumn c

instance (c : STColumn) : Decidable (wfColumn c) := by unfold wfColumn; infer_instance

instance (s : STSchema) : Decidable (wfSchema s) := by unfold wfSchema; infer_instance

/-- KV-row entry codec; modelled from the spec (`KVRow` is a sparse
column-id → value tuple; its codec is outside the translated file). -/
def tdEncodeKVEntry (e : SKVEntry) : List Nat :=
  encFixedU16 e.colId ++ encFixedU8 e.vtype ++ encVarBytes e.value

def tdDecodeKVEntry (b : List Nat) : Option (SKVEntry × List Nat) := do
  let (colId, b1) ← decFixedU16 b
  let (vtype, b2) ← decFixedU8 b1
  let (value, b3) ← decVarBytes b2
  some (⟨colId, vtype, value⟩, b3)

/-- `tdEncodeKVRow`; modelled from the spec. -/
def tdEncodeKVRow (r : SKVRow) : List Nat :=
  encFixedU16 r.length ++ (r.map tdEncodeKVEntry).flatten

def tdDecodeKVRow (b : List Nat) : Option (SKVRow × List Nat) := do
  let (n, b1) ← decFixedU16 b
  let (entries, b2) ← decList tdDecodeKVEntry n b1
  some (entries, b2)

def wfKVEntry (e : SKVEntry) : Prop :=
  e.colId < 2 ^ 15 ∧ e.vtype < 2 ^ 8 ∧ e.value.length < 2 ^ 16

def wfKVRow (r : SKVRow) : Prop := r.length < 2 ^ 16 ∧ ∀ e ∈ r, wfKVEntry e

instance (e : SKVEntry) : Decidable (wfKVEntry e) := by unfold wfKVEntry; infer_instance

instance (r : SKVRow) : Decidable (wfKVRow r) := by unfold wfKVRow; infer_instance

/-! ## Checksum

`taosCalcChecksumAppend` / `taosCheckChecksumWhole` are the CRC32
helpers of the checksummed KV store, outside the translated file.
Modelled from the spec: a 4-byte checksum over the record body,
appended at the end and verified on restore. -/

def tcksum (l : List Nat) : Nat := l.foldl (fun a b => (a * 257 + b) % 2 ^ 32) 1

def taosCalcChecksumAppend (l : List Nat) : List Nat := l ++ encFixedU32 (tcksum l)

def taosCheckChecksumWhole (l : List Nat) : Bool :=
  decide (4 ≤ l.length) && (l.drop (l.length - 4) == encFixedU32 (tcksum (l.take (l.length - 4))))

/-! ## Table codec (`tsdbEncodeTable` / `tsdbDecodeTable`) -/

/-- `tsdbEncodeTableName`: `i16` length prefix followed by the name
bytes. -/
def tsdbEncodeTableName (name : List Nat) : List Nat := encVarBytes name

/-- `tsdbEncodeTable`, following the C layout: kind byte, name, uid,
tid; then for a child the super uid and the tag KV-row, otherwise the
schema count and history, plus the tag schema for a super and the SQL
text for a stream table.  For a super table the C source reads
`pTable->tagSchema` unconditionally (never `NULL` for a live super);
the model uses `Option.getD`. -/
def tsdbEncodeTable (t : STable) : List Nat :=
  encFixedU8 t.ttype ++ tsdbEncodeTableName t.name ++ encFixedU64 t.uid ++ encFixedI32 t.tid ++
    (if t.ttype = TSDB_CHILD_TABLE then
      encFixedU64 t.suid ++ tdEncodeKVRow t.tagVal
    else
      encFixedU8 t.schema.length ++ (t.schema.map tdEncodeSchema).flatten ++
        (if t.ttype = TSDB_SUPER_TABLE then tdEncodeSchema (t.tagSchema.getD emptySchema)
         else []) ++
        (if t.ttype = TSDB_STREAM_TABLE then encVarBytes (t.sql.getD []) else []))

/-- `tsdbDecodeTable`.  Fields that the record does not carry are left
at their `calloc` defaults, exactly as in the C source: a decoded child
has an empty schema history, no tag schema and no SQL text; a decoded
non-child has suid `0`; `pSuper` is unset and a decoded super gets a
fresh empty tag index. -/
def tsdbDecodeTable (b : List Nat) : Option (STable × List Nat) := do
  let (ty, b1) ← decFixedU8 b
  let (nm, b2) ← decVarBytes b1
  let (uid, b3) ← decFixedU64 b2
  let (tid, b4) ← decFixedI32 b3
  if ty = TSDB_CHILD_TABLE then
    let (suid, b5) ← decFixedU64 b4
    let (row, b6) ← tdDecodeKVRow b5
    some ({ ttype := ty, name := nm, uid := uid, tid := tid, suid := suid, schema := [],
            tagSchema := none, tagVal := row, sql := none, pSuper := none, pIndex := [] }, b6)
  else
    let (ns, b5) ← decFixedU8 b4
    let (schemas, b6) ← decList tdDecodeSchema ns b5
    if ty = TSDB_SUPER_TABLE then
      let (tsch, b7) ← tdDecodeSchema b6
      some ({ ttype := ty, name := nm, uid := uid, tid := tid, suid := 0, schema := schemas,
              tagSchema := some tsch, tagVal := [], sql := none, pSuper := none, pIndex := [] },
        b7)
    else if ty = TSDB_STREAM_TABLE then
      let (sq, b7) ← decVarBytes b6
      some ({ ttype := ty, name := nm, uid := uid, tid := tid, suid := 0, schema := schemas,
              tagSchema := none, tagVal := [], sql := some sq, pSuper := none, pIndex := [] }, b7)
    else
      some ({ ttype := ty, name := nm, uid := uid, tid := tid, suid := 0, schema := schemas,
              tagSchema := none, tagVal := [], sql := none, pSuper := none, pIndex := [] }, b6)

/-- Field ranges needed for the fixed-width codec to be lossless. -/
def wfTable (t : STable) : Prop :=
  t.ttype < 2 ^ 8 ∧ t.name.length < 2 ^ 15 ∧ t.uid < 2 ^ 64 ∧
    -(2 ^ 31) ≤ t.tid ∧ t.tid < 2 ^ 31 ∧ t.suid < 2 ^ 64 ∧
    t.schema.length < 2 ^ 8 ∧ (∀ s ∈ t.schema, wfSchema s) ∧ wfKVRow t.tagVal ∧
    (∀ ts, t.tagSchema = some ts → wfSchema ts) ∧ (∀ q, t.sql = some q → q.length < 2 ^ 16)

instance (t : STable) : Decidable (wfTable t) := by unfold wfTable; infer_instance

/-- The image of a table under encode-then-decode: fields the record
does not carry are reset to their `calloc` defaults. -/
def decodedView (t : STable) : STable :=
  if t.ttype = TSDB_CHILD_TABLE then
    { ttype := t.ttype, name := t.name, uid := t.uid, tid := t.tid, suid := t.suid, schema := [],
      tagSchema := none, tagVal := t.tagVal, sql := none, pSuper := none, pIndex := [] }
  else if t.ttype = TSDB_SUPER_TABLE then
    { ttype := t.ttype, name := t.name, uid := t.uid, tid := t.tid, suid := 0, schema := t.schema,
      tagSchema := some (t.tagSchema.getD emptySchema), tagVal := [], sql := none, pSuper := none,
      pIndex := [] }
  else if t.ttype = TSDB_STREAM_TABLE then
    { ttype := t.ttype, name := t.name, uid := t.uid, tid := t.tid, suid := 0, schema := t.schema,
      tagSchema := none, tagVal := [], sql := some (t.sql.getD []), pSuper := none, pIndex := [] }
  else
    { ttype := t.ttype, name := t.name, uid := t.uid, tid := t.tid, suid := 0, schema := t.schema,
      tagSchema := none, tagVal := [], sql := none, pSuper := none, pIndex := [] }

/-- Equality on the fields the record carries for its kind: the claim's
notion of an "equal table" after an encode / decode round trip. -/
def tableEquiv (t1 t2 : STable) : Prop :=
  t1.ttype = t2.ttype ∧ t1.name = t2.name ∧ t1.uid = t2.uid ∧ t1.tid = t2.tid ∧
    (t1.ttype = TSDB_CHILD_TABLE → t1.suid = t2.suid ∧ t1.tagVal = t2.tagVal) ∧
    (t1.ttype ≠ TSDB_CHILD_TABLE → t1.schema = t2.schema) ∧
    (t1.ttype = TSDB_SUPER_TABLE → t1.tagSchema = t2.tagSchema) ∧
    (t1.ttype = TSDB_STREAM_TABLE → t1.sql = t2.sql)

instance (t1 t2 : STable) : Decidable (tableEquiv t1 t2) := by unfold tableEquiv; infer_instance

/-! ## The meta container -/

/-- One record of the meta action log: act type, table uid, and for
`TSDB_UPDATE_META` the checksummed encoded table body (`SActCont`). -/
structure ActRecord where
  act : Nat
  uid : Nat
  cont : List Nat
deriving DecidableEq

/-- `STsdbMeta`.  `tables` is the dense tid-indexed array (entries are
uids into `uidMap`), `superList` the list of super-table uids,
`uidMap` the uid → table map and the single owner of table values
(heap pointers are modelled by uids into it). -/
structure STsdbMeta where
  maxTables : Nat
  tables : List (Option Nat)
  superList : List Nat
  uidMap : List (Nat × STable)
  nTables : Int
  maxCols : Nat
  maxRowBytes : Nat
deriving DecidableEq

structure STsdbRepo where
  meta : STsdbMeta
  actList : List ActRecord
deriving DecidableEq

inductive ErrCode where
  | outOfMemory
  | invalidTableId
  | invalidTableType
  | tableAlreadyExist
  | invalidCreateMsg
  | invalidAction
  | tagVerOutOfDate
  | fileCorrupted
deriving DecidableEq

/-- Numeric values of the `TSDB_CODE_TDB_*` codes returned as positive
values by some entry points; the values live outside the translated
file, only distinctness and positivity matter. -/
def errCodeVal : ErrCode → Int
  | .outOfMemory => 1536
  | .invalidTableId => 1537
  | .invalidTableType => 1538
  | .tableAlreadyExist => 1539
  | .invalidCreateMsg => 1540
  | .invalidAction => 1541
  | .tagVerOutOfDate => 1542
  | .fileCorrupted => 1543

/-- Result of an entry point: the C return value, the value stored
into `terrno` by this call (`none` when the call does not touch it),
and the repository state after the call. -/
structure OpResult where
  ret : Int
  errno : Option ErrCode
  repo : STsdbRepo
deriving DecidableEq

/-- `taosHashGet` on the uid map. -/
def hashGet (mp : List (Nat × STable)) (k : Nat) : Option STable :=
  match mp with
  | [] => none
  | (k', v) :: rest => if k' = k then some v else hashGet rest k

/-- `taosHashPut`: insert or overwrite. -/
def hashPut (mp : List (Nat × STable)) (k : Nat) (v : STable) : List (Nat × STable) :=
  match mp with
  | [] => [(k, v)]
  | (k', v') :: rest => if k' = k then (k, v) :: rest else (k', v') :: hashPut rest k v

/-- `taosHashRemove`. -/
def hashRemove (mp : List (Nat × STable)) (k : Nat) : List (Nat × STable) :=
  match mp with
  | [] => []
  | (k', v') :: rest => if k' = k then rest else (k', v') :: hashRemove rest k

def tsdbGetTableByUid (m : STsdbMeta) (uid : Nat) : Option STable := hashGet m.uidMap uid

/-- `tsdbGetTableSchema`: the current (newest) schema; a child
dereferences its `pSuper` back pointer (modelled as a uid lookup; the
super is live whenever the pointer is set). -/
def tsdbGetTableSchema (m : STsdbMeta) (t : STable) : Option STSchema :=
  if t.ttype = TSDB_NORMAL_TABLE ∨ t.ttype = TSDB_SUPER_TABLE ∨ t.ttype = TSDB_STREAM_TABLE then
    t.schema.getLast?
  else if t.ttype = TSDB_CHILD_TABLE then
    match t.pSuper with
    | none => none
    | some su =>
        match tsdbGetTableByUid m su with
        | none => none
        | some s => s.schema.getLast?
  else none

/-- `tsdbGetTableSchemaByVersion`: binary search of the history by
version (modelled as a search of the version-sorted history). -/
def tsdbGetTableSchemaByVersion (m : STsdbMeta) (t : STable) (version : Nat) : Option STSchema :=
  let searchOpt : Option STable :=
    if t.ttype = TSDB_CHILD_TABLE then
      match t.pSuper with
      | none => none
      | some su => tsdbGetTableByUid m su
    else some t
  match searchOpt with
  | none => none
  | some st => st.schema.find? (fun s => s.version = version)

/-- `tsdbGetTableTagSchema`. -/
def tsdbGetTableTagSchema (m : STsdbMeta) (t : STable) : Option STSchema :=
  if t.ttype = TSDB_SUPER_TABLE then t.tagSchema
  else if t.ttype = TSDB_CHILD_TABLE then
    match t.pSuper with
    | none => none
    | some su =>
        match tsdbGetTableByUid m su with
        | none => none
        | some s => s.tagSchema
  else none

/-- `getTagIndexKey`: the bytes of the designated tag column
(`tag_schema[DEFAULT_TAG_INDEX_COLUMN]`) in a child's tag values. -/
def getTagIndexKey (m : STsdbMeta) (t : STable) : Option (List Nat) :=
  match tsdbGetTableTagSchema m t with
  | none => none
  | some ts => tdGetKVRowValOfCol t.tagVal (schemaColAt ts DEFAULT_TAG_INDEX_COLUMN).colId

/-! ## The per-super tag index

The skip list (`tSkipList*`) lives outside the translated file.
Modelled from the spec: an ordered multimap keyed by the current
tag[0] bytes of each child, holding back pointers (uids) to the
children; the key is recomputed from the child on every comparison. -/

/-- Byte-wise order on index keys. -/
def slKeyLt : List Nat → List Nat → Bool
  | [], [] => false
  | [], _ :: _ => true
  | _ :: _, [] => false
  | a :: as, b :: bs => if a < b then true else if b < a then false else slKeyLt as bs

/-- Splice a new entry into the ordered index (duplicates permitted;
a new entry goes after existing entries of the same key). -/
def slInsert (keyOf : Nat → List Nat) (k : List Nat) (u : Nat) : List Nat → List Nat
  | [] => [u]
  | v :: rest => if slKeyLt k (keyOf v) then u :: v :: rest else v :: slInsert keyOf k u rest

/-- `tsdbAddTableIntoIndex`, first half: look up the super by the
child's suid, set the child's `pSuper` back pointer, splice the child
into the super's index.  Returns the updated meta and the mutated
child value (the caller re-stores it, reflecting the in-place pointer
mutation of the C source).  The C source asserts that the super
exists; the model leaves the meta unchanged when it does not. -/
def idxKeyOf (m : STsdbMeta) : Nat → List Nat := fun u =>
  match tsdbGetTableByUid m u with
  | some c => (getTagIndexKey m c).getD []
  | none => []

def tsdbAddTableIntoIndexCore (m : STsdbMeta) (t : STable) : STsdbMeta × STable :=
  match tsdbGetTableByUid m t.suid with
  | none => (m, t)
  | some s =>
      ({ m with
          uidMap := hashPut m.uidMap t.suid
            ({ s with
                pIndex := slInsert (idxKeyOf m)
                  ((getTagIndexKey m { t with pSuper := some t.suid }).getD [])
                  t.uid s.pIndex }) },
        { t with pSuper := some t.suid })

/-- `tsdbAddTableIntoIndex` for a child that is already registered in
the uid map: the mutated child value is re-stored under its uid. -/
def tsdbAddTableIntoIndex (m : STsdbMeta) (t : STable) : STsdbMeta :=
  let p := tsdbAddTableIntoIndexCore m t
  { p.1 with uidMap := hashPut p.1.uidMap p.2.uid p.2 }

/-- `tsdbRemoveTableFromIndex`: the C source fetches every index node
under the child's current tag key and splices out those whose payload
is this child; with one index entry per child this removes exactly the
entries equal to the child's uid. -/
def tsdbRemoveTableFromIndex (m : STsdbMeta) (t : STable) : STsdbMeta :=
  match t.pSuper with
  | none => m
  | some su =>
      match tsdbGetTableByUid m su with
      | none => m
      | some s =>
          { m with uidMap :=
              hashPut m.uidMap su ({ s with pIndex := s.pIndex.filter (fun u => u ≠ t.uid) }) }

/-! ## Adding to / removing from the meta -/

/-- The `maxCols` / `maxRowBytes` update of `tsdbAddTableToMeta`
(non-child tables only). -/
def updateMaxes (m : STsdbMeta) (t : STable) : STsdbMeta :=
  if t.ttype ≠ TSDB_CHILD_TABLE then
    match tsdbGetTableSchema m t with
    | some sch =>
        { m with
          maxCols := if schemaNCols sch > m.maxCols then schemaNCols sch else m.maxCols,
          maxRowBytes := if schemaTLen sch > m.maxRowBytes then schemaTLen sch else m.maxRowBytes }
    | none => m
  else m

/-- Write a tid slot of the dense array.  The C source indexes the
array unchecked; an out-of-range tid is undefined behaviour there and
a no-op here. -/
def tableSetSlot (tables : List (Option Nat)) (tid : Int) (v : Option Nat) : List (Option Nat) :=
  if 0 ≤ tid then tables.set tid.toNat v else tables

/-- `tsdbAddTableToMeta`.  A super goes onto the super list; a
non-super goes into the tid array (a child is spliced into its super's
index first when `addIdx`); every table goes into the uid map; for
non-child tables the maxima are raised.  Locking is not modelled.
Failure paths in the C source are allocation failures only. -/
def addNonSuperPair (m : STsdbMeta) (t : STable) (addIdx : Bool) : STsdbMeta × STable :=
  if t.ttype = TSDB_CHILD_TABLE ∧ addIdx then tsdbAddTableIntoIndexCore m t else (m, t)

def addSlotPut (p : STsdbMeta × STable) : STsdbMeta :=
  { p.1 with
    tables := tableSetSlot p.1.tables p.2.tid (some p.2.uid)
    nTables := p.1.nTables + 1
    uidMap := hashPut p.1.uidMap p.2.uid p.2 }

def tsdbAddTableToMeta (r : STsdbRepo) (t : STable) (addIdx : Bool) : Int × STsdbRepo :=
  if t.ttype = TSDB_SUPER_TABLE then
    (0, { r with
          meta := updateMaxes
            ({ r.meta with
                superList := r.meta.superList ++ [t.uid],
                uidMap := hashPut r.meta.uidMap t.uid t }) t })
  else
    (0, { r with
          meta :=
            updateMaxes (addSlotPut (addNonSuperPair r.meta t addIdx))
              (addNonSuperPair r.meta t addIdx).2 })

/-- The rescan of `tsdbRemoveTableFromMeta`: recompute the maxima from
the current schemas of the tables in the tid array (children
contribute their super's current schema through `tsdbGetTableSchema`).
The super list is not scanned. -/
def rescanMaxes (m : STsdbMeta) : STsdbMeta :=
  let p := m.tables.foldl
    (fun (acc : Nat × Nat) slot =>
      match slot with
      | none => acc
      | some u =>
          match tsdbGetTableByUid m u with
          | none => acc
          | some t =>
              match tsdbGetTableSchema m t with
              | none => acc
              | some sch => (Nat.max acc.1 (schemaNCols sch), Nat.max acc.2 (schemaTLen sch)))
    (0, 0)
  { m with maxCols := p.1, maxRowBytes := p.2 }

/-- `tsdbRemoveTableFromMeta`.  The super list is iterated backwards
in the C source, so the last matching entry is removed.  The rescan
fires when the removed table's current column count or row width
equals the current maximum.  Locking and reference counting are not
modelled. -/
def remSlotTables (m : STsdbMeta) (t : STable) : STsdbMeta :=
  { m with tables := tableSetSlot m.tables t.tid none }

def remDecr (m : STsdbMeta) : STsdbMeta := { m with nTables := m.nTables - 1 }

def remNonSuper (m : STsdbMeta) (t : STable) (rmFromIdx : Bool) : STsdbMeta :=
  remDecr
    (if t.ttype = TSDB_CHILD_TABLE ∧ rmFromIdx then
      tsdbRemoveTableFromIndex (remSlotTables m t) t
    else remSlotTables m t)

def remCore (m : STsdbMeta) (t : STable) (rmFromIdx : Bool) : STsdbMeta :=
  if t.ttype = TSDB_SUPER_TABLE then
    { m with superList := (m.superList.reverse.erase t.uid).reverse }
  else remNonSuper m t rmFromIdx

def remErase (m : STsdbMeta) (t : STable) (rmFromIdx : Bool) : STsdbMeta :=
  { remCore m t rmFromIdx with
    uidMap := hashRemove (remCore m t rmFromIdx).uidMap t.uid }

def tsdbRemoveTableFromMeta (r : STsdbRepo) (t : STable) (rmFromIdx : Bool) : STsdbRepo :=
  let m : STsdbMeta := r.meta
  let schOpt : Option STSchema := tsdbGetTableSchema m t
  let mc : Nat := match schOpt with | some s => schemaNCols s | none => 0
  let mrb : Nat := match schOpt with | some s => schemaTLen s | none => 0
  let m2 : STsdbMeta := remErase m t rmFromIdx
  let m3 : STsdbMeta := if mc = m2.maxCols ∨ mrb = m2.maxRowBytes then rescanMaxes m2 else m2
  { r with meta := m3 }

/-- `tsdbInsertTableAct`: append one action record; an update record
carries the encoded table body with the trailing checksum
(`taosCalcChecksumAppend`), a drop record carries no body. -/
def tsdbInsertTableAct (r : STsdbRepo) (act : Nat) (t : STable) : STsdbRepo :=
  { r with actList := r.actList ++
      [⟨act, t.uid,
        if act = TSDB_UPDATE_META then taosCalcChecksumAppend (tsdbEncodeTable t) else []⟩] }

/-! ## Table construction and DDL operations -/

/-- A vetted `STableCfg` (output of the config builder). -/
structure STableCfg where
  ctype : Nat
  uid : Nat
  tid : Int
  superUid : Nat
  name : List Nat
  sname : List Nat
  schema : STSchema
  tagSchema : Option STSchema
  tagValues : SKVRow
  sql : Option (List Nat)
deriving DecidableEq

/-- `tsdbNewTable`.  With `isSuper` a super table is built from the
cfg's super name, super uid, schema and tag schema; otherwise the
table is built from the cfg's own identity, with tag values for a
child, a schema history of one for the others, and the SQL text for a
stream table.  Names are truncated by `strnlen`. -/
def tsdbNewTable (cfg : STableCfg) (isSuper : Bool) : STable :=
  if isSuper then
    { ttype := TSDB_SUPER_TABLE
      name := cfg.sname.take (TSDB_TABLE_NAME_LEN - 1)
      uid := cfg.superUid
      tid := -1
      suid := TSDB_INVALID_SUPER_TABLE_ID
      schema := [cfg.schema]
      tagSchema := cfg.tagSchema
      tagVal := []
      sql := none
      pSuper := none
      pIndex := [] }
  else
    { ttype := cfg.ctype
      name := cfg.name.take (TSDB_TABLE_NAME_LEN - 1)
      uid := cfg.uid
      tid := cfg.tid
      suid := if cfg.ctype = TSDB_CHILD_TABLE then cfg.superUid else TSDB_INVALID_SUPER_TABLE_ID
      schema := if cfg.ctype = TSDB_CHILD_TABLE then [] else [cfg.schema]
      tagSchema := none
      tagVal := if cfg.ctype = TSDB_CHILD_TABLE then cfg.tagValues else []
      sql := if cfg.ctype = TSDB_STREAM_TABLE then cfg.sql else none
      pSuper := none
      pIndex := [] }

/-- The tag-schema step of `tsdbUpdateTable`: for a super table whose
tag schema is older than the cfg's, the tag schema is replaced
wholesale (`tsdbUpdateTableTagSchema`). -/
def tagChangeP (t : STable) (cfg : STableCfg) : Prop :=
  t.ttype = TSDB_SUPER_TABLE ∧
    (t.tagSchema.getD emptySchema).version < (cfg.tagSchema.getD emptySchema).version

instance (t : STable) (cfg : STableCfg) : Decidable (tagChangeP t cfg) := by
  unfold tagChangeP; infer_instance

def updT1 (t : STable) (cfg : STableCfg) : STable :=
  if tagChangeP t cfg then { t with tagSchema := cfg.tagSchema } else t

/-- The schema-version test of `tsdbUpdateTable`: the current schema is
older than the cfg's. -/
def schChangeP (m : STsdbMeta) (t1 : STable) (cfg : STableCfg) : Prop :=
  ((tsdbGetTableSchema m t1).getD emptySchema).version < (cfg.schema).version

instance (m : STsdbMeta) (t1 : STable) (cfg : STableCfg) : Decidable (schChangeP m t1 cfg) := by
  unfold schChangeP; infer_instance

/-- Appending a newer schema to the history, evicting the oldest when
the history is full. -/
def appendSchema (t1 : STable) (cfg : STableCfg) : STable :=
  if t1.schema.length < TSDB_MAX_TABLE_SCHEMAS then { t1 with schema := t1.schema ++ [cfg.schema] }
  else { t1 with schema := t1.schema.drop 1 ++ [cfg.schema] }

def updT2 (m : STsdbMeta) (t1 : STable) (cfg : STableCfg) : STable :=
  if schChangeP m t1 cfg then appendSchema t1 cfg else t1

/-- The meta after `tsdbUpdateTable` re-stores the table: on a schema
change the maxima are raised from the cfg schema. -/
def updMeta (m : STsdbMeta) (uid : Nat) (t1 t2 : STable) (cfg : STableCfg) : STsdbMeta :=
  if schChangeP m t1 cfg then
    { m with uidMap := hashPut m.uidMap uid t2,
             maxCols := Nat.max m.maxCols (schemaNCols cfg.schema),
             maxRowBytes := Nat.max m.maxRowBytes (schemaTLen cfg.schema) }
  else { m with uidMap := hashPut m.uidMap uid t2 }

/-- `tsdbUpdateTable` on a registered table (the C function receives a
live pointer; the model receives its uid).  Must not be called on a
child (assertion in the C source; modelled as a no-op).  For a super,
a newer cfg tag schema replaces the tag schema wholesale and `changed`
is set unconditionally.  A newer cfg schema version is appended to the
history, evicting the oldest when the history is full; the maxima are
raised from the cfg schema.  On any change one update action is
appended, encoding the table after the mutation. -/
def tsdbUpdateTable (r : STsdbRepo) (uid : Nat) (cfg : STableCfg) : Int × STsdbRepo :=
  match tsdbGetTableByUid r.meta uid with
  | none => (0, r)
  | some t =>
      if t.ttype = TSDB_CHILD_TABLE then (0, r)
      else if t.ttype = TSDB_SUPER_TABLE ∨ schChangeP r.meta (updT1 t cfg) cfg then
        (0, tsdbInsertTableAct
          { r with meta := updMeta r.meta uid (updT1 t cfg) (updT2 r.meta (updT1 t cfg) cfg) cfg }
          TSDB_UPDATE_META (updT2 r.meta (updT1 t cfg) cfg))
      else
        (0, { r with meta := updMeta r.meta uid (updT1 t cfg) (updT2 r.meta (updT1 t cfg) cfg) cfg })

/-- `tsdbCreateTable`.  An existing uid is rejected with
`TABLE_ALREADY_EXIST` (returned as the value, `terrno` untouched).
For a child: a missing super is built from the same cfg and added
first; an existing table under the super uid that is not a super makes
the call return `-1` with no error code and no mutation; an existing
super is passed to `tsdbUpdateTable`.  One update action is appended
per newly added table.  Allocation failure paths are not modelled. -/
def createChildNewSuper (r : STsdbRepo) (cfg : STableCfg) : STsdbRepo :=
  tsdbInsertTableAct
    (tsdbInsertTableAct
      ((tsdbAddTableToMeta ((tsdbAddTableToMeta r (tsdbNewTable cfg true) true).2)
        (tsdbNewTable cfg false) true).2)
      TSDB_UPDATE_META (tsdbNewTable cfg true))
    TSDB_UPDATE_META (tsdbNewTable cfg false)

def createChildExisting (r : STsdbRepo) (cfg : STableCfg) (s : STable) : STsdbRepo :=
  tsdbInsertTableAct
    ((tsdbAddTableToMeta ((tsdbUpdateTable r s.uid cfg).2) (tsdbNewTable cfg false) true).2)
    TSDB_UPDATE_META (tsdbNewTable cfg false)

def createOther (r : STsdbRepo) (cfg : STableCfg) : STsdbRepo :=
  tsdbInsertTableAct ((tsdbAddTableToMeta r (tsdbNewTable cfg false) true).2)
    TSDB_UPDATE_META (tsdbNewTable cfg false)

def tsdbCreateTable (r : STsdbRepo) (cfg : STableCfg) : OpResult :=
  match tsdbGetTableByUid r.meta cfg.uid with
  | some _ => ⟨errCodeVal .tableAlreadyExist, none, r⟩
  | none =>
      if cfg.ctype = TSDB_CHILD_TABLE then
        match tsdbGetTableByUid r.meta cfg.superUid with
        | none => ⟨0, none, createChildNewSuper r cfg⟩
        | some s =>
            if s.ttype ≠ TSDB_SUPER_TABLE then ⟨-1, none, r⟩
            else if s.uid ≠ cfg.superUid then ⟨-1, none, r⟩
            else ⟨0, none, createChildExisting r cfg s⟩
      else ⟨0, none, createOther r cfg⟩

/-- `tsdbDropTable`.  A missing uid fails with `INVALID_TABLE_ID`.
For a super, the index is iterated and every child gets one
`TSDB_DROP_META` action and is removed from the meta (not from the
index, which is dropped wholesale); finally the target itself is
removed.  No action record is appended for the target.  The stream
continuous-query teardown is an external callback with no meta
effect. -/
def dropStep (acc : STsdbRepo) (cu : Nat) : STsdbRepo :=
  match tsdbGetTableByUid acc.meta cu with
  | none => acc
  | some c => tsdbRemoveTableFromMeta (tsdbInsertTableAct acc TSDB_DROP_META c) c false

def tsdbDropTable (r : STsdbRepo) (uid : Nat) : OpResult :=
  match tsdbGetTableByUid r.meta uid with
  | none => ⟨-1, some .invalidTableId, r⟩
  | some t =>
      let r1 :=
        if t.ttype = TSDB_SUPER_TABLE then t.pIndex.foldl dropStep r
        else r
      let r2 := tsdbRemoveTableFromMeta r1 t true
      ⟨0, none, r2⟩

/-- The tag-update message (`SUpdateTableTagValMsg`), host byte order.
`fetched` carries the reply of the external `config_fetch` callback
used when the client tag version is newer than the server's (`none`
models a failed fetch). -/
structure SUpdateTableTagValMsg where
  uid : Nat
  tid : Int
  tversion : Nat
  colId : Nat
  vtype : Nat
  data : List Nat
  fetched : Option STableCfg
deriving DecidableEq

/-- Second half of `tsdbUpdateTagValue`, after the optional schema
refresh: version check, index removal when the updated column is the
designated tag[0], in-place mutation of the tag values, re-insertion. -/
def tagValNew (t : STable) (msg : SUpdateTableTagValMsg) : STable :=
  { t with tagVal := tdSetKVRowDataOfCol t.tagVal msg.colId msg.vtype msg.data }

def tagPut (m : STsdbMeta) (t2 : STable) : STsdbMeta :=
  { m with uidMap := hashPut m.uidMap t2.uid t2 }

def tagStepIdx (m : STsdbMeta) (t : STable) (msg : SUpdateTableTagValMsg) : STsdbMeta :=
  tsdbAddTableIntoIndex (tagPut (tsdbRemoveTableFromIndex m t) (tagValNew t msg))
    (tagValNew t msg)

def tagStepNoIdx (m : STsdbMeta) (t : STable) (msg : SUpdateTableTagValMsg) : STsdbMeta :=
  tagPut m (tagValNew t msg)

def tsdbUpdateTagValStep2 (r : STsdbRepo) (msg : SUpdateTableTagValMsg) : OpResult :=
  match tsdbGetTableByUid r.meta msg.uid with
  | none => ⟨-1, some .invalidTableId, r⟩
  | some t =>
      if ((tsdbGetTableTagSchema r.meta t).getD emptySchema).version > msg.tversion then
        ⟨errCodeVal .tagVerOutOfDate, none, r⟩
      else
        if (schemaColAt ((tsdbGetTableTagSchema r.meta t).getD emptySchema)
            DEFAULT_TAG_INDEX_COLUMN).colId = msg.colId then
          ⟨0, none, { r with meta := tagStepIdx r.meta t msg }⟩
        else ⟨0, none, { r with meta := tagStepNoIdx r.meta t msg }⟩

/-- `tsdbUpdateTagValue`.  Resolution by uid, tid check, child check;
if the client tag version is newer, the super is refreshed through the
config callback and `tsdbUpdateTable`; then the actual tag mutation.
Note that no action record is appended for the tag mutation itself. -/
def tsdbUpdateTagValue (r : STsdbRepo) (msg : SUpdateTableTagValMsg) : OpResult :=
  match tsdbGetTableByUid r.meta msg.uid with
  | none => ⟨-1, some .invalidTableId, r⟩
  | some t0 =>
      if t0.tid ≠ msg.tid then ⟨-1, some .invalidTableId, r⟩
      else if t0.ttype ≠ TSDB_CHILD_TABLE then ⟨-1, some .invalidAction, r⟩
      else if ((tsdbGetTableTagSchema r.meta t0).getD emptySchema).version < msg.tversion then
        match msg.fetched with
        | none => ⟨-1, none, r⟩
        | some fcfg =>
            match tsdbGetTableByUid r.meta fcfg.superUid with
            | none => ⟨-1, none, r⟩
            | some s =>
                let r1 := (tsdbUpdateTable r s.uid fcfg).2
                tsdbUpdateTagValStep2 r1 msg
      else tsdbUpdateTagValStep2 r msg

/-! ## Restore and organize -/

/-- `tsdbRestoreTable`: verify the whole-record checksum (failure sets
`terrno` to `FILE_CORRUPTED` and leaves the meta untouched), decode a
table, add it without index linkage. -/
def tsdbRestoreTable (r : STsdbRepo) (cont : List Nat) : OpResult :=
  if taosCheckChecksumWhole cont then
    match tsdbDecodeTable cont with
    | none => ⟨-1, none, r⟩
    | some (t, _) => ⟨0, none, (tsdbAddTableToMeta r t false).2⟩
  else ⟨-1, some .fileCorrupted, r⟩

/-- `tsdbOrgMeta`: after restore, walk the tid array from slot 1 and
splice every child into its super's index. -/
def tsdbOrgMeta (m : STsdbMeta) : STsdbMeta :=
  (List.range m.maxTables).foldl
    (fun acc i =>
      if i = 0 then acc
      else
        match acc.tables.getD i none with
        | none => acc
        | some u =>
            match tsdbGetTableByUid acc u with
            | none => acc
            | some t => if t.ttype = TSDB_CHILD_TABLE then tsdbAddTableIntoIndex acc t else acc)
    m

/-- `tsdbNewMeta`: fresh meta for a given `maxTables`. -/
def tsdbNewMeta (maxTables : Nat) : STsdbMeta :=
  { maxTables := maxTables
    tables := List.replicate maxTables none
    superList := []
    uidMap := []
    nTables := 0
    maxCols := 0
    maxRowBytes := 0 }

def freshRepo (maxTables : Nat) : STsdbRepo := ⟨tsdbNewMeta maxTables, []⟩

/-! ## DDL sequences -/

inductive DDLOp where
  | create (cfg : STableCfg)
  | dropT (uid : Nat)
  | updateTbl (uid : Nat) (cfg : STableCfg)
  | updateTag (msg : SUpdateTableTagValMsg)
deriving DecidableEq

def applyOp (r : STsdbRepo) (op : DDLOp) : STsdbRepo :=
  match op with
  | .create cfg => (tsdbCreateTable r cfg).repo
  | .dropT uid => (tsdbDropTable r uid).repo
  | .updateTbl uid cfg => (tsdbUpdateTable r uid cfg).2
  | .updateTag msg => (tsdbUpdateTagValue r msg).repo

def applySeq (r : STsdbRepo) (ops : List DDLOp) : STsdbRepo := ops.foldl applyOp r

/-- Well-formed tag values: distinct column ids within codec ranges.
The KV-row builder emits one entry per tag column with distinct ids. -/
def wfTagVal (row : SKVRow) : Prop :=
  (row.map SKVEntry.colId).Nodup ∧
    ∀ e ∈ row, e.colId < 2 ^ 15 ∧ e.vtype < 2 ^ 8 ∧ e.value.length < 2 ^ 16

instance (row : SKVRow) : Decidable (wfTagVal row) := by unfold wfTagVal; infer_instance

/-- A vetted create cfg, as produced by `tsdbCreateTableCfgFromMsg` /
`tsdbInitTableCfg` and the setters: the type is child, normal or
stream (`tsdbInitTableCfg` rejects everything else), the tid is a
valid slot of the dense array, a child carries a valid super uid
(`tsdbTableSetSuperUid` rejects the invalid id), a tag schema with at
least the designated column, and tag values; non-child cfgs carry no
tag data and only a stream cfg carries SQL text. -/
def wfCfg (n : Nat) (cfg : STableCfg) : Prop :=
  (cfg.ctype = TSDB_CHILD_TABLE ∨ cfg.ctype = TSDB_NORMAL_TABLE ∨
      cfg.ctype = TSDB_STREAM_TABLE) ∧
    cfg.uid < 2 ^ 64 ∧ 0 < cfg.tid ∧ cfg.tid < (n : Int) ∧ cfg.tid < 2 ^ 31 ∧
    cfg.superUid < 2 ^ 64 ∧ wfSchema cfg.schema ∧
    (cfg.ctype = TSDB_CHILD_TABLE →
      cfg.superUid ≠ TSDB_INVALID_SUPER_TABLE_ID ∧ cfg.uid ≠ cfg.superUid ∧
        (∃ ts, cfg.tagSchema = some ts ∧ wfSchema ts ∧ ts.columns ≠ []) ∧
        wfTagVal cfg.tagValues) ∧
    (cfg.ctype ≠ TSDB_CHILD_TABLE → cfg.tagSchema = none ∧ cfg.tagValues = []) ∧
    (cfg.ctype = TSDB_STREAM_TABLE → ∃ q, cfg.sql = some q ∧ q.length < 2 ^ 16) ∧
    (cfg.ctype ≠ TSDB_STREAM_TABLE → cfg.sql = none)

instance (n : Nat) (cfg : STableCfg) : Decidable (wfCfg n cfg) := by
  unfold wfCfg; infer_instance

/-- Well-formedness of a cfg passed to `tsdbUpdateTable` (only its
schema and tag schema are read there). -/
def wfUpdateCfg (cfg : STableCfg) : Prop :=
  wfSchema cfg.schema ∧ ∀ ts, cfg.tagSchema = some ts → wfSchema ts ∧ ts.columns ≠ []

instance (cfg : STableCfg) : Decidable (wfUpdateCfg cfg) := by
  unfold wfUpdateCfg; infer_instance

def wfMsg (msg : SUpdateTableTagValMsg) : Prop :=
  msg.colId < 2 ^ 15 ∧ msg.vtype < 2 ^ 8 ∧ msg.data.length < 2 ^ 16 ∧
    ∀ fcfg, msg.fetched = some fcfg → wfUpdateCfg fcfg

instance (msg : SUpdateTableTagValMsg) : Decidable (wfMsg msg) := by
  unfold wfMsg; infer_instance

/-- Side conditions under which a DDL operation is issued by the
surrounding runtime: the cfg is vetted, and for a create the dense
slot of the (mnode-assigned, repo-unique) tid is free. -/
def okOp (r : STsdbRepo) : DDLOp → Prop
  | .create cfg => wfCfg r.meta.maxTables cfg ∧ r.meta.tables.getD cfg.tid.toNat none = none
  | .dropT _ => True
  | .updateTbl _ cfg => wfUpdateCfg cfg
  | .updateTag msg => wfMsg msg

instance (r : STsdbRepo) (op : DDLOp) : Decidable (okOp r op) := by
  cases op <;> (unfold okOp; infer_instance)

/-! ## The meta invariant -/

/-- The state invariant of the catalog, maintained by every DDL
operation on a fresh meta (spec §3 invariants, as the code maintains
them). -/
structure MetaInv (m : STsdbMeta) : Prop where
  tablesLen : m.tables.length = m.maxTables
  keysNodup : (m.uidMap.map Prod.fst).Nodup
  uidEq : ∀ u t, hashGet m.uidMap u = some t → t.uid = u
  wf : ∀ u t, hashGet m.uidMap u = some t → wfTable t
  kinds : ∀ u t, hashGet m.uidMap u = some t →
    t.ttype = TSDB_SUPER_TABLE ∨ t.ttype = TSDB_CHILD_TABLE ∨
      t.ttype = TSDB_NORMAL_TABLE ∨ t.ttype = TSDB_STREAM_TABLE
  superOk : ∀ u t, hashGet m.uidMap u = some t → t.ttype = TSDB_SUPER_TABLE →
    t.tid = -1 ∧ t.suid = TSDB_INVALID_SUPER_TABLE_ID ∧
      (∃ ts, t.tagSchema = some ts ∧ ts.columns ≠ []) ∧ t.tagVal = [] ∧ t.sql = none ∧
      t.pSuper = none ∧ t.schema ≠ [] ∧ u ∈ m.superList
  childOk : ∀ u t, hashGet m.uidMap u = some t → t.ttype = TSDB_CHILD_TABLE →
    t.schema = [] ∧ t.tagSchema = none ∧ t.sql = none ∧ t.pSuper = some t.suid ∧
      wfTagVal t.tagVal ∧ t.pIndex = [] ∧
      ∃ s, hashGet m.uidMap t.suid = some s ∧ s.ttype = TSDB_SUPER_TABLE ∧ u ∈ s.pIndex
  normalOk : ∀ u t, hashGet m.uidMap u = some t →
    t.ttype = TSDB_NORMAL_TABLE ∨ t.ttype = TSDB_STREAM_TABLE →
    t.suid = TSDB_INVALID_SUPER_TABLE_ID ∧ t.tagSchema = none ∧ t.tagVal = [] ∧
      t.pSuper = none ∧ t.pIndex = [] ∧ t.schema ≠ [] ∧
      (t.ttype = TSDB_NORMAL_TABLE → t.sql = none)
  nonSuperSlot : ∀ u t, hashGet m.uidMap u = some t → t.ttype ≠ TSDB_SUPER_TABLE →
    0 < t.tid ∧ t.tid < (m.maxTables : Int) ∧ m.tables.getD t.tid.toNat none = some u
  slotOk : ∀ i u, m.tables.getD i none = some u →
    ∃ t, hashGet m.uidMap u = some t ∧ t.tid = (i : Int) ∧ t.ttype ≠ TSDB_SUPER_TABLE
  superNodup : m.superList.Nodup
  superMem : ∀ su ∈ m.superList,
    ∃ s, hashGet m.uidMap su = some s ∧ s.ttype = TSDB_SUPER_TABLE
  indexOk : ∀ u t, hashGet m.uidMap u = some t → t.ttype = TSDB_SUPER_TABLE →
    t.pIndex.Nodup ∧ ∀ cu ∈ t.pIndex,
      ∃ c, hashGet m.uidMap cu = some c ∧ c.ttype = TSDB_CHILD_TABLE ∧ c.suid = u
  sortedOk : ∀ u t, hashGet m.uidMap u = some t → t.ttype ≠ TSDB_CHILD_TABLE →
    t.schema.length ≤ TSDB_MAX_TABLE_SCHEMAS ∧
      (t.schema.map STSchema.version).Chain' (· < ·)

def filtSuper (s : STable) (cuid : Nat) : STable :=
  { s with pIndex := s.pIndex.filter (fun u => u ≠ cuid) }

/-- Invariant of the intermediate states of a super-table drop
cascade: like `MetaInv`, except that the pending super `su`'s index
may hold stale entries; `rem` lists the index entries not yet
processed, and every remaining child of `su` is among them. -/
structure MetaInvD (m : STsdbMeta) (su : Nat) (rem : List Nat) : Prop where
  tablesLen : m.tables.length = m.maxTables
  keysNodup : (m.uidMap.map Prod.fst).Nodup
  uidEq : ∀ u t, hashGet m.uidMap u = some t → t.uid = u
  wf : ∀ u t, hashGet m.uidMap u = some t → wfTable t
  kinds : ∀ u t, hashGet m.uidMap u = some t →
    t.ttype = TSDB_SUPER_TABLE ∨ t.ttype = TSDB_CHILD_TABLE ∨
      t.ttype = TSDB_NORMAL_TABLE ∨ t.ttype = TSDB_STREAM_TABLE
  superOk : ∀ u t, hashGet m.uidMap u = some t → t.ttype = TSDB_SUPER_TABLE →
    t.tid = -1 ∧ t.suid = TSDB_INVALID_SUPER_TABLE_ID ∧
      (∃ ts, t.tagSchema = some ts ∧ ts.columns ≠ []) ∧ t.tagVal = [] ∧ t.sql = none ∧
      t.pSuper = none ∧ t.schema ≠ [] ∧ u ∈ m.superList
  childOk : ∀ u t, hashGet m.uidMap u = some t → t.ttype = TSDB_CHILD_TABLE →
    t.schema = [] ∧ t.tagSchema = none ∧ t.sql = none ∧ t.pSuper = some t.suid ∧
      wfTagVal t.tagVal ∧ t.pIndex = [] ∧
      ∃ s, hashGet m.uidMap t.suid = some s ∧ s.ttype = TSDB_SUPER_TABLE ∧ u ∈ s.pIndex
  normalOk : ∀ u t, hashGet m.uidMap u = some t →
    t.ttype = TSDB_NORMAL_TABLE ∨ t.ttype = TSDB_STREAM_TABLE →
    t.suid = TSDB_INVALID_SUPER_TABLE_ID ∧ t.tagSchema = none ∧ t.tagVal = [] ∧
      t.pSuper = none ∧ t.pIndex = [] ∧ t.schema ≠ [] ∧
      (t.ttype = TSDB_NORMAL_TABLE → t.sql = none)
  nonSuperSlot : ∀ u t, hashGet m.uidMap u = some t → t.ttype ≠ TSDB_SUPER_TABLE →
    0 < t.tid ∧ t.tid < (m.maxTables : Int) ∧ m.tables.getD t.tid.toNat none = some u
  slotOk : ∀ i u, m.tables.getD i none = some u →
    ∃ t, hashGet m.uidMap u = some t ∧ t.tid = (i : Int) ∧ t.ttype ≠ TSDB_SUPER_TABLE
  superNodup : m.superList.Nodup
  superMem : ∀ su' ∈ m.superList,
    ∃ s, hashGet m.uidMap su' = some s ∧ s.ttype = TSDB_SUPER_TABLE
  indexOkD : ∀ u t, hashGet m.uidMap u = some t → t.ttype = TSDB_SUPER_TABLE → ¬u = su →
    t.pIndex.Nodup ∧ ∀ cu ∈ t.pIndex,
      ∃ c, hashGet m.uidMap cu = some c ∧ c.ttype = TSDB_CHILD_TABLE ∧ c.suid = u
  indexSu : ∀ t, hashGet m.uidMap su = some t → t.pIndex.Nodup
  sortedOk : ∀ u t, hashGet m.uidMap u = some t → t.ttype ≠ TSDB_CHILD_TABLE →
    t.schema.length ≤ TSDB_MAX_TABLE_SCHEMAS ∧
      (t.schema.map STSchema.version).Chain' (· < ·)
  suOk : ∀ t, hashGet m.uidMap su = some t → t.ttype = TSDB_SUPER_TABLE
  remOk : ∀ cu ∈ rem, hashGet m.uidMap cu = none ∨
    ∃ c, hashGet m.uidMap cu = some c ∧ c.ttype = TSDB_CHILD_TABLE ∧ c.suid = su
  childrenRem : ∀ u t, hashGet m.uidMap u = some t → t.ttype = TSDB_CHILD_TABLE →
    t.suid = su → u ∈ rem

def reinsChild (t : STable) : STable := { t with pSuper := some t.suid }

def reinsSuper (m : STsdbMeta) (t s : STable) : STable :=
  { s with pIndex :=
      slInsert (idxKeyOf m) ((getTagIndexKey m (reinsChild t)).getD []) t.uid s.pIndex }

def rekeySuper (keyOf : Nat → List Nat) (kk : List Nat) (c s : STable) : STable :=
  { s with pIndex := slInsert keyOf kk c.uid (s.pIndex.filter (fun u => u ≠ c.uid)) }

def rekeyChild (c : STable) (newTv : SKVRow) : STable :=
  { c with tagVal := newTv, pSuper := some c.suid }

def tagStepMid (m : STsdbMeta) (t : STable) (msg : SUpdateTableTagValMsg) (s : STable) :
    STsdbMeta :=
  tagPut ({ m with uidMap := hashPut m.uidMap t.suid (filtSuper s t.uid) }) (tagValNew t msg)

/-! ## The maxima as upper bounds (support for the `max_cols` claim) -/

def MaxesB (m : STsdbMeta) : Prop :=
  ∀ u t, hashGet m.uidMap u = some t →
    t.ttype = TSDB_NORMAL_TABLE ∨ t.ttype = TSDB_STREAM_TABLE →
    ∀ sch, t.schema.getLast? = some sch →
      schemaNCols sch ≤ m.maxCols ∧ schemaTLen sch ≤ m.maxRowBytes

def rescanStep (m : STsdbMeta) (acc : Nat × Nat) (slot : Option Nat) : Nat × Nat :=
  match slot with
  | none => acc
  | some u =>
      match tsdbGetTableByUid m u with
      | none => acc
      | some t =>
          match tsdbGetTableSchema m t with
          | none => acc
          | some sch => (Nat.max acc.1 (schemaNCols sch), Nat.max acc.2 (schemaTLen sch))

/-! ## Restore-then-organize roundtrip (support for the refinement claim) -/

def liveRecords (m : STsdbMeta) : List (List Nat) :=
  m.uidMap.map (fun p => taosCalcChecksumAppend (tsdbEncodeTable p.2))

def restoreAll (r : STsdbRepo) (recs : List (List Nat)) : STsdbRepo :=
  recs.foldl (fun acc c => (tsdbRestoreTable acc c).repo) r

def metaRoundtrip (m : STsdbMeta) : STsdbMeta :=
  tsdbOrgMeta (restoreAll (freshRepo m.maxTables) (liveRecords m)).meta

structure RestoreInv (m : STsdbMeta) (processed : List (Nat × STable))
    (R : STsdbMeta) : Prop where
  maxT : R.maxTables = m.maxTables
  tlen : R.tables.length = m.maxTables
  keys : R.uidMap.map Prod.fst = processed.map Prod.fst
  look : ∀ u, hashGet R.uidMap u = (hashGet processed u).map decodedView
  slotA : ∀ i u, R.tables.getD i none = some u → m.tables.getD i none = some u
  slotB : ∀ i u, m.tables.getD i none = some u → (hashGet processed u).isSome →
    R.tables.getD i none = some u
  slotD : ∀ i, m.tables.getD i none = none → R.tables.getD i none = none

def orgStep (acc : STsdbMeta) (i : Nat) : STsdbMeta :=
  if i = 0 then acc
  else
    match acc.tables.getD i none with
    | none => acc
    | some u =>
        match tsdbGetTableByUid acc u with
        | none => acc
        | some t => if t.ttype = TSDB_CHILD_TABLE then tsdbAddTableIntoIndex acc t else acc

structure OrgInv (m : STsdbMeta) (k : Nat) (Mo : STsdbMeta) : Prop where
  maxT : Mo.maxTables = m.maxTables
  slots : ∀ i, Mo.tables.getD i none = m.tables.getD i none
  other : ∀ u t, hashGet m.uidMap u = some t →
    t.ttype = TSDB_NORMAL_TABLE ∨ t.ttype = TSDB_STREAM_TABLE →
    hashGet Mo.uidMap u = some (decodedView t)
  child : ∀ u t, hashGet m.uidMap u = some t → t.ttype = TSDB_CHILD_TABLE →
    hashGet Mo.uidMap u =
      some (if t.tid.toNat < k then reinsChild (decodedView t) else decodedView t)
  superEx : ∀ u t, hashGet m.uidMap u = some t → t.ttype = TSDB_SUPER_TABLE →
    ∃ pI, hashGet Mo.uidMap u = some { decodedView t with pIndex := pI } ∧
      ∀ cu, (cu ∈ pI ↔ ∃ c, hashGet m.uidMap cu = some c ∧ c.ttype = TSDB_CHILD_TABLE ∧
        c.suid = u ∧ c.tid.toNat < k)
  none_ : ∀ u, hashGet m.uidMap u = none → hashGet Mo.uidMap u = none

def metaEquivRT (m : STsdbMeta) : Prop :=
  (∀ u, hashGet m.uidMap u = none → hashGet (metaRoundtrip m).uidMap u = none) ∧
  (∀ u t, hashGet m.uidMap u = some t → t.ttype = TSDB_CHILD_TABLE →
    hashGet (metaRoundtrip m).uidMap u = some t) ∧
  (∀ u t, hashGet m.uidMap u = some t → t.ttype = TSDB_NORMAL_TABLE →
    hashGet (metaRoundtrip m).uidMap u = some { t with suid := 0 }) ∧
  (∀ u t, hashGet m.uidMap u = some t → t.ttype = TSDB_STREAM_TABLE →
    hashGet (metaRoundtrip m).uidMap u =
      some { t with suid := 0, sql := some (t.sql.getD []) }) ∧
  (∀ u t, hashGet m.uidMap u = some t → t.ttype = TSDB_SUPER_TABLE →
    ∃ pI, hashGet (metaRoundtrip m).uidMap u = some { t with suid := 0, pIndex := pI } ∧
      ∀ cu, (cu ∈ pI ↔ cu ∈ t.pIndex))

/-! ## Concrete fixtures for witnesses and counterexamples -/

def ts0 : STSchema := ⟨0, [⟨1, 4, 4⟩]⟩

def ds0 : STSchema := ⟨0, [⟨0, 9, 8⟩]⟩

def cfgC1 : STableCfg :=
  ⟨TSDB_CHILD_TABLE, 11, 1, 10, [65], [83], ds0, some ts0, [⟨1, 4, [42]⟩], none⟩

def cfgC2 : STableCfg :=
  ⟨TSDB_CHILD_TABLE, 12, 2, 10, [66], [83], ds0, some ts0, [⟨1, 4, [7]⟩], none⟩

def cfgN : STableCfg := ⟨TSDB_NORMAL_TABLE, 21, 3, 0, [78], [], ds0, none, [], none⟩

def cfgCBad : STableCfg :=
  ⟨TSDB_CHILD_TABLE, 22, 2, 21, [67], [78], ds0, some ts0, [⟨1, 4, [9]⟩], none⟩

def msgT : SUpdateTableTagValMsg := ⟨11, 1, 0, 1, 4, [3], none⟩

def tX : STable := ⟨TSDB_NORMAL_TABLE, [78], 5, 2, 0, [ds0], none, [], none, none, []⟩

def tS1 : STable :=
  ⟨TSDB_SUPER_TABLE, [83], 10, -1, 2 ^ 64 - 1, [ds0], some ts0, [], none, none, [11]⟩

def tS0 : STable :=
  ⟨TSDB_SUPER_TABLE, [83], 10, -1, 2 ^ 64 - 1, [ds0], some ts0, [], none, none, []⟩

def tC1 : STable :=
  ⟨TSDB_CHILD_TABLE, [65], 11, 1, 10, [], none, [⟨1, 4, [42]⟩], none, some 10, []⟩

def tN1 : STable := ⟨TSDB_NORMAL_TABLE, [78], 21, 3, 2 ^ 64 - 1, [ds0], none, [], none, none, []⟩

def tCu : STable :=
  ⟨TSDB_CHILD_TABLE, [65], 11, 1, 10, [], none, [⟨1, 4, [42]⟩], none, none, []⟩

def rC1 : STsdbRepo := applySeq (freshRepo 4) [DDLOp.create cfgC1]

def rC2 : STsdbRepo := applySeq (freshRepo 4) [DDLOp.create cfgC1, DDLOp.create cfgC2]

def rN : STsdbRepo := applySeq (freshRepo 4) [DDLOp.create cfgN]

def rDrop : STsdbRepo := applySeq (freshRepo 4) [DDLOp.create cfgC1, DDLOp.dropT 11]

theorem encBytes_length (k n : Nat) : (encBytes k n).length = k := by
  induction k generalizing n with
  | zero => rfl
  | succ k ih => simp [encBytes, ih]

theorem decBytes_encBytes (k : Nat) (n : Nat) (rest : List Nat) :
    decBytes k (encBytes k n ++ rest) = some (n % 256 ^ k, rest) := by
  induction k generalizing n with
  | zero => simp [encBytes, decBytes, Nat.mod_one]
  | succ k ih =>
      have h : 256 ^ (k + 1) = 256 * 256 ^ k := by ring
      simp only [encBytes, decBytes, List.cons_append, ih, Option.map_some']
      rw [h, Nat.mod_mul]

theorem decBytes_encBytes_of_lt {k n : Nat} (h : n < 256 ^ k) (rest : List Nat) :
    decBytes k (encBytes k n ++ rest) = some (n, rest) := by
  rw [decBytes_encBytes, Nat.mod_eq_of_lt h]

theorem decFixedU8_enc {n : Nat} (h : n < 2 ^ 8) (rest : List Nat) :
    decFixedU8 (encFixedU8 n ++ rest) = some (n, rest) :=
  decBytes_encBytes_of_lt (by norm_num at h ⊢; omega) rest

theorem decFixedU16_enc {n : Nat} (h : n < 2 ^ 16) (rest : List Nat) :
    decFixedU16 (encFixedU16 n ++ rest) = some (n, rest) :=
  decBytes_encBytes_of_lt (by norm_num at h ⊢; omega) rest

theorem decFixedU32_enc {n : Nat} (h : n < 2 ^ 32) (rest : List Nat) :
    decFixedU32 (encFixedU32 n ++ rest) = some (n, rest) :=
  decBytes_encBytes_of_lt (by norm_num at h ⊢; omega) rest

theorem decFixedU64_enc {n : Nat} (h : n < 2 ^ 64) (rest : List Nat) :
    decFixedU64 (encFixedU64 n ++ rest) = some (n, rest) :=
  decBytes_encBytes_of_lt (by norm_num at h ⊢; omega) rest

theorem decFixedI32_enc {v : Int} (h1 : -(2 ^ 31) ≤ v) (h2 : v < 2 ^ 31) (rest : List Nat) :
    decFixedI32 (encFixedI32 v ++ rest) = some (v, rest) := by
  unfold decFixedI32 encFixedI32
  have hnn : (0 : Int) ≤ v % (2 ^ 32 : Int) := Int.emod_nonneg v (by norm_num)
  have hub : v % (2 ^ 32 : Int) < 2 ^ 32 := Int.emod_lt_of_pos v (by norm_num)
  have hlt : (v % (2 ^ 32 : Int)).toNat < 256 ^ 4 := by norm_num; omega
  rw [decBytes_encBytes_of_lt hlt]
  have hval : (if (v % (2 ^ 32 : Int)).toNat < 2 ^ 31 then (((v % (2 ^ 32 : Int)).toNat : Nat) : Int)
      else (((v % (2 ^ 32 : Int)).toNat : Nat) : Int) - 2 ^ 32) = v := by
    split <;> omega
  simp only [Option.map_some', hval]

theorem decVarBytes_enc {l : List Nat} (h : l.length < 2 ^ 16) (rest : List Nat) :
    decVarBytes (encVarBytes l ++ rest) = some (l, rest) := by
  unfold decVarBytes encVarBytes
  rw [List.append_assoc, decFixedU16_enc h]
  simp only [Option.bind_eq_bind, Option.some_bind]
  rw [if_pos (by simp)]
  rw [List.take_left, List.drop_left]

theorem decList_enc {α : Type} {enc1 : α → List Nat} {dec1 : List Nat → Option (α × List Nat)}
    (l : List α) (hitem : ∀ x ∈ l, ∀ r, dec1 (enc1 x ++ r) = some (x, r)) (rest : List Nat) :
    decList dec1 l.length ((l.map enc1).flatten ++ rest) = some (l, rest) := by
  induction l with
  | nil => simp [decList]
  | cons x xs ih =>
      simp only [List.map_cons, List.flatten_cons, List.length_cons, decList, List.append_assoc]
      rw [hitem x (List.mem_cons_self x xs)]
      simp only [Option.bind_eq_bind, Option.some_bind]
      rw [ih (fun y hy r => hitem y (List.mem_cons_of_mem x hy) r)]
      simp only [Option.some_bind]

theorem tdDecodeColumn_enc {c : STColumn} (h : wfColumn c) (rest : List Nat) :
    tdDecodeColumn (tdEncodeColumn c ++ rest) = some (c, rest) := by
  obtain ⟨h1, h2, h3⟩ := h
  unfold tdDecodeColumn tdEncodeColumn
  rw [List.append_assoc, List.append_assoc, decFixedU16_enc (by omega)]
  simp only [Option.bind_eq_bind, Option.some_bind]
  rw [decFixedU8_enc (by omega)]
  simp only [Option.some_bind]
  rw [decFixedU16_enc (by omega)]
  simp only [Option.some_bind]

theorem tdDecodeSchema_enc {s : STSchema} (h : wfSchema s) (rest : List Nat) :
    tdDecodeSchema (tdEncodeSchema s ++ rest) = some (s, rest) := by
  obtain ⟨h1, h2, h3⟩ := h
  unfold tdDecodeSchema tdEncodeSchema
  rw [List.append_assoc, List.append_assoc, decFixedU32_enc (by omega)]
  simp only [Option.bind_eq_bind, Option.some_bind]
  rw [decFixedU16_enc (by omega)]
  simp only [Option.some_bind]
  rw [decList_enc s.columns (fun c hc r => tdDecodeColumn_enc (h3 c hc) r)]
  simp only [Option.some_bind]

theorem tdDecodeKVEntry_enc {e : SKVEntry} (h : wfKVEntry e) (rest : List Nat) :
    tdDecodeKVEntry (tdEncodeKVEntry e ++ rest) = some (e, rest) := by
  obtain ⟨h1, h2, h3⟩ := h
  unfold tdDecodeKVEntry tdEncodeKVEntry
  rw [List.append_assoc, List.append_assoc, decFixedU16_enc (by omega)]
  simp only [Option.bind_eq_bind, Option.some_bind]
  rw [decFixedU8_enc (by omega)]
  simp only [Option.some_bind]
  rw [decVarBytes_enc h3]
  simp only [Option.some_bind]

theorem tdDecodeKVRow_enc {r : SKVRow} (h : wfKVRow r) (rest : List Nat) :
    tdDecodeKVRow (tdEncodeKVRow r ++ rest) = some (r, rest) := by
  obtain ⟨h1, h2⟩ := h
  unfold tdDecodeKVRow tdEncodeKVRow
  rw [List.append_assoc, decFixedU16_enc (by omega)]
  simp only [Option.bind_eq_bind, Option.some_bind]
  rw [decList_enc r (fun e he rr => tdDecodeKVEntry_enc (h2 e he) rr)]
  simp only [Option.some_bind]

theorem tcksum_lt (l : List Nat) : tcksum l < 2 ^ 32 := by
  unfold tcksum
  induction l using List.reverseRecOn with
  | nil => norm_num
  | append_singleton xs x _ =>
      rw [List.foldl_append]
      exact Nat.mod_lt _ (by norm_num)

theorem check_calcAppend (l : List Nat) :
    taosCheckChecksumWhole (taosCalcChecksumAppend l) = true := by
  unfold taosCheckChecksumWhole taosCalcChecksumAppend
  have hlen : (l ++ encFixedU32 (tcksum l)).length = l.length + 4 := by
    simp [encFixedU32, encBytes_length]
  rw [hlen]
  have h4 : l.length + 4 - 4 = l.length := by omega
  rw [h4, List.take_left, List.drop_left]
  simp

theorem tsdbDecodeTable_enc {t : STable} (h : wfTable t) (rest : List Nat) :
    tsdbDecodeTable (tsdbEncodeTable t ++ rest) = some (decodedView t, rest) := by
  obtain ⟨h1, h2, h3, h4, h5, h6, h7, h8, h9, h10, h11⟩ := h
  unfold tsdbDecodeTable tsdbEncodeTable decodedView
  simp only [List.append_assoc]
  rw [decFixedU8_enc h1]
  simp only [Option.bind_eq_bind, Option.some_bind]
  rw [tsdbEncodeTableName, decVarBytes_enc (by omega)]
  simp only [Option.some_bind]
  rw [decFixedU64_enc h3]
  simp only [Option.some_bind]
  rw [decFixedI32_enc h4 h5]
  simp only [Option.some_bind]
  by_cases hc : t.ttype = TSDB_CHILD_TABLE
  · rw [if_pos hc, if_pos hc, if_pos hc]
    simp only [List.append_assoc]
    rw [decFixedU64_enc h6]
    simp only [Option.some_bind]
    rw [tdDecodeKVRow_enc h9]
    simp only [Option.some_bind]
  · rw [if_neg hc, if_neg hc, if_neg hc]
    simp only [List.append_assoc]
    rw [decFixedU8_enc h7]
    simp only [Option.some_bind]
    rw [decList_enc t.schema (fun s hs r => tdDecodeSchema_enc (h8 s hs) r)]
    simp only [Option.some_bind]
    by_cases hsup : t.ttype = TSDB_SUPER_TABLE
    · rw [if_pos hsup, if_pos hsup, if_pos hsup]
      have hst : t.ttype ≠ TSDB_STREAM_TABLE := by
        rw [hsup]; unfold TSDB_SUPER_TABLE TSDB_STREAM_TABLE; omega
      rw [if_neg hst]
      try simp only [List.append_nil, List.nil_append, List.append_assoc]
      have hwts : wfSchema (t.tagSchema.getD emptySchema) := by
        cases hts : t.tagSchema with
        | none => simp [hts, emptySchema, wfSchema]
        | some ts => simp only [hts, Option.getD_some]; exact h10 ts hts
      rw [tdDecodeSchema_enc hwts]
      simp only [Option.some_bind]
    · rw [if_neg hsup, if_neg hsup, if_neg hsup]
      simp only [List.nil_append]
      by_cases hstr : t.ttype = TSDB_STREAM_TABLE
      · rw [if_pos hstr, if_pos hstr, if_pos hstr]
        have hwq : (t.sql.getD []).length < 2 ^ 16 := by
          cases hq : t.sql with
          | none => simp [hq]
          | some q => simp only [hq, Option.getD_some]; exact h11 q hq
        rw [decVarBytes_enc hwq]
        simp only [Option.some_bind]
      · rw [if_neg hstr, if_neg hstr, if_neg hstr]
        simp only [List.nil_append, List.append_nil]

theorem mem_slInsert {keyOf : Nat → List Nat} {k : List Nat} {u w : Nat} {l : List Nat} :
    w ∈ slInsert keyOf k u l ↔ w = u ∨ w ∈ l := by
  induction l with
  | nil => simp [slInsert]
  | cons v rest ih =>
      unfold slInsert
      split
      · simp
      · simp only [List.mem_cons, ih]
        tauto

/-- A repository state reachable from a fresh meta by a sequence of
vetted DDL operations. -/
inductive Reachable : STsdbRepo → Prop where
  | fresh (n : Nat) : Reachable (freshRepo n)
  | step {r : STsdbRepo} (op : DDLOp) : Reachable r → okOp r op → Reachable (applyOp r op)

/-! ## Map lemmas -/

theorem hashGet_put (mp : List (Nat × STable)) (k : Nat) (v : STable) (k' : Nat) :
    hashGet (hashPut mp k v) k' = if k = k' then some v else hashGet mp k' := by
  induction mp with
  | nil => rfl
  | cons p rest ih =>
      obtain ⟨pk, pv⟩ := p
      simp only [hashPut]
      by_cases h1 : pk = k
      · rw [if_pos h1]
        simp only [hashGet]
        by_cases h2 : k = k'
        · rw [if_pos h2, if_pos h2]
        · rw [if_neg h2, if_neg h2, if_neg (fun hh : pk = k' => h2 (h1 ▸ hh))]
      · rw [if_neg h1]
        simp only [hashGet]
        by_cases h2 : pk = k'
        · have hkk : ¬k = k' := fun hh => h1 (by rw [h2, hh])
          rw [if_pos h2, if_pos h2, if_neg hkk]
        · rw [if_neg h2, if_neg h2, ih]

theorem hashGet_keys_none {mp : List (Nat × STable)} {k : Nat}
    (h : k ∉ mp.map Prod.fst) : hashGet mp k = none := by
  induction mp with
  | nil => rfl
  | cons p rest ih =>
      obtain ⟨pk, pv⟩ := p
      simp only [List.map_cons, List.mem_cons] at h
      push_neg at h
      simp only [hashGet]
      rw [if_neg (fun hh : pk = k => h.1 hh.symm)]
      exact ih h.2

theorem hashGet_remove {mp : List (Nat × STable)} (hnd : (mp.map Prod.fst).Nodup)
    (k k' : Nat) :
    hashGet (hashRemove mp k) k' = if k = k' then none else hashGet mp k' := by
  induction mp with
  | nil =>
      simp only [hashRemove, hashGet]
      by_cases h : k = k'
      · rw [if_pos h]
      · rw [if_neg h]
  | cons p rest ih =>
      obtain ⟨pk, pv⟩ := p
      simp only [List.map_cons, List.nodup_cons] at hnd
      simp only [hashRemove]
      by_cases h1 : pk = k
      · rw [if_pos h1]
        by_cases h2 : k = k'
        · rw [if_pos h2]
          exact hashGet_keys_none (fun hmem => hnd.1 (by rw [h1, h2]; exact hmem))
        · rw [if_neg h2]
          simp only [hashGet]
          rw [if_neg (fun hh : pk = k' => h2 (h1 ▸ hh))]
      · rw [if_neg h1]
        simp only [hashGet]
        by_cases h2 : pk = k'
        · have hkk : ¬k = k' := fun hh => h1 (by rw [h2, hh])
          rw [if_pos h2, if_neg hkk, if_pos h2]
        · rw [if_neg h2, if_neg h2, ih hnd.2]

theorem keys_put_subset (mp : List (Nat × STable)) (k : Nat) (v : STable) :
    ((hashPut mp k v).map Prod.fst) ⊆ (mp.map Prod.fst) ++ [k] := by
  induction mp with
  | nil => simp [hashPut]
  | cons p rest ih =>
      obtain ⟨pk, pv⟩ := p
      simp only [hashPut]
      by_cases h1 : pk = k
      · rw [if_pos h1]
        simp only [List.map_cons]
        intro x hx
        rcases List.mem_cons.1 hx with h | h
        · simp [h, h1]
        · simp only [List.cons_append, List.mem_cons, List.mem_append]
          right
          left
          exact h
      · rw [if_neg h1]
        simp only [List.map_cons]
        intro x hx
        rcases List.mem_cons.1 hx with h | h
        · simp [h]
        · have := ih h
          simp only [List.cons_append, List.mem_cons]
          right
          exact this

theorem keys_put_nodup {mp : List (Nat × STable)} (hnd : (mp.map Prod.fst).Nodup)
    (k : Nat) (v : STable) : ((hashPut mp k v).map Prod.fst).Nodup := by
  induction mp with
  | nil => simp [hashPut]
  | cons p rest ih =>
      obtain ⟨pk, pv⟩ := p
      simp only [List.map_cons, List.nodup_cons] at hnd
      simp only [hashPut]
      by_cases h1 : pk = k
      · rw [if_pos h1]
        simp only [List.map_cons, List.nodup_cons]
        exact ⟨h1 ▸ hnd.1, hnd.2⟩
      · rw [if_neg h1]
        simp only [List.map_cons, List.nodup_cons]
        refine ⟨fun hmem => ?_, ih hnd.2⟩
        have := keys_put_subset rest k v hmem
        rcases List.mem_append.1 this with h | h
        · exact hnd.1 h
        · simp only [List.mem_singleton] at h
          exact h1 h

theorem keys_remove_sublist (mp : List (Nat × STable)) (k : Nat) :
    ((hashRemove mp k).map Prod.fst).Sublist (mp.map Prod.fst) := by
  induction mp with
  | nil => simp [hashRemove]
  | cons p rest ih =>
      obtain ⟨pk, pv⟩ := p
      by_cases h1 : pk = k
      · subst h1
        simp only [hashRemove, if_pos rfl, List.map_cons]
        exact (List.sublist_cons_self _ _)
      · simp only [hashRemove, if_neg h1, List.map_cons]
        exact ih.cons₂ pk

theorem keys_remove_nodup {mp : List (Nat × STable)} (hnd : (mp.map Prod.fst).Nodup)
    (k : Nat) : ((hashRemove mp k).map Prod.fst).Nodup :=
  (keys_remove_sublist mp k).nodup hnd

/-! ## Getter and index helper lemmas -/

theorem getTableSchema_nonchild {m : STsdbMeta} {t : STable}
    (h : t.ttype = TSDB_NORMAL_TABLE ∨ t.ttype = TSDB_SUPER_TABLE ∨
      t.ttype = TSDB_STREAM_TABLE) :
    tsdbGetTableSchema m t = t.schema.getLast? := by
  unfold tsdbGetTableSchema
  rw [if_pos h]

theorem getTableSchema_child {m : STsdbMeta} {t : STable} (h : t.ttype = TSDB_CHILD_TABLE) :
    tsdbGetTableSchema m t =
      (match t.pSuper with
        | none => none
        | some su =>
            match tsdbGetTableByUid m su with
            | none => none
            | some s => s.schema.getLast?) := by
  have hne : ¬(t.ttype = TSDB_NORMAL_TABLE ∨ t.ttype = TSDB_SUPER_TABLE ∨
      t.ttype = TSDB_STREAM_TABLE) := by
    rw [h]; decide
  unfold tsdbGetTableSchema
  rw [if_neg hne, if_pos h]

theorem getTableTagSchema_super {m : STsdbMeta} {t : STable} (h : t.ttype = TSDB_SUPER_TABLE) :
    tsdbGetTableTagSchema m t = t.tagSchema := by
  unfold tsdbGetTableTagSchema
  rw [if_pos h]

theorem getTableTagSchema_child {m : STsdbMeta} {t : STable} (h : t.ttype = TSDB_CHILD_TABLE) :
    tsdbGetTableTagSchema m t =
      (match t.pSuper with
        | none => none
        | some su =>
            match tsdbGetTableByUid m su with
            | none => none
            | some s => s.tagSchema) := by
  have hne : ¬t.ttype = TSDB_SUPER_TABLE := by rw [h]; decide
  unfold tsdbGetTableTagSchema
  rw [if_neg hne, if_pos h]

theorem slInsert_perm (keyOf : Nat → List Nat) (k : List Nat) (u : Nat) (l : List Nat) :
    (slInsert keyOf k u l).Perm (u :: l) := by
  induction l with
  | nil => simp [slInsert]
  | cons v rest ih =>
      unfold slInsert
      split
      · exact List.Perm.refl _
      · exact (ih.cons v).trans (List.Perm.swap u v rest)

theorem mem_tdSet {row : SKVRow} {c ty : Nat} {d : List Nat} {e : SKVEntry}
    (h : e ∈ tdSetKVRowDataOfCol row c ty d) : e = ⟨c, ty, d⟩ ∨ e ∈ row := by
  induction row with
  | nil =>
      simp only [tdSetKVRowDataOfCol, List.mem_singleton] at h
      exact Or.inl h
  | cons e' rest ih =>
      unfold tdSetKVRowDataOfCol at h
      by_cases hc : e'.colId = c
      · rw [if_pos hc] at h
        rcases List.mem_cons.1 h with h | h
        · exact Or.inl h
        · exact Or.inr (List.mem_cons_of_mem _ h)
      · rw [if_neg hc] at h
        rcases List.mem_cons.1 h with h | h
        · exact Or.inr (h ▸ List.mem_cons_self _ _)
        · rcases ih h with h | h
          · exact Or.inl h
          · exact Or.inr (List.mem_cons_of_mem _ h)

theorem mem_colId_tdSet {row : SKVRow} {c ty : Nat} {d : List Nat} {x : Nat}
    (h : x ∈ (tdSetKVRowDataOfCol row c ty d).map SKVEntry.colId) :
    x = c ∨ x ∈ row.map SKVEntry.colId := by
  rcases List.mem_map.1 h with ⟨e, he, hx⟩
  rcases mem_tdSet he with h | h
  · left; rw [← hx, h]
  · right; rw [← hx]; exact List.mem_map_of_mem _ h

theorem wfTagVal_tdSet {row : SKVRow} {c ty : Nat} {d : List Nat} (h : wfTagVal row)
    (h1 : c < 2 ^ 15) (h2 : ty < 2 ^ 8) (h3 : d.length < 2 ^ 16) :
    wfTagVal (tdSetKVRowDataOfCol row c ty d) := by
  obtain ⟨hnd, hall⟩ := h
  induction row with
  | nil =>
      exact ⟨by simp [tdSetKVRowDataOfCol], by
        intro e he
        simp only [tdSetKVRowDataOfCol, List.mem_singleton] at he
        rw [he]; exact ⟨h1, h2, h3⟩⟩
  | cons e' rest ih =>
      simp only [List.map_cons, List.nodup_cons] at hnd
      unfold tdSetKVRowDataOfCol
      by_cases hc : e'.colId = c
      · rw [if_pos hc]
        refine ⟨?_, ?_⟩
        · simp only [List.map_cons, List.nodup_cons]
          exact ⟨hc ▸ hnd.1, hnd.2⟩
        · intro e he
          rcases List.mem_cons.1 he with h | h
          · rw [h]; exact ⟨h1, h2, h3⟩
          · exact hall e (List.mem_cons_of_mem _ h)
      · rw [if_neg hc]
        have ihr := ih hnd.2 (fun e he => hall e (List.mem_cons_of_mem _ he))
        refine ⟨?_, ?_⟩
        · simp only [List.map_cons, List.nodup_cons]
          refine ⟨fun hmem => ?_, ihr.1⟩
          rcases mem_colId_tdSet hmem with h | h
          · exact hc h
          · exact hnd.1 h
        · intro e he
          rcases List.mem_cons.1 he with h | h
          · exact hall e' (List.mem_cons_self _ _) |>.imp id id |> (h ▸ ·)
          · exact ihr.2 e h

theorem wfTagVal_wfKVRow {row : SKVRow} (h : wfTagVal row) : wfKVRow row := by
  obtain ⟨hnd, hall⟩ := h
  refine ⟨?_, fun e he => hall e he⟩
  have hlen : row.length = (row.map SKVEntry.colId).length := (List.length_map _ _).symm
  rw [hlen]
  have hcard : (row.map SKVEntry.colId).toFinset.card = (row.map SKVEntry.colId).length :=
    List.toFinset_card_of_nodup hnd
  have hsub : (row.map SKVEntry.colId).toFinset ⊆ Finset.range (2 ^ 15) := by
    intro x hx
    rcases List.mem_map.1 (List.mem_toFinset.1 hx) with ⟨e, he, hex⟩
    exact Finset.mem_range.2 (hex ▸ (hall e he).1)
  calc (row.map SKVEntry.colId).length = (row.map SKVEntry.colId).toFinset.card := hcard.symm
    _ ≤ (Finset.range (2 ^ 15)).card := Finset.card_le_card hsub
    _ = 2 ^ 15 := Finset.card_range _
    _ < 2 ^ 16 := by norm_num

/-! ## Preservation: updating one entry in place -/

theorem kind_super_ne_child : TSDB_SUPER_TABLE ≠ TSDB_CHILD_TABLE := by decide

theorem getByUid_set_meta (m : STsdbMeta) (mp2 : List (Nat × STable)) (mc2 mrb2 : Nat)
    (u : Nat) :
    tsdbGetTableByUid { m with uidMap := mp2, maxCols := mc2, maxRowBytes := mrb2 } u =
      hashGet mp2 u := rfl

theorem getTableSchema_child_link {m : STsdbMeta} {t : STable} (hch : t.ttype = TSDB_CHILD_TABLE)
    {su : Nat} (hps : t.pSuper = some su) {s : STable} (hs : tsdbGetTableByUid m su = some s) :
    tsdbGetTableSchema m t = s.schema.getLast? := by
  rw [getTableSchema_child hch, hps]
  show (match tsdbGetTableByUid m su with
    | none => none
    | some s => s.schema.getLast?) = s.schema.getLast?
  rw [hs]

theorem kind_cases_nonchild {m : STsdbMeta} (hInv : MetaInv m) {u : Nat} {t : STable}
    (h : hashGet m.uidMap u = some t) (hnc : t.ttype ≠ TSDB_CHILD_TABLE) :
    t.ttype = TSDB_NORMAL_TABLE ∨ t.ttype = TSDB_SUPER_TABLE ∨ t.ttype = TSDB_STREAM_TABLE := by
  rcases hInv.kinds u t h with h1 | h1 | h1 | h1
  · right; left; exact h1
  · exact absurd h1 hnc
  · left; exact h1
  · right; right; exact h1

/-- Replacing a registered table by a value that agrees on identity,
kind, location and linkage fields — only the tag schema and the schema
history may change, within the invariant's shape — and raising the
maxima accordingly preserves the meta invariant. -/
theorem metaInv_update_entry {m : STsdbMeta} (hInv : MetaInv m) {uid : Nat} {t t2 : STable}
    (hget : hashGet m.uidMap uid = some t)
    {mc2 mrb2 : Nat}
    (hwf2 : wfTable t2)
    (heqt : t2.ttype = t.ttype) (hequ : t2.uid = t.uid)
    (heqd : t2.tid = t.tid) (heqs : t2.suid = t.suid)
    (heqv : t2.tagVal = t.tagVal ∨ (t.ttype = TSDB_CHILD_TABLE ∧ wfTagVal t2.tagVal))
    (heqq : t2.sql = t.sql) (heqp : t2.pSuper = t.pSuper) (heqi : t2.pIndex = t.pIndex)
    (htag : t2.tagSchema = t.tagSchema ∨
      (t.ttype = TSDB_SUPER_TABLE ∧ ∃ ts, t2.tagSchema = some ts ∧ ts.columns ≠ []))
    (hsch : t2.schema = t.schema ∨
      (t.ttype ≠ TSDB_CHILD_TABLE ∧ t2.schema ≠ [] ∧
        t2.schema.length ≤ TSDB_MAX_TABLE_SCHEMAS ∧
        (t2.schema.map STSchema.version).Chain' (· < ·))) :
    MetaInv { m with uidMap := hashPut m.uidMap uid t2, maxCols := mc2, maxRowBytes := mrb2 } := by
  have huid : t.uid = uid := hInv.uidEq uid t hget
  have hsuid_ne : t.ttype = TSDB_CHILD_TABLE → t.suid ≠ uid := by
    intro hch heq
    obtain ⟨_, _, _, _, _, _, s, hs, hstype, _⟩ := hInv.childOk uid t hget hch
    rw [heq, hget] at hs
    have hst := Option.some.inj hs
    rw [← hst] at hstype
    rw [hch] at hstype
    exact kind_super_ne_child hstype.symm
  have hL : ∀ u, hashGet (hashPut m.uidMap uid t2) u =
      if uid = u then some t2 else hashGet m.uidMap u := fun u => hashGet_put _ _ _ _
  refine ⟨?_, ?_, ?_, ?_, ?_, ?_, ?_, ?_, ?_, ?_, ?_, ?_, ?_, ?_⟩
  · -- tablesLen
    exact hInv.tablesLen
  · -- keysNodup
    exact keys_put_nodup hInv.keysNodup _ _
  · -- uidEq
    intro u t' h
    by_cases huu : uid = u
    · rw [hL, if_pos huu] at h
      cases Option.some.inj h
      exact (hequ.trans huid).trans huu
    · rw [hL, if_neg huu] at h
      exact hInv.uidEq u t' h
  · -- wf
    intro u t' h
    by_cases huu : uid = u
    · rw [hL, if_pos huu] at h
      cases Option.some.inj h
      exact hwf2
    · rw [hL, if_neg huu] at h
      exact hInv.wf u t' h
  · -- kinds
    intro u t' h
    by_cases huu : uid = u
    · rw [hL, if_pos huu] at h
      cases Option.some.inj h
      rw [heqt]
      exact hInv.kinds uid t hget
    · rw [hL, if_neg huu] at h
      exact hInv.kinds u t' h
  · -- superOk
    intro u t' h htyp
    by_cases huu : uid = u
    · rw [hL, if_pos huu] at h
      cases Option.some.inj h
      rw [heqt] at htyp
      obtain ⟨o1, o2, o3, o4, o5, o6, o7, o8⟩ := hInv.superOk uid t hget htyp
      have heqvL : t2.tagVal = t.tagVal := by
        rcases heqv with hh | ⟨hh, _⟩
        · exact hh
        · rw [htyp] at hh
          exact absurd hh (by decide)
      refine ⟨heqd.trans o1, heqs.trans o2, ?_, heqvL.trans o4, heqq.trans o5, heqp.trans o6,
        ?_, ?_⟩
      · rcases htag with htag | ⟨_, ts, hts, htsne⟩
        · rw [htag]; exact o3
        · exact ⟨ts, hts, htsne⟩
      · rcases hsch with hsch | ⟨_, hne, _⟩
        · rw [hsch]; exact o7
        · exact hne
      · rw [← huu]; exact o8
    · rw [hL, if_neg huu] at h
      exact hInv.superOk u t' h htyp
  · -- childOk
    intro u t' h htyp
    by_cases huu : uid = u
    · rw [hL, if_pos huu] at h
      cases Option.some.inj h
      rw [heqt] at htyp
      obtain ⟨c1, c2, c3, c4, c5, c6, s, hs, hstype, hmem⟩ := hInv.childOk uid t hget htyp
      have hschL : t2.schema = t.schema := by
        rcases hsch with hsch | ⟨hne, _⟩
        · exact hsch
        · exact absurd htyp hne
      have htagL : t2.tagSchema = t.tagSchema := by
        rcases htag with htag | ⟨hsup, _⟩
        · exact htag
        · rw [htyp] at hsup; exact absurd hsup.symm kind_super_ne_child
      have hwtv : wfTagVal t2.tagVal := by
        rcases heqv with hh | ⟨_, hh⟩
        · rw [hh]
          exact c5
        · exact hh
      refine ⟨hschL.trans c1, htagL.trans c2, heqq.trans c3, by rw [heqp, c4, heqs],
        hwtv, heqi.trans c6, s, ?_, hstype, ?_⟩
      · rw [heqs, hL, if_neg (fun hh => hsuid_ne htyp hh.symm)]
        exact hs
      · rw [← huu]; exact hmem
    · rw [hL, if_neg huu] at h
      obtain ⟨c1, c2, c3, c4, c5, c6, s, hs, hstype, hmem⟩ := hInv.childOk u t' h htyp
      by_cases hssu : uid = t'.suid
      · have hst : s = t := by
          rw [← hssu, hget] at hs
          exact (Option.some.inj hs).symm
        refine ⟨c1, c2, c3, c4, c5, c6, t2, ?_, ?_, ?_⟩
        · rw [hL, if_pos hssu]
        · rw [heqt, ← hst]; exact hstype
        · rw [heqi, ← hst]; exact hmem
      · exact ⟨c1, c2, c3, c4, c5, c6, s, by rw [hL, if_neg hssu]; exact hs, hstype, hmem⟩
  · -- normalOk
    intro u t' h htyp
    by_cases huu : uid = u
    · rw [hL, if_pos huu] at h
      cases Option.some.inj h
      rw [heqt] at htyp
      obtain ⟨o1, o2, o3, o4, o5, o6, o7⟩ := hInv.normalOk uid t hget htyp
      have htagL : t2.tagSchema = t.tagSchema := by
        rcases htag with htag | ⟨hsup, _⟩
        · exact htag
        · rcases htyp with hh | hh <;> (rw [hh] at hsup; exact absurd hsup (by decide))
      have heqvL : t2.tagVal = t.tagVal := by
        rcases heqv with hh | ⟨hh, _⟩
        · exact hh
        · rcases htyp with h2 | h2 <;> (rw [h2] at hh; exact absurd hh (by decide))
      refine ⟨heqs.trans o1, htagL.trans o2, heqvL.trans o3, heqp.trans o4, heqi.trans o5,
        ?_, ?_⟩
      · rcases hsch with hsch | ⟨_, hne, _⟩
        · rw [hsch]; exact o6
        · exact hne
      · intro hnorm
        rw [heqt] at hnorm
        exact heqq.trans (o7 hnorm)
    · rw [hL, if_neg huu] at h
      exact hInv.normalOk u t' h htyp
  · -- nonSuperSlot
    intro u t' h htyp
    by_cases huu : uid = u
    · rw [hL, if_pos huu] at h
      cases Option.some.inj h
      rw [heqt] at htyp
      obtain ⟨p1, p2, p3⟩ := hInv.nonSuperSlot uid t hget htyp
      refine ⟨heqd.symm ▸ p1, heqd.symm ▸ p2, ?_⟩
      rw [heqd, ← huu]
      exact p3
    · rw [hL, if_neg huu] at h
      exact hInv.nonSuperSlot u t' h htyp
  · -- slotOk
    intro i u h
    obtain ⟨t', ht', htid, htyp⟩ := hInv.slotOk i u h
    by_cases huu : uid = u
    · have htt : t' = t := by
        rw [← huu, hget] at ht'
        exact (Option.some.inj ht').symm
      refine ⟨t2, by rw [hL, if_pos huu], ?_, ?_⟩
      · rw [heqd]
        exact htt ▸ htid
      · intro hh
        rw [heqt] at hh
        exact htyp (htt ▸ hh)
    · exact ⟨t', by rw [hL, if_neg huu]; exact ht', htid, htyp⟩
  · -- superNodup
    exact hInv.superNodup
  · -- superMem
    intro su hsu
    obtain ⟨s, hs, hstype⟩ := hInv.superMem su hsu
    by_cases huu : uid = su
    · have hst : s = t := by
        rw [← huu, hget] at hs
        exact (Option.some.inj hs).symm
      exact ⟨t2, by rw [hL, if_pos huu], by rw [heqt, ← hst]; exact hstype⟩
    · exact ⟨s, by rw [hL, if_neg huu]; exact hs, hstype⟩
  · -- indexOk
    intro u t' h htyp
    by_cases huu : uid = u
    · rw [hL, if_pos huu] at h
      cases Option.some.inj h
      rw [heqt] at htyp
      obtain ⟨ind1, ind2⟩ := hInv.indexOk uid t hget htyp
      refine ⟨heqi.symm ▸ ind1, ?_⟩
      intro cu hcu
      rw [heqi] at hcu
      obtain ⟨c, hc, hct, hcs⟩ := ind2 cu hcu
      have hcu_ne : ¬uid = cu := by
        intro hh
        rw [← hh, hget] at hc
        have := Option.some.inj hc
        rw [← this, htyp] at hct
        exact kind_super_ne_child hct
      exact ⟨c, by rw [hL, if_neg hcu_ne]; exact hc, hct, huu ▸ hcs⟩
    · rw [hL, if_neg huu] at h
      obtain ⟨ind1, ind2⟩ := hInv.indexOk u t' h htyp
      refine ⟨ind1, fun cu hcu => ?_⟩
      obtain ⟨c, hc, hct, hcs⟩ := ind2 cu hcu
      by_cases hcu2 : uid = cu
      · have hct2 : c = t := by
          rw [← hcu2, hget] at hc
          exact (Option.some.inj hc).symm
        refine ⟨t2, by rw [hL, if_pos hcu2], ?_, ?_⟩
        · rw [heqt, ← hct2]; exact hct
        · rw [heqs, ← hct2]; exact hcs
      · exact ⟨c, by rw [hL, if_neg hcu2]; exact hc, hct, hcs⟩
  · -- sortedOk
    intro u t' h htyp
    by_cases huu : uid = u
    · rw [hL, if_pos huu] at h
      cases Option.some.inj h
      rw [heqt] at htyp
      rcases hsch with hsch | ⟨_, _, hlen, hchain⟩
      · rw [hsch]
        exact hInv.sortedOk uid t hget htyp
      · exact ⟨hlen, hchain⟩
    · rw [hL, if_neg huu] at h
      exact hInv.sortedOk u t' h htyp

/-! ## Preservation: `tsdbUpdateTable` -/

theorem meta_insertAct (r : STsdbRepo) (a : Nat) (t : STable) :
    (tsdbInsertTableAct r a t).meta = r.meta := rfl

theorem updateTable_meta_none {r : STsdbRepo} {uid : Nat} {cfg : STableCfg}
    (h : tsdbGetTableByUid r.meta uid = none) :
    (tsdbUpdateTable r uid cfg).2.meta = r.meta := by
  unfold tsdbUpdateTable
  rw [h]

theorem updateTable_meta_child {r : STsdbRepo} {uid : Nat} {cfg : STableCfg} {t : STable}
    (h : tsdbGetTableByUid r.meta uid = some t) (hc : t.ttype = TSDB_CHILD_TABLE) :
    (tsdbUpdateTable r uid cfg).2.meta = r.meta := by
  unfold tsdbUpdateTable
  rw [h]
  show (if t.ttype = TSDB_CHILD_TABLE then ((0 : Int), r) else _).2.meta = r.meta
  rw [if_pos hc]

theorem updateTable_meta_go {r : STsdbRepo} {uid : Nat} {cfg : STableCfg} {t : STable}
    (h : tsdbGetTableByUid r.meta uid = some t) (hc : ¬t.ttype = TSDB_CHILD_TABLE) :
    (tsdbUpdateTable r uid cfg).2.meta =
      updMeta r.meta uid (updT1 t cfg) (updT2 r.meta (updT1 t cfg) cfg) cfg := by
  unfold tsdbUpdateTable
  rw [h]
  show (if t.ttype = TSDB_CHILD_TABLE then ((0 : Int), r) else _).2.meta = _
  rw [if_neg hc]
  by_cases hch : t.ttype = TSDB_SUPER_TABLE ∨ schChangeP r.meta (updT1 t cfg) cfg
  · rw [if_pos hch]
    rfl
  · rw [if_neg hch]

theorem getLast?_tail_two {α : Type} {l : List α} (h : 2 ≤ l.length) :
    l.tail.getLast? = l.getLast? := by
  match l with
  | [] => simp at h
  | [a] => simp at h
  | a :: b :: rest =>
      show (b :: rest).getLast? = (a :: b :: rest).getLast?
      rw [List.getLast?_cons_cons]

theorem getLast?_some_of_ne_nil {α : Type} {l : List α} (h : l ≠ []) :
    ∃ x, l.getLast? = some x :=
  Option.isSome_iff_exists.1 (List.getLast?_isSome.2 h)

theorem chain_append_one {l : List STSchema} {v : STSchema}
    (hch : (l.map STSchema.version).Chain' (· < ·))
    (hlast : ∀ s, l.getLast? = some s → s.version < v.version) :
    ((l ++ [v]).map STSchema.version).Chain' (· < ·) := by
  rw [List.map_append, List.chain'_append]
  refine ⟨hch, List.chain'_singleton _, ?_⟩
  intro x hx y hy
  simp only [List.map_cons, List.map_nil, List.head?_cons, Option.mem_def,
    Option.some.injEq] at hy
  rw [List.getLast?_map] at hx
  simp only [Option.mem_def, Option.map_eq_some'] at hx
  obtain ⟨sv, hsv, hsvx⟩ := hx
  rw [← hy, ← hsvx]
  exact hlast sv hsv

theorem schema_ne_nil {m : STsdbMeta} (hInv : MetaInv m) {u : Nat} {t : STable}
    (hget : hashGet m.uidMap u = some t) (hchild : ¬t.ttype = TSDB_CHILD_TABLE) :
    t.schema ≠ [] := by
  rcases kind_cases_nonchild hInv hget hchild with h | h | h
  · exact (hInv.normalOk u t hget (Or.inl h)).2.2.2.2.2.1
  · exact (hInv.superOk u t hget h).2.2.2.2.2.2.1
  · exact (hInv.normalOk u t hget (Or.inr h)).2.2.2.2.2.1

theorem schChange_last {m : STsdbMeta} (hInv : MetaInv m) {uid : Nat} {t : STable}
    (hget : hashGet m.uidMap uid = some t) (hchild : ¬t.ttype = TSDB_CHILD_TABLE)
    {t1 : STable} (ht1s : t1.schema = t.schema) (ht1t : t1.ttype = t.ttype) {cfg : STableCfg}
    (hsc : schChangeP m t1 cfg) :
    ∀ s, t.schema.getLast? = some s → s.version < cfg.schema.version := by
  intro s hs
  unfold schChangeP at hsc
  rw [getTableSchema_nonchild (by rw [ht1t]; exact kind_cases_nonchild hInv hget hchild),
    ht1s, hs] at hsc
  simpa using hsc

theorem appendSchema_shape {m : STsdbMeta} (hInv : MetaInv m) {uid : Nat} {t : STable}
    (hget : hashGet m.uidMap uid = some t) (hchild : ¬t.ttype = TSDB_CHILD_TABLE)
    {t1 : STable} (ht1s : t1.schema = t.schema) (ht1t : t1.ttype = t.ttype) {cfg : STableCfg}
    (hsc : schChangeP m t1 cfg) :
    (appendSchema t1 cfg).schema ≠ [] ∧
      (appendSchema t1 cfg).schema.length ≤ TSDB_MAX_TABLE_SCHEMAS ∧
      ((appendSchema t1 cfg).schema.map STSchema.version).Chain' (· < ·) ∧
      (appendSchema t1 cfg).schema.getLast? = some cfg.schema ∧
      (appendSchema t1 cfg).schema.length < 2 ^ 8 ∧
      ∀ s ∈ (appendSchema t1 cfg).schema, s = cfg.schema ∨ s ∈ t.schema := by
  obtain ⟨hslen, hchain⟩ := hInv.sortedOk uid t hget hchild
  have hlast := schChange_last hInv hget hchild ht1s ht1t hsc
  unfold appendSchema
  by_cases hlen : t1.schema.length < TSDB_MAX_TABLE_SCHEMAS
  · rw [if_pos hlen]
    refine ⟨by simp, ?_, ?_, ?_, ?_, ?_⟩
    · show (t1.schema ++ [cfg.schema]).length ≤ TSDB_MAX_TABLE_SCHEMAS
      rw [List.length_append]
      simp only [List.length_singleton]
      omega
    · show ((t1.schema ++ [cfg.schema]).map STSchema.version).Chain' (· < ·)
      rw [ht1s]
      exact chain_append_one hchain hlast
    · show (t1.schema ++ [cfg.schema]).getLast? = some cfg.schema
      exact List.getLast?_concat _
    · show (t1.schema ++ [cfg.schema]).length < 2 ^ 8
      rw [List.length_append]
      simp only [List.length_singleton]
      rw [ht1s] at hlen
      unfold TSDB_MAX_TABLE_SCHEMAS at hlen
      rw [ht1s]
      omega
    · intro s hsm
      rcases List.mem_append.1 hsm with hh | hh
      · right; rw [← ht1s]; exact hh
      · left; exact List.mem_singleton.1 hh
  · rw [if_neg hlen]
    have hl16 : t.schema.length = TSDB_MAX_TABLE_SCHEMAS := by
      rw [ht1s] at hlen
      omega
    have h2le : 2 ≤ t.schema.length := by
      rw [hl16]
      unfold TSDB_MAX_TABLE_SCHEMAS
      omega
    refine ⟨by simp, ?_, ?_, ?_, ?_, ?_⟩
    · show (t1.schema.drop 1 ++ [cfg.schema]).length ≤ TSDB_MAX_TABLE_SCHEMAS
      rw [List.length_append, List.length_drop, ht1s, hl16]
      simp only [List.length_singleton]
      unfold TSDB_MAX_TABLE_SCHEMAS
      omega
    · show ((t1.schema.drop 1 ++ [cfg.schema]).map STSchema.version).Chain' (· < ·)
      rw [ht1s, List.drop_one]
      refine chain_append_one ?_ ?_
      · have hh := hchain.tail
        rw [← List.map_tail] at hh
        exact hh
      · intro s hs
        refine hlast s ?_
        rw [← getLast?_tail_two h2le]
        exact hs
    · show (t1.schema.drop 1 ++ [cfg.schema]).getLast? = some cfg.schema
      exact List.getLast?_concat _
    · show (t1.schema.drop 1 ++ [cfg.schema]).length < 2 ^ 8
      rw [List.length_append, List.length_drop, ht1s, hl16]
      simp only [List.length_singleton]
      unfold TSDB_MAX_TABLE_SCHEMAS
      omega
    · intro s hsm
      rcases List.mem_append.1 hsm with hh | hh
      · right
        rw [ht1s] at hh
        exact List.drop_subset _ _ hh
      · left; exact List.mem_singleton.1 hh

theorem updT1_ttype (t : STable) (cfg : STableCfg) : (updT1 t cfg).ttype = t.ttype := by
  unfold updT1; split <;> rfl

theorem updT1_name (t : STable) (cfg : STableCfg) : (updT1 t cfg).name = t.name := by
  unfold updT1; split <;> rfl

theorem updT1_uid (t : STable) (cfg : STableCfg) : (updT1 t cfg).uid = t.uid := by
  unfold updT1; split <;> rfl

theorem updT1_tid (t : STable) (cfg : STableCfg) : (updT1 t cfg).tid = t.tid := by
  unfold updT1; split <;> rfl

theorem updT1_suid (t : STable) (cfg : STableCfg) : (updT1 t cfg).suid = t.suid := by
  unfold updT1; split <;> rfl

theorem updT1_tagVal (t : STable) (cfg : STableCfg) : (updT1 t cfg).tagVal = t.tagVal := by
  unfold updT1; split <;> rfl

theorem updT1_sql (t : STable) (cfg : STableCfg) : (updT1 t cfg).sql = t.sql := by
  unfold updT1; split <;> rfl

theorem updT1_pSuper (t : STable) (cfg : STableCfg) : (updT1 t cfg).pSuper = t.pSuper := by
  unfold updT1; split <;> rfl

theorem updT1_pIndex (t : STable) (cfg : STableCfg) : (updT1 t cfg).pIndex = t.pIndex := by
  unfold updT1; split <;> rfl

theorem updT1_schema (t : STable) (cfg : STableCfg) : (updT1 t cfg).schema = t.schema := by
  unfold updT1; split <;> rfl

theorem updT1_tagSchema {cfg : STableCfg} (hcfg : wfUpdateCfg cfg) (t : STable) :
    (updT1 t cfg).tagSchema = t.tagSchema ∨
      (t.ttype = TSDB_SUPER_TABLE ∧
        ∃ ts, (updT1 t cfg).tagSchema = some ts ∧ wfSchema ts ∧ ts.columns ≠ []) := by
  unfold updT1
  split
  · rename_i h
    obtain ⟨h1, h2⟩ := h
    right
    refine ⟨h1, ?_⟩
    cases hcs : cfg.tagSchema with
    | none =>
        rw [hcs] at h2
        simp only [Option.getD_none] at h2
        exact absurd h2 (by simp [emptySchema])
    | some ts =>
        obtain ⟨hwfts, htsne⟩ := hcfg.2 ts hcs
        exact ⟨ts, rfl, hwfts, htsne⟩
  · left; rfl

theorem appendSchema_ttype (t1 : STable) (cfg : STableCfg) :
    (appendSchema t1 cfg).ttype = t1.ttype := by
  unfold appendSchema; split <;> rfl

theorem appendSchema_name (t1 : STable) (cfg : STableCfg) :
    (appendSchema t1 cfg).name = t1.name := by
  unfold appendSchema; split <;> rfl

theorem appendSchema_uid (t1 : STable) (cfg : STableCfg) :
    (appendSchema t1 cfg).uid = t1.uid := by
  unfold appendSchema; split <;> rfl

theorem appendSchema_tid (t1 : STable) (cfg : STableCfg) :
    (appendSchema t1 cfg).tid = t1.tid := by
  unfold appendSchema; split <;> rfl

theorem appendSchema_suid (t1 : STable) (cfg : STableCfg) :
    (appendSchema t1 cfg).suid = t1.suid := by
  unfold appendSchema; split <;> rfl

theorem appendSchema_tagVal (t1 : STable) (cfg : STableCfg) :
    (appendSchema t1 cfg).tagVal = t1.tagVal := by
  unfold appendSchema; split <;> rfl

theorem appendSchema_sql (t1 : STable) (cfg : STableCfg) :
    (appendSchema t1 cfg).sql = t1.sql := by
  unfold appendSchema; split <;> rfl

theorem appendSchema_pSuper (t1 : STable) (cfg : STableCfg) :
    (appendSchema t1 cfg).pSuper = t1.pSuper := by
  unfold appendSchema; split <;> rfl

theorem appendSchema_pIndex (t1 : STable) (cfg : STableCfg) :
    (appendSchema t1 cfg).pIndex = t1.pIndex := by
  unfold appendSchema; split <;> rfl

theorem appendSchema_tagSchema (t1 : STable) (cfg : STableCfg) :
    (appendSchema t1 cfg).tagSchema = t1.tagSchema := by
  unfold appendSchema; split <;> rfl

theorem wfTable_of_parts {t t2 : STable} (hwf : wfTable t)
    (heqt : t2.ttype = t.ttype) (heqn : t2.name = t.name) (hequ : t2.uid = t.uid)
    (heqd : t2.tid = t.tid) (heqs : t2.suid = t.suid) (heqv : t2.tagVal = t.tagVal)
    (heqq : t2.sql = t.sql)
    (hschlen : t2.schema.length < 2 ^ 8)
    (hschwf : ∀ s ∈ t2.schema, wfSchema s)
    (htwf : ∀ ts, t2.tagSchema = some ts → wfSchema ts) : wfTable t2 := by
  obtain ⟨w1, w2, w3, w4, w5, w6, w7, w8, w9, w10, w11⟩ := hwf
  refine ⟨by rw [heqt]; exact w1, by rw [heqn]; exact w2, by rw [hequ]; exact w3,
    by rw [heqd]; exact w4, by rw [heqd]; exact w5, by rw [heqs]; exact w6,
    hschlen, hschwf, by rw [heqv]; exact w9, htwf, by rw [heqq]; exact w11⟩

/-- `tsdbUpdateTable` preserves the meta invariant. -/
theorem metaInv_updateTable {r : STsdbRepo} (hInv : MetaInv r.meta) (uid : Nat) {cfg : STableCfg}
    (hcfg : wfUpdateCfg cfg) : MetaInv (tsdbUpdateTable r uid cfg).2.meta := by
  cases hget : tsdbGetTableByUid r.meta uid with
  | none =>
      rw [updateTable_meta_none hget]
      exact hInv
  | some t =>
      by_cases hchild : t.ttype = TSDB_CHILD_TABLE
      · rw [updateTable_meta_child hget hchild]
        exact hInv
      · rw [updateTable_meta_go hget hchild]
        have hwf := hInv.wf uid t hget
        have htwf0 : ∀ ts, (updT1 t cfg).tagSchema = some ts → wfSchema ts := by
          rcases updT1_tagSchema hcfg t with hh | ⟨_, ts, hts, hwfts, _⟩
          · rw [hh]; exact hwf.2.2.2.2.2.2.2.2.2.1
          · intro ts2 hts2
            rw [hts] at hts2
            cases Option.some.inj hts2
            exact hwfts
        by_cases hsc : schChangeP r.meta (updT1 t cfg) cfg
        · rw [updMeta, if_pos hsc, updT2, if_pos hsc]
          obtain ⟨hne, hlenM, hchain, hlastC, hlen8, hmemS⟩ :=
            appendSchema_shape hInv hget hchild (updT1_schema t cfg) (updT1_ttype t cfg) hsc
          refine metaInv_update_entry hInv hget
            ?_ ((appendSchema_ttype _ _).trans (updT1_ttype _ _))
            ((appendSchema_uid _ _).trans (updT1_uid _ _))
            ((appendSchema_tid _ _).trans (updT1_tid _ _))
            ((appendSchema_suid _ _).trans (updT1_suid _ _))
            (Or.inl ((appendSchema_tagVal _ _).trans (updT1_tagVal _ _)))
            ((appendSchema_sql _ _).trans (updT1_sql _ _))
            ((appendSchema_pSuper _ _).trans (updT1_pSuper _ _))
            ((appendSchema_pIndex _ _).trans (updT1_pIndex _ _))
            ?_ ?_
          · refine wfTable_of_parts hwf
              ((appendSchema_ttype _ _).trans (updT1_ttype _ _))
              ((appendSchema_name _ _).trans (updT1_name _ _))
              ((appendSchema_uid _ _).trans (updT1_uid _ _))
              ((appendSchema_tid _ _).trans (updT1_tid _ _))
              ((appendSchema_suid _ _).trans (updT1_suid _ _))
              ((appendSchema_tagVal _ _).trans (updT1_tagVal _ _))
              ((appendSchema_sql _ _).trans (updT1_sql _ _))
              hlen8 ?_ ?_
            · intro sch hsch
              rcases hmemS sch hsch with hh | hh
              · rw [hh]; exact hcfg.1
              · exact hwf.2.2.2.2.2.2.2.1 sch hh
            · intro ts hts
              rw [appendSchema_tagSchema] at hts
              exact htwf0 ts hts
          · rcases updT1_tagSchema hcfg t with hh | ⟨hsup, ts, hts, hwfts, htsne⟩
            · left
              rw [appendSchema_tagSchema]
              exact hh
            · right
              exact ⟨hsup, ts, by rw [appendSchema_tagSchema]; exact hts, htsne⟩
          · right
            exact ⟨hchild, hne, hlenM, hchain⟩
        · rw [updMeta, if_neg hsc, updT2, if_neg hsc]
          refine metaInv_update_entry hInv hget
            ?_ (updT1_ttype _ _) (updT1_uid _ _) (updT1_tid _ _) (updT1_suid _ _)
            (Or.inl (updT1_tagVal _ _)) (updT1_sql _ _) (updT1_pSuper _ _) (updT1_pIndex _ _)
            ?_ (Or.inl (updT1_schema _ _))
          · refine wfTable_of_parts hwf (updT1_ttype _ _) (updT1_name _ _) (updT1_uid _ _)
              (updT1_tid _ _) (updT1_suid _ _) (updT1_tagVal _ _) (updT1_sql _ _)
              ?_ ?_ htwf0
            · rw [updT1_schema]
              exact hwf.2.2.2.2.2.2.1
            · rw [updT1_schema]
              exact hwf.2.2.2.2.2.2.2.1
          · rcases updT1_tagSchema hcfg t with hh | ⟨hsup, ts, hts, hwfts, htsne⟩
            · exact Or.inl hh
            · exact Or.inr ⟨hsup, ts, hts, htsne⟩

/-! ## Preservation: adding fresh tables -/

theorem getD_set_self {l : List (Option Nat)} {i : Nat} (h : i < l.length) (v : Option Nat) :
    (l.set i v).getD i none = v := by
  rw [List.getD_eq_getElem?_getD, List.getElem?_set_eq_of_lt v h, Option.getD_some]

theorem getD_set_ne {l : List (Option Nat)} {i j : Nat} (h : ¬i = j) (v : Option Nat) :
    (l.set i v).getD j none = l.getD j none := by
  rw [List.getD_eq_getElem?_getD, List.getElem?_set_ne h, ← List.getD_eq_getElem?_getD]

theorem updateMaxes_eq (m : STsdbMeta) (t : STable) :
    ∃ c b, updateMaxes m t = { m with maxCols := c, maxRowBytes := b } := by
  unfold updateMaxes
  split
  · split
    · exact ⟨_, _, rfl⟩
    · exact ⟨m.maxCols, m.maxRowBytes, rfl⟩
  · exact ⟨m.maxCols, m.maxRowBytes, rfl⟩

/-- The invariant does not constrain the maxima. -/
theorem metaInv_set_maxes {m : STsdbMeta} (hInv : MetaInv m) (c b : Nat) :
    MetaInv { m with maxCols := c, maxRowBytes := b } :=
  ⟨hInv.tablesLen, hInv.keysNodup, hInv.uidEq, hInv.wf, hInv.kinds, hInv.superOk,
    hInv.childOk, hInv.normalOk, hInv.nonSuperSlot, hInv.slotOk, hInv.superNodup,
    hInv.superMem, hInv.indexOk, hInv.sortedOk⟩

/-- Adding a fresh super table to the super list and the uid map
preserves the invariant. -/
theorem metaInv_add_super {m : STsdbMeta} (hInv : MetaInv m) {s : STable}
    (hfresh : hashGet m.uidMap s.uid = none)
    (hty : s.ttype = TSDB_SUPER_TABLE) (htid : s.tid = -1)
    (hsuid : s.suid = TSDB_INVALID_SUPER_TABLE_ID)
    (hts : ∃ ts, s.tagSchema = some ts ∧ ts.columns ≠ [])
    (htv : s.tagVal = []) (hsql : s.sql = none) (hps : s.pSuper = none) (hpi : s.pIndex = [])
    (hschema : s.schema ≠ []) (hschlen : s.schema.length ≤ TSDB_MAX_TABLE_SCHEMAS)
    (hchain : (s.schema.map STSchema.version).Chain' (· < ·)) (hwf : wfTable s) :
    MetaInv { m with
      superList := m.superList ++ [s.uid]
      uidMap := hashPut m.uidMap s.uid s } := by
  have hL : ∀ u, hashGet (hashPut m.uidMap s.uid s) u =
      if s.uid = u then some s else hashGet m.uidMap u := fun u => hashGet_put _ _ _ _
  have hnotin_sl : s.uid ∉ m.superList := by
    intro hmem
    obtain ⟨s0, hs0, _⟩ := hInv.superMem s.uid hmem
    rw [hfresh] at hs0
    cases hs0
  refine ⟨hInv.tablesLen, keys_put_nodup hInv.keysNodup _ _, ?_, ?_, ?_, ?_, ?_, ?_, ?_, ?_,
    ?_, ?_, ?_, ?_⟩
  · intro u t' h
    by_cases huu : s.uid = u
    · rw [hL, if_pos huu] at h
      cases Option.some.inj h
      exact huu
    · rw [hL, if_neg huu] at h
      exact hInv.uidEq u t' h
  · intro u t' h
    by_cases huu : s.uid = u
    · rw [hL, if_pos huu] at h
      cases Option.some.inj h
      exact hwf
    · rw [hL, if_neg huu] at h
      exact hInv.wf u t' h
  · intro u t' h
    by_cases huu : s.uid = u
    · rw [hL, if_pos huu] at h
      cases Option.some.inj h
      exact Or.inl hty
    · rw [hL, if_neg huu] at h
      exact hInv.kinds u t' h
  · intro u t' h htyp
    by_cases huu : s.uid = u
    · rw [hL, if_pos huu] at h
      cases Option.some.inj h
      refine ⟨htid, hsuid, hts, htv, hsql, hps, hschema, ?_⟩
      rw [← huu]
      exact List.mem_append.2 (Or.inr (List.mem_singleton.2 rfl))
    · rw [hL, if_neg huu] at h
      obtain ⟨o1, o2, o3, o4, o5, o6, o7, o8⟩ := hInv.superOk u t' h htyp
      exact ⟨o1, o2, o3, o4, o5, o6, o7, List.mem_append.2 (Or.inl o8)⟩
  · intro u t' h htyp
    by_cases huu : s.uid = u
    · rw [hL, if_pos huu] at h
      cases Option.some.inj h
      rw [hty] at htyp
      exact absurd htyp kind_super_ne_child
    · rw [hL, if_neg huu] at h
      obtain ⟨c1, c2, c3, c4, c5, c6, sup, hsup, hsupty, hmem⟩ := hInv.childOk u t' h htyp
      have hne : ¬s.uid = t'.suid := by
        intro hh
        rw [← hh, hfresh] at hsup
        cases hsup
      exact ⟨c1, c2, c3, c4, c5, c6, sup, by rw [hL, if_neg hne]; exact hsup, hsupty, hmem⟩
  · intro u t' h htyp
    by_cases huu : s.uid = u
    · rw [hL, if_pos huu] at h
      cases Option.some.inj h
      rcases htyp with hh | hh <;> (rw [hty] at hh; exact absurd hh (by decide))
    · rw [hL, if_neg huu] at h
      exact hInv.normalOk u t' h htyp
  · intro u t' h htyp
    by_cases huu : s.uid = u
    · rw [hL, if_pos huu] at h
      cases Option.some.inj h
      exact absurd hty htyp
    · rw [hL, if_neg huu] at h
      exact hInv.nonSuperSlot u t' h htyp
  · intro i u h
    obtain ⟨t', ht', htid', htyp'⟩ := hInv.slotOk i u h
    have hne : ¬s.uid = u := by
      intro hh
      rw [← hh, hfresh] at ht'
      cases ht'
    exact ⟨t', by rw [hL, if_neg hne]; exact ht', htid', htyp'⟩
  · rw [List.nodup_append]
    exact ⟨hInv.superNodup, List.nodup_singleton _,
      fun a ha hb => hnotin_sl ((List.mem_singleton.1 hb) ▸ ha)⟩
  · intro su hsu
    rcases List.mem_append.1 hsu with hh | hh
    · obtain ⟨s0, hs0, hs0ty⟩ := hInv.superMem su hh
      have hne : ¬s.uid = su := by
        intro h2
        rw [← h2, hfresh] at hs0
        cases hs0
      exact ⟨s0, by rw [hL, if_neg hne]; exact hs0, hs0ty⟩
    · rw [List.mem_singleton.1 hh]
      exact ⟨s, by rw [hL, if_pos rfl], hty⟩
  · intro u t' h htyp
    by_cases huu : s.uid = u
    · rw [hL, if_pos huu] at h
      cases Option.some.inj h
      rw [hpi]
      exact ⟨List.nodup_nil, by intro cu hcu; cases hcu⟩
    · rw [hL, if_neg huu] at h
      obtain ⟨ind1, ind2⟩ := hInv.indexOk u t' h htyp
      refine ⟨ind1, fun cu hcu => ?_⟩
      obtain ⟨c, hc, hcty, hcs⟩ := ind2 cu hcu
      have hne : ¬s.uid = cu := by
        intro hh
        rw [← hh, hfresh] at hc
        cases hc
      exact ⟨c, by rw [hL, if_neg hne]; exact hc, hcty, hcs⟩
  · intro u t' h htyp
    by_cases huu : s.uid = u
    · rw [hL, if_pos huu] at h
      cases Option.some.inj h
      exact ⟨hschlen, hchain⟩
    · rw [hL, if_neg huu] at h
      exact hInv.sortedOk u t' h htyp

/-- Adding a fresh normal or stream table into a free slot of the tid
array preserves the invariant. -/
theorem metaInv_add_normal {m : STsdbMeta} (hInv : MetaInv m) {t : STable}
    (hfresh : hashGet m.uidMap t.uid = none)
    (hty : t.ttype = TSDB_NORMAL_TABLE ∨ t.ttype = TSDB_STREAM_TABLE)
    (htid1 : 0 < t.tid) (htid2 : t.tid < (m.maxTables : Int))
    (hslotfree : m.tables.getD t.tid.toNat none = none)
    (hsuid : t.suid = TSDB_INVALID_SUPER_TABLE_ID) (htagsch : t.tagSchema = none)
    (htv : t.tagVal = []) (hps : t.pSuper = none) (hpi : t.pIndex = [])
    (hsql : t.ttype = TSDB_NORMAL_TABLE → t.sql = none)
    (hschema : t.schema ≠ []) (hschlen : t.schema.length ≤ TSDB_MAX_TABLE_SCHEMAS)
    (hchain : (t.schema.map STSchema.version).Chain' (· < ·)) (hwf : wfTable t) :
    MetaInv { m with
      tables := tableSetSlot m.tables t.tid (some t.uid)
      nTables := m.nTables + 1
      uidMap := hashPut m.uidMap t.uid t } := by
  have hL : ∀ u, hashGet (hashPut m.uidMap t.uid t) u =
      if t.uid = u then some t else hashGet m.uidMap u := fun u => hashGet_put _ _ _ _
  have htydis : t.ttype ≠ TSDB_SUPER_TABLE ∧ t.ttype ≠ TSDB_CHILD_TABLE := by
    rcases hty with hh | hh <;> (rw [hh]; exact ⟨by decide, by decide⟩)
  have htnn : (0 : Int) ≤ t.tid := le_of_lt htid1
  have hsetSlot : tableSetSlot m.tables t.tid (some t.uid) =
      m.tables.set t.tid.toNat (some t.uid) := by
    unfold tableSetSlot
    rw [if_pos htnn]
  have htnlen : t.tid.toNat < m.tables.length := by
    rw [hInv.tablesLen]
    omega
  refine ⟨?_, keys_put_nodup hInv.keysNodup _ _, ?_, ?_, ?_, ?_, ?_, ?_, ?_, ?_, ?_, ?_, ?_, ?_⟩
  · show (tableSetSlot m.tables t.tid (some t.uid)).length = m.maxTables
    rw [hsetSlot, List.length_set]
    exact hInv.tablesLen
  · intro u t' h
    by_cases huu : t.uid = u
    · rw [hL, if_pos huu] at h
      cases Option.some.inj h
      exact huu
    · rw [hL, if_neg huu] at h
      exact hInv.uidEq u t' h
  · intro u t' h
    by_cases huu : t.uid = u
    · rw [hL, if_pos huu] at h
      cases Option.some.inj h
      exact hwf
    · rw [hL, if_neg huu] at h
      exact hInv.wf u t' h
  · intro u t' h
    by_cases huu : t.uid = u
    · rw [hL, if_pos huu] at h
      cases Option.some.inj h
      rcases hty with hh | hh
      · exact Or.inr (Or.inr (Or.inl hh))
      · exact Or.inr (Or.inr (Or.inr hh))
    · rw [hL, if_neg huu] at h
      exact hInv.kinds u t' h
  · intro u t' h htyp
    by_cases huu : t.uid = u
    · rw [hL, if_pos huu] at h
      cases Option.some.inj h
      exact absurd htyp htydis.1
    · rw [hL, if_neg huu] at h
      exact hInv.superOk u t' h htyp
  · intro u t' h htyp
    by_cases huu : t.uid = u
    · rw [hL, if_pos huu] at h
      cases Option.some.inj h
      exact absurd htyp htydis.2
    · rw [hL, if_neg huu] at h
      obtain ⟨c1, c2, c3, c4, c5, c6, sup, hsup, hsupty, hmem⟩ := hInv.childOk u t' h htyp
      have hne : ¬t.uid = t'.suid := by
        intro hh
        rw [← hh, hfresh] at hsup
        cases hsup
      exact ⟨c1, c2, c3, c4, c5, c6, sup, by rw [hL, if_neg hne]; exact hsup, hsupty, hmem⟩
  · intro u t' h htyp
    by_cases huu : t.uid = u
    · rw [hL, if_pos huu] at h
      cases Option.some.inj h
      exact ⟨hsuid, htagsch, htv, hps, hpi, hschema, hsql⟩
    · rw [hL, if_neg huu] at h
      exact hInv.normalOk u t' h htyp
  · intro u t' h htyp
    by_cases huu : t.uid = u
    · rw [hL, if_pos huu] at h
      cases Option.some.inj h
      refine ⟨htid1, htid2, ?_⟩
      show (tableSetSlot m.tables t.tid (some t.uid)).getD t.tid.toNat none = some u
      rw [hsetSlot, getD_set_self htnlen, ← huu]
    · rw [hL, if_neg huu] at h
      obtain ⟨p1, p2, p3⟩ := hInv.nonSuperSlot u t' h htyp
      refine ⟨p1, p2, ?_⟩
      show (tableSetSlot m.tables t.tid (some t.uid)).getD t'.tid.toNat none = some u
      have hne : ¬t.tid.toNat = t'.tid.toNat := by
        intro hh
        rw [← hh] at p3
        rw [hslotfree] at p3
        cases p3
      rw [hsetSlot, getD_set_ne hne]
      exact p3
  · intro i u h
    rw [hsetSlot] at h
    by_cases hii : t.tid.toNat = i
    · rw [← hii, getD_set_self htnlen] at h
      cases Option.some.inj h
      refine ⟨t, by rw [hL, if_pos rfl], ?_, htydis.1⟩
      rw [← hii]
      exact (Int.toNat_of_nonneg htnn).symm
    · rw [getD_set_ne hii] at h
      obtain ⟨t', ht', htid', htyp'⟩ := hInv.slotOk i u h
      have hne : ¬t.uid = u := by
        intro hh
        rw [← hh, hfresh] at ht'
        cases ht'
      exact ⟨t', by rw [hL, if_neg hne]; exact ht', htid', htyp'⟩
  · exact hInv.superNodup
  · intro su hsu
    obtain ⟨s0, hs0, hs0ty⟩ := hInv.superMem su hsu
    have hne : ¬t.uid = su := by
      intro hh
      rw [← hh, hfresh] at hs0
      cases hs0
    exact ⟨s0, by rw [hL, if_neg hne]; exact hs0, hs0ty⟩
  · intro u t' h htyp
    by_cases huu : t.uid = u
    · rw [hL, if_pos huu] at h
      cases Option.some.inj h
      exact absurd htyp htydis.1
    · rw [hL, if_neg huu] at h
      obtain ⟨ind1, ind2⟩ := hInv.indexOk u t' h htyp
      refine ⟨ind1, fun cu hcu => ?_⟩
      obtain ⟨c, hc, hcty, hcs⟩ := ind2 cu hcu
      have hne : ¬t.uid = cu := by
        intro hh
        rw [← hh, hfresh] at hc
        cases hc
      exact ⟨c, by rw [hL, if_neg hne]; exact hc, hcty, hcs⟩
  · intro u t' h htyp
    by_cases huu : t.uid = u
    · rw [hL, if_pos huu] at h
      cases Option.some.inj h
      exact ⟨hschlen, hchain⟩
    · rw [hL, if_neg huu] at h
      exact hInv.sortedOk u t' h htyp

/-- Adding a fresh child table — linking it to its live super, splicing
it into the super's index, and storing it into a free slot and the uid
map — preserves the invariant. -/
theorem metaInv_add_child {m : STsdbMeta} (hInv : MetaInv m) {c s : STable}
    (hfresh : hashGet m.uidMap c.uid = none)
    (hs : hashGet m.uidMap c.suid = some s) (hsty : s.ttype = TSDB_SUPER_TABLE)
    (hcty : c.ttype = TSDB_CHILD_TABLE)
    (htid1 : 0 < c.tid) (htid2 : c.tid < (m.maxTables : Int))
    (hslotfree : m.tables.getD c.tid.toNat none = none)
    (hcsch : c.schema = []) (hcts : c.tagSchema = none) (hcsql : c.sql = none)
    (htv : wfTagVal c.tagVal) (hpi : c.pIndex = []) (hwf : wfTable c)
    (keyOf : Nat → List Nat) (kk : List Nat) :
    MetaInv { m with
      tables := tableSetSlot m.tables c.tid (some c.uid)
      nTables := m.nTables + 1
      uidMap := hashPut
        (hashPut m.uidMap c.suid ({ s with pIndex := slInsert keyOf kk c.uid s.pIndex }))
        c.uid ({ c with pSuper := some c.suid }) } := by
  have hL : ∀ u, hashGet (hashPut
      (hashPut m.uidMap c.suid ({ s with pIndex := slInsert keyOf kk c.uid s.pIndex }))
      c.uid ({ c with pSuper := some c.suid })) u =
      if c.uid = u then some { c with pSuper := some c.suid }
      else if c.suid = u then some { s with pIndex := slInsert keyOf kk c.uid s.pIndex }
      else hashGet m.uidMap u := by
    intro u
    rw [hashGet_put, hashGet_put]
  have hne_cs : ¬c.uid = c.suid := by
    intro hh
    rw [← hh, hfresh] at hs
    cases hs
  have hsuid : s.uid = c.suid := hInv.uidEq c.suid s hs
  have hnotidx : c.uid ∉ s.pIndex := by
    intro hmem
    obtain ⟨c0, hc0, _, _⟩ := (hInv.indexOk c.suid s hs hsty).2 c.uid hmem
    rw [hfresh] at hc0
    cases hc0
  have htnn : (0 : Int) ≤ c.tid := le_of_lt htid1
  have hsetSlot : tableSetSlot m.tables c.tid (some c.uid) =
      m.tables.set c.tid.toNat (some c.uid) := by
    unfold tableSetSlot
    rw [if_pos htnn]
  have htnlen : c.tid.toNat < m.tables.length := by
    rw [hInv.tablesLen]
    omega
  have hsupNodup := (hInv.indexOk c.suid s hs hsty).1
  have hsupMem := (hInv.indexOk c.suid s hs hsty).2
  have hsOk := hInv.superOk c.suid s hs hsty
  refine ⟨?_, keys_put_nodup (keys_put_nodup hInv.keysNodup _ _) _ _,
    ?_, ?_, ?_, ?_, ?_, ?_, ?_, ?_, ?_, ?_, ?_, ?_⟩
  · show (tableSetSlot m.tables c.tid (some c.uid)).length = m.maxTables
    rw [hsetSlot, List.length_set]
    exact hInv.tablesLen
  · intro u t' h
    rw [hL] at h
    by_cases h1 : c.uid = u
    · rw [if_pos h1] at h
      cases Option.some.inj h
      exact h1
    · rw [if_neg h1] at h
      by_cases h2 : c.suid = u
      · rw [if_pos h2] at h
        cases Option.some.inj h
        show s.uid = u
        rw [hsuid, h2]
      · rw [if_neg h2] at h
        exact hInv.uidEq u t' h
  · intro u t' h
    rw [hL] at h
    by_cases h1 : c.uid = u
    · rw [if_pos h1] at h
      cases Option.some.inj h
      exact hwf
    · rw [if_neg h1] at h
      by_cases h2 : c.suid = u
      · rw [if_pos h2] at h
        cases Option.some.inj h
        exact hInv.wf c.suid s hs
      · rw [if_neg h2] at h
        exact hInv.wf u t' h
  · intro u t' h
    rw [hL] at h
    by_cases h1 : c.uid = u
    · rw [if_pos h1] at h
      cases Option.some.inj h
      exact Or.inr (Or.inl hcty)
    · rw [if_neg h1] at h
      by_cases h2 : c.suid = u
      · rw [if_pos h2] at h
        cases Option.some.inj h
        exact Or.inl hsty
      · rw [if_neg h2] at h
        exact hInv.kinds u t' h
  · -- superOk
    intro u t' h htyp
    rw [hL] at h
    by_cases h1 : c.uid = u
    · rw [if_pos h1] at h
      cases Option.some.inj h
      rw [show ({ c with pSuper := some c.suid } : STable).ttype = c.ttype from rfl, hcty]
        at htyp
      exact absurd htyp.symm kind_super_ne_child
    · rw [if_neg h1] at h
      by_cases h2 : c.suid = u
      · rw [if_pos h2] at h
        cases Option.some.inj h
        obtain ⟨o1, o2, o3, o4, o5, o6, o7, o8⟩ := hsOk
        exact ⟨o1, o2, o3, o4, o5, o6, o7, h2 ▸ o8⟩
      · rw [if_neg h2] at h
        exact hInv.superOk u t' h htyp
  · -- childOk
    intro u t' h htyp
    rw [hL] at h
    by_cases h1 : c.uid = u
    · rw [if_pos h1] at h
      cases Option.some.inj h
      refine ⟨hcsch, hcts, hcsql, rfl, htv, hpi,
        { s with pIndex := slInsert keyOf kk c.uid s.pIndex }, ?_, hsty, ?_⟩
      · show hashGet (hashPut
          (hashPut m.uidMap c.suid ({ s with pIndex := slInsert keyOf kk c.uid s.pIndex }))
          c.uid ({ c with pSuper := some c.suid })) c.suid =
          some { s with pIndex := slInsert keyOf kk c.uid s.pIndex }
        rw [hL, if_neg hne_cs, if_pos rfl]
      · show u ∈ slInsert keyOf kk c.uid s.pIndex
        exact mem_slInsert.2 (Or.inl h1.symm)
    · rw [if_neg h1] at h
      by_cases h2 : c.suid = u
      · rw [if_pos h2] at h
        cases Option.some.inj h
        rw [show ({ s with pIndex := slInsert keyOf kk c.uid s.pIndex } : STable).ttype =
          s.ttype from rfl, hsty] at htyp
        exact absurd htyp kind_super_ne_child
      · rw [if_neg h2] at h
        obtain ⟨c1, c2, c3, c4, c5, c6, sup, hsup, hsupty, hmem⟩ := hInv.childOk u t' h htyp
        by_cases h3 : c.suid = t'.suid
        · have hdet : sup = s := by
            rw [← h3, hs] at hsup
            exact (Option.some.inj hsup).symm
          refine ⟨c1, c2, c3, c4, c5, c6,
            { s with pIndex := slInsert keyOf kk c.uid s.pIndex }, ?_, hsty, ?_⟩
          · rw [hL, if_neg (fun hh => hne_cs (hh.trans h3.symm) : ¬c.uid = t'.suid),
              if_pos h3]
          · show u ∈ slInsert keyOf kk c.uid s.pIndex
            refine mem_slInsert.2 (Or.inr ?_)
            rw [← hdet]
            exact hmem
        · have h4 : ¬c.uid = t'.suid := by
            intro hh
            rw [← hh, hfresh] at hsup
            cases hsup
          exact ⟨c1, c2, c3, c4, c5, c6, sup,
            by rw [hL, if_neg h4, if_neg h3]; exact hsup, hsupty, hmem⟩
  · -- normalOk
    intro u t' h htyp
    rw [hL] at h
    by_cases h1 : c.uid = u
    · rw [if_pos h1] at h
      cases Option.some.inj h
      rcases htyp with hh | hh <;>
        (rw [show ({ c with pSuper := some c.suid } : STable).ttype = c.ttype from rfl,
          hcty] at hh; exact absurd hh (by decide))
    · rw [if_neg h1] at h
      by_cases h2 : c.suid = u
      · rw [if_pos h2] at h
        cases Option.some.inj h
        rcases htyp with hh | hh <;>
          (rw [show ({ s with pIndex := slInsert keyOf kk c.uid s.pIndex } : STable).ttype =
            s.ttype from rfl, hsty] at hh; exact absurd hh (by decide))
      · rw [if_neg h2] at h
        exact hInv.normalOk u t' h htyp
  · -- nonSuperSlot
    intro u t' h htyp
    rw [hL] at h
    by_cases h1 : c.uid = u
    · rw [if_pos h1] at h
      cases Option.some.inj h
      refine ⟨htid1, htid2, ?_⟩
      show (tableSetSlot m.tables c.tid (some c.uid)).getD c.tid.toNat none = some u
      rw [hsetSlot, getD_set_self htnlen, ← h1]
    · rw [if_neg h1] at h
      by_cases h2 : c.suid = u
      · rw [if_pos h2] at h
        cases Option.some.inj h
        rw [show ({ s with pIndex := slInsert keyOf kk c.uid s.pIndex } : STable).ttype =
          s.ttype from rfl] at htyp
        exact absurd hsty htyp
      · rw [if_neg h2] at h
        obtain ⟨p1, p2, p3⟩ := hInv.nonSuperSlot u t' h htyp
        refine ⟨p1, p2, ?_⟩
        show (tableSetSlot m.tables c.tid (some c.uid)).getD t'.tid.toNat none = some u
        have hne : ¬c.tid.toNat = t'.tid.toNat := by
          intro hh
          rw [← hh, hslotfree] at p3
          cases p3
        rw [hsetSlot, getD_set_ne hne]
        exact p3
  · -- slotOk
    intro i u h
    rw [hsetSlot] at h
    by_cases hii : c.tid.toNat = i
    · rw [← hii, getD_set_self htnlen] at h
      cases Option.some.inj h
      refine ⟨{ c with pSuper := some c.suid }, by rw [hL, if_pos rfl], ?_, ?_⟩
      · show c.tid = (i : Int)
        rw [← hii]
        exact (Int.toNat_of_nonneg htnn).symm
      · show ¬c.ttype = TSDB_SUPER_TABLE
        rw [hcty]
        exact fun hh => kind_super_ne_child hh.symm
    · rw [getD_set_ne hii] at h
      obtain ⟨t', ht', htid', htyp'⟩ := hInv.slotOk i u h
      have hne1 : ¬c.uid = u := by
        intro hh
        rw [← hh, hfresh] at ht'
        cases ht'
      have hne2 : ¬c.suid = u := by
        intro hh
        have hdet : t' = s := by
          rw [← hh, hs] at ht'
          exact (Option.some.inj ht').symm
        rw [hdet] at htyp'
        exact htyp' hsty
      exact ⟨t', by rw [hL, if_neg hne1, if_neg hne2]; exact ht', htid', htyp'⟩
  · exact hInv.superNodup
  · intro su hsu
    obtain ⟨s0, hs0, hs0ty⟩ := hInv.superMem su hsu
    have hne1 : ¬c.uid = su := by
      intro hh
      rw [← hh, hfresh] at hs0
      cases hs0
    by_cases h2 : c.suid = su
    · exact ⟨{ s with pIndex := slInsert keyOf kk c.uid s.pIndex },
        by rw [hL, if_neg hne1, if_pos h2], hsty⟩
    · exact ⟨s0, by rw [hL, if_neg hne1, if_neg h2]; exact hs0, hs0ty⟩
  · -- indexOk
    intro u t' h htyp
    rw [hL] at h
    by_cases h1 : c.uid = u
    · rw [if_pos h1] at h
      cases Option.some.inj h
      rw [show ({ c with pSuper := some c.suid } : STable).ttype = c.ttype from rfl, hcty]
        at htyp
      exact absurd htyp.symm kind_super_ne_child
    · rw [if_neg h1] at h
      by_cases h2 : c.suid = u
      · rw [if_pos h2] at h
        cases Option.some.inj h
        constructor
        · show (slInsert keyOf kk c.uid s.pIndex).Nodup
          exact (slInsert_perm keyOf kk c.uid s.pIndex).nodup_iff.2
            (List.nodup_cons.2 ⟨hnotidx, hsupNodup⟩)
        · intro cu hcu
          rcases mem_slInsert.1 hcu with hh | hh
          · refine ⟨{ c with pSuper := some c.suid }, by rw [hL, if_pos (by rw [hh])], hcty,
              ?_⟩
            show c.suid = u
            exact h2
          · obtain ⟨c2, hc2, hc2ty, hc2s⟩ := hsupMem cu hh
            have hne1' : ¬c.uid = cu := by
              intro h3
              rw [← h3, hfresh] at hc2
              cases hc2
            have hne2' : ¬c.suid = cu := by
              intro h3
              have hdet : c2 = s := by
                rw [← h3, hs] at hc2
                exact (Option.some.inj hc2).symm
              rw [hdet, hsty] at hc2ty
              exact kind_super_ne_child hc2ty
            exact ⟨c2, by rw [hL, if_neg hne1', if_neg hne2']; exact hc2, hc2ty, h2 ▸ hc2s⟩
      · rw [if_neg h2] at h
        obtain ⟨ind1, ind2⟩ := hInv.indexOk u t' h htyp
        refine ⟨ind1, fun cu hcu => ?_⟩
        obtain ⟨c2, hc2, hc2ty, hc2s⟩ := ind2 cu hcu
        have hne1' : ¬c.uid = cu := by
          intro h3
          rw [← h3, hfresh] at hc2
          cases hc2
        have hne2' : ¬c.suid = cu := by
          intro h3
          have hdet : c2 = s := by
            rw [← h3, hs] at hc2
            exact (Option.some.inj hc2).symm
          rw [hdet, hsty] at hc2ty
          exact kind_super_ne_child hc2ty
        exact ⟨c2, by rw [hL, if_neg hne1', if_neg hne2']; exact hc2, hc2ty, hc2s⟩
  · -- sortedOk
    intro u t' h htyp
    rw [hL] at h
    by_cases h1 : c.uid = u
    · rw [if_pos h1] at h
      cases Option.some.inj h
      rw [show ({ c with pSuper := some c.suid } : STable).schema = c.schema from rfl, hcsch]
      exact ⟨by unfold TSDB_MAX_TABLE_SCHEMAS; simp, by simp⟩
    · rw [if_neg h1] at h
      by_cases h2 : c.suid = u
      · rw [if_pos h2] at h
        cases Option.some.inj h
        exact hInv.sortedOk c.suid s hs (by rw [hsty]; decide)
      · rw [if_neg h2] at h
        exact hInv.sortedOk u t' h htyp

/-! ## Preservation: `tsdbCreateTable` -/

theorem addTableToMeta_meta_super {r : STsdbRepo} {t : STable} {addIdx : Bool}
    (h : t.ttype = TSDB_SUPER_TABLE) :
    (tsdbAddTableToMeta r t addIdx).2.meta =
      updateMaxes
        ({ r.meta with
            superList := r.meta.superList ++ [t.uid],
            uidMap := hashPut r.meta.uidMap t.uid t }) t := by
  unfold tsdbAddTableToMeta
  rw [if_pos h]

theorem addTableToMeta_meta_nonsuper {r : STsdbRepo} {t : STable} {addIdx : Bool}
    (h : ¬t.ttype = TSDB_SUPER_TABLE) :
    (tsdbAddTableToMeta r t addIdx).2.meta =
      updateMaxes (addSlotPut (addNonSuperPair r.meta t addIdx))
        (addNonSuperPair r.meta t addIdx).2 := by
  unfold tsdbAddTableToMeta
  rw [if_neg h]

theorem addNonSuperPair_plain {m : STsdbMeta} {t : STable} {addIdx : Bool}
    (h : ¬(t.ttype = TSDB_CHILD_TABLE ∧ addIdx)) :
    addNonSuperPair m t addIdx = (m, t) := by
  unfold addNonSuperPair
  rw [if_neg h]

theorem addNonSuperPair_child {m : STsdbMeta} {t : STable}
    (h : t.ttype = TSDB_CHILD_TABLE) :
    addNonSuperPair m t true = tsdbAddTableIntoIndexCore m t := by
  unfold addNonSuperPair
  rw [if_pos ⟨h, rfl⟩]

theorem indexCore_eq {m : STsdbMeta} {t s : STable}
    (hs : tsdbGetTableByUid m t.suid = some s) :
    tsdbAddTableIntoIndexCore m t =
      ({ m with
          uidMap := hashPut m.uidMap t.suid
            ({ s with
                pIndex := slInsert (idxKeyOf m)
                  ((getTagIndexKey m { t with pSuper := some t.suid }).getD [])
                  t.uid s.pIndex }) },
        { t with pSuper := some t.suid }) := by
  unfold tsdbAddTableIntoIndexCore
  rw [hs]

theorem updateMaxes_child {m : STsdbMeta} {t : STable} (h : t.ttype = TSDB_CHILD_TABLE) :
    updateMaxes m t = m := by
  unfold updateMaxes
  rw [if_neg (not_not_intro h)]

theorem createTable_dup {r : STsdbRepo} {cfg : STableCfg} {t : STable}
    (h : tsdbGetTableByUid r.meta cfg.uid = some t) :
    tsdbCreateTable r cfg = ⟨errCodeVal .tableAlreadyExist, none, r⟩ := by
  unfold tsdbCreateTable
  rw [h]

theorem createTable_other {r : STsdbRepo} {cfg : STableCfg}
    (h : tsdbGetTableByUid r.meta cfg.uid = none) (hty : ¬cfg.ctype = TSDB_CHILD_TABLE) :
    tsdbCreateTable r cfg = ⟨0, none, createOther r cfg⟩ := by
  unfold tsdbCreateTable
  rw [h]
  show (if cfg.ctype = TSDB_CHILD_TABLE then _ else OpResult.mk 0 none (createOther r cfg)) = _
  rw [if_neg hty]

theorem createTable_child_newsuper {r : STsdbRepo} {cfg : STableCfg}
    (h : tsdbGetTableByUid r.meta cfg.uid = none) (hty : cfg.ctype = TSDB_CHILD_TABLE)
    (hsup : tsdbGetTableByUid r.meta cfg.superUid = none) :
    tsdbCreateTable r cfg = ⟨0, none, createChildNewSuper r cfg⟩ := by
  unfold tsdbCreateTable
  rw [h]
  show (if cfg.ctype = TSDB_CHILD_TABLE then _ else OpResult.mk 0 none (createOther r cfg)) = _
  rw [if_pos hty, hsup]

theorem createTable_child_notsuper {r : STsdbRepo} {cfg : STableCfg} {s : STable}
    (h : tsdbGetTableByUid r.meta cfg.uid = none) (hty : cfg.ctype = TSDB_CHILD_TABLE)
    (hs : tsdbGetTableByUid r.meta cfg.superUid = some s)
    (hnsty : ¬s.ttype = TSDB_SUPER_TABLE) :
    tsdbCreateTable r cfg = ⟨-1, none, r⟩ := by
  unfold tsdbCreateTable
  rw [h]
  show (if cfg.ctype = TSDB_CHILD_TABLE then _ else OpResult.mk 0 none (createOther r cfg)) = _
  rw [if_pos hty, hs]
  show (if s.ttype ≠ TSDB_SUPER_TABLE then OpResult.mk (-1) none r else _) = _
  rw [if_pos hnsty]

theorem createTable_child_existing {r : STsdbRepo} {cfg : STableCfg} {s : STable}
    (h : tsdbGetTableByUid r.meta cfg.uid = none) (hty : cfg.ctype = TSDB_CHILD_TABLE)
    (hs : tsdbGetTableByUid r.meta cfg.superUid = some s)
    (hsty : s.ttype = TSDB_SUPER_TABLE) (hsu : s.uid = cfg.superUid) :
    tsdbCreateTable r cfg = ⟨0, none, createChildExisting r cfg s⟩ := by
  unfold tsdbCreateTable
  rw [h]
  show (if cfg.ctype = TSDB_CHILD_TABLE then _ else OpResult.mk 0 none (createOther r cfg)) = _
  rw [if_pos hty, hs]
  show (if s.ttype ≠ TSDB_SUPER_TABLE then OpResult.mk (-1) none r else _) = _
  rw [if_neg (not_not_intro hsty)]
  show (if s.uid ≠ cfg.superUid then OpResult.mk (-1) none r else _) = _
  rw [if_neg (not_not_intro hsu)]

theorem newTable_suid_child {cfg : STableCfg} (h : cfg.ctype = TSDB_CHILD_TABLE) :
    (tsdbNewTable cfg false).suid = cfg.superUid := by
  show (if cfg.ctype = TSDB_CHILD_TABLE then cfg.superUid else TSDB_INVALID_SUPER_TABLE_ID) = _
  rw [if_pos h]

theorem newTable_suid_nonchild {cfg : STableCfg} (h : ¬cfg.ctype = TSDB_CHILD_TABLE) :
    (tsdbNewTable cfg false).suid = TSDB_INVALID_SUPER_TABLE_ID := by
  show (if cfg.ctype = TSDB_CHILD_TABLE then cfg.superUid else TSDB_INVALID_SUPER_TABLE_ID) = _
  rw [if_neg h]

theorem newTable_schema_child {cfg : STableCfg} (h : cfg.ctype = TSDB_CHILD_TABLE) :
    (tsdbNewTable cfg false).schema = [] := by
  show (if cfg.ctype = TSDB_CHILD_TABLE then [] else [cfg.schema]) = _
  rw [if_pos h]

theorem newTable_schema_nonchild {cfg : STableCfg} (h : ¬cfg.ctype = TSDB_CHILD_TABLE) :
    (tsdbNewTable cfg false).schema = [cfg.schema] := by
  show (if cfg.ctype = TSDB_CHILD_TABLE then [] else [cfg.schema]) = _
  rw [if_neg h]

theorem newTable_tagVal_child {cfg : STableCfg} (h : cfg.ctype = TSDB_CHILD_TABLE) :
    (tsdbNewTable cfg false).tagVal = cfg.tagValues := by
  show (if cfg.ctype = TSDB_CHILD_TABLE then cfg.tagValues else []) = _
  rw [if_pos h]

theorem newTable_tagVal_nonchild {cfg : STableCfg} (h : ¬cfg.ctype = TSDB_CHILD_TABLE) :
    (tsdbNewTable cfg false).tagVal = [] := by
  show (if cfg.ctype = TSDB_CHILD_TABLE then cfg.tagValues else []) = _
  rw [if_neg h]

theorem newTable_sql_stream {cfg : STableCfg} (h : cfg.ctype = TSDB_STREAM_TABLE) :
    (tsdbNewTable cfg false).sql = cfg.sql := by
  show (if cfg.ctype = TSDB_STREAM_TABLE then cfg.sql else none) = _
  rw [if_pos h]

theorem newTable_sql_nonstream {cfg : STableCfg} (h : ¬cfg.ctype = TSDB_STREAM_TABLE) :
    (tsdbNewTable cfg false).sql = none := by
  show (if cfg.ctype = TSDB_STREAM_TABLE then cfg.sql else none) = _
  rw [if_neg h]

theorem wfKVRow_nil : wfKVRow [] :=
  ⟨by norm_num, fun e he => absurd he (List.not_mem_nil e)⟩

theorem wfTable_newTable_nonsuper {n : Nat} {cfg : STableCfg} (hcfg : wfCfg n cfg) :
    wfTable (tsdbNewTable cfg false) := by
  obtain ⟨hkind, huid, htid1, htid2, htid3, hsuid, hsch, hchild, hnonchild, hstream,
    hnonstream⟩ := hcfg
  refine ⟨?_, ?_, huid, ?_, htid3, ?_, ?_, ?_, ?_, ?_, ?_⟩
  · show cfg.ctype < 2 ^ 8
    rcases hkind with h | h | h <;> (rw [h]; decide)
  · show (cfg.name.take (TSDB_TABLE_NAME_LEN - 1)).length < 2 ^ 15
    rw [List.length_take]
    exact lt_of_le_of_lt (Nat.min_le_left _ _) (by norm_num [TSDB_TABLE_NAME_LEN])
  · show -(2 ^ 31) ≤ cfg.tid
    have h0 : (0 : Int) < cfg.tid := htid1
    have h1 : -(2 ^ 31 : Int) < 0 := by norm_num
    omega
  · by_cases hch : cfg.ctype = TSDB_CHILD_TABLE
    · rw [newTable_suid_child hch]
      exact hsuid
    · rw [newTable_suid_nonchild hch]
      show TSDB_INVALID_SUPER_TABLE_ID < 2 ^ 64
      norm_num [TSDB_INVALID_SUPER_TABLE_ID]
  · by_cases hch : cfg.ctype = TSDB_CHILD_TABLE
    · rw [newTable_schema_child hch]
      norm_num
    · rw [newTable_schema_nonchild hch]
      norm_num
  · intro sch hmem
    by_cases hch : cfg.ctype = TSDB_CHILD_TABLE
    · rw [newTable_schema_child hch] at hmem
      exact absurd hmem (List.not_mem_nil sch)
    · rw [newTable_schema_nonchild hch, List.mem_singleton] at hmem
      rw [hmem]
      exact hsch
  · by_cases hch : cfg.ctype = TSDB_CHILD_TABLE
    · rw [newTable_tagVal_child hch]
      exact wfTagVal_wfKVRow (hchild hch).2.2.2
    · rw [newTable_tagVal_nonchild hch]
      exact wfKVRow_nil
  · intro ts hts
    have hts' : (none : Option STSchema) = some ts := hts
    cases hts'
  · intro q hq
    by_cases hst : cfg.ctype = TSDB_STREAM_TABLE
    · rw [newTable_sql_stream hst] at hq
      obtain ⟨q0, hq0, hlen⟩ := hstream hst
      rw [hq0] at hq
      cases Option.some.inj hq
      exact hlen
    · rw [newTable_sql_nonstream hst] at hq
      cases hq

theorem wfTable_newTable_super {n : Nat} {cfg : STableCfg} (hcfg : wfCfg n cfg)
    (hch : cfg.ctype = TSDB_CHILD_TABLE) : wfTable (tsdbNewTable cfg true) := by
  obtain ⟨hkind, huid, htid1, htid2, htid3, hsuid, hsch, hchild, hnonchild, hstream,
    hnonstream⟩ := hcfg
  refine ⟨?_, ?_, hsuid, ?_, ?_, ?_, ?_, ?_, wfKVRow_nil, ?_, ?_⟩
  · show TSDB_SUPER_TABLE < 2 ^ 8
    decide
  · show (cfg.sname.take (TSDB_TABLE_NAME_LEN - 1)).length < 2 ^ 15
    rw [List.length_take]
    exact lt_of_le_of_lt (Nat.min_le_left _ _) (by norm_num [TSDB_TABLE_NAME_LEN])
  · show -(2 ^ 31 : Int) ≤ -1
    decide
  · show (-1 : Int) < 2 ^ 31
    decide
  · show TSDB_INVALID_SUPER_TABLE_ID < 2 ^ 64
    norm_num [TSDB_INVALID_SUPER_TABLE_ID]
  · show (1 : Nat) < 2 ^ 8
    decide
  · intro sch hmem
    have hmem' : sch ∈ [cfg.schema] := hmem
    rw [List.mem_singleton] at hmem'
    rw [hmem']
    exact hsch
  · intro ts hts
    obtain ⟨ts0, hts0, hwf0, _⟩ := (hchild hch).2.2.1
    have hts' : cfg.tagSchema = some ts := hts
    rw [hts0] at hts'
    cases Option.some.inj hts'
    exact hwf0
  · intro q hq
    have hq' : (none : Option (List Nat)) = some q := hq
    cases hq'

/-- Creating a normal or stream table preserves the invariant. -/
theorem metaInv_createOther {r : STsdbRepo} (hInv : MetaInv r.meta) {cfg : STableCfg}
    (hcfg : wfCfg r.meta.maxTables cfg)
    (hfresh : tsdbGetTableByUid r.meta cfg.uid = none)
    (hslot : r.meta.tables.getD cfg.tid.toNat none = none)
    (hty : ¬cfg.ctype = TSDB_CHILD_TABLE) :
    MetaInv (createOther r cfg).meta := by
  have hty2 : ¬(tsdbNewTable cfg false).ttype = TSDB_SUPER_TABLE := by
    show ¬cfg.ctype = TSDB_SUPER_TABLE
    rcases hcfg.1 with h | h | h <;> (rw [h]; decide)
  have hnotpair : ¬((tsdbNewTable cfg false).ttype = TSDB_CHILD_TABLE ∧ (true : Bool) = true) := by
    intro hh
    exact hty hh.1
  show MetaInv (tsdbAddTableToMeta r (tsdbNewTable cfg false) true).2.meta
  rw [addTableToMeta_meta_nonsuper hty2, addNonSuperPair_plain hnotpair]
  obtain ⟨c, b, heq⟩ := updateMaxes_eq (addSlotPut (r.meta, tsdbNewTable cfg false))
    (r.meta, tsdbNewTable cfg false).2
  rw [heq]
  refine metaInv_set_maxes ?_ c b
  have hkindv : (tsdbNewTable cfg false).ttype = TSDB_NORMAL_TABLE ∨
      (tsdbNewTable cfg false).ttype = TSDB_STREAM_TABLE := by
    rcases hcfg.1 with h | h | h
    · exact absurd h hty
    · exact Or.inl h
    · exact Or.inr h
  have hsqlv : (tsdbNewTable cfg false).ttype = TSDB_NORMAL_TABLE →
      (tsdbNewTable cfg false).sql = none := by
    intro hn
    have hn' : cfg.ctype = TSDB_NORMAL_TABLE := hn
    refine newTable_sql_nonstream ?_
    rw [hn']
    decide
  have hschne : (tsdbNewTable cfg false).schema ≠ [] := by
    rw [newTable_schema_nonchild hty]
    exact List.cons_ne_nil _ _
  have hschlen : (tsdbNewTable cfg false).schema.length ≤ TSDB_MAX_TABLE_SCHEMAS := by
    rw [newTable_schema_nonchild hty]
    show (1 : Nat) ≤ TSDB_MAX_TABLE_SCHEMAS
    decide
  have hchain : ((tsdbNewTable cfg false).schema.map STSchema.version).Chain' (· < ·) := by
    rw [newTable_schema_nonchild hty]
    exact List.chain'_singleton _
  exact metaInv_add_normal hInv hfresh hkindv hcfg.2.2.1 hcfg.2.2.2.1 hslot
    (newTable_suid_nonchild hty) rfl (newTable_tagVal_nonchild hty) rfl rfl hsqlv
    hschne hschlen hchain (wfTable_newTable_nonsuper hcfg)

theorem updT2_ttype (m : STsdbMeta) (t1 : STable) (cfg : STableCfg) :
    (updT2 m t1 cfg).ttype = t1.ttype := by
  unfold updT2
  split
  · exact appendSchema_ttype _ _
  · rfl

theorem updT2_uid (m : STsdbMeta) (t1 : STable) (cfg : STableCfg) :
    (updT2 m t1 cfg).uid = t1.uid := by
  unfold updT2
  split
  · exact appendSchema_uid _ _
  · rfl

theorem updMeta_uidMap (m : STsdbMeta) (uid : Nat) (t1 t2 : STable) (cfg : STableCfg) :
    (updMeta m uid t1 t2 cfg).uidMap = hashPut m.uidMap uid t2 := by
  unfold updMeta
  split <;> rfl

theorem updMeta_tables (m : STsdbMeta) (uid : Nat) (t1 t2 : STable) (cfg : STableCfg) :
    (updMeta m uid t1 t2 cfg).tables = m.tables := by
  unfold updMeta
  split <;> rfl

theorem updMeta_maxTables (m : STsdbMeta) (uid : Nat) (t1 t2 : STable) (cfg : STableCfg) :
    (updMeta m uid t1 t2 cfg).maxTables = m.maxTables := by
  unfold updMeta
  split <;> rfl

theorem updateMaxes_uidMap (m : STsdbMeta) (t : STable) :
    (updateMaxes m t).uidMap = m.uidMap := by
  unfold updateMaxes
  split
  · split <;> rfl
  · rfl

theorem updateMaxes_tables (m : STsdbMeta) (t : STable) :
    (updateMaxes m t).tables = m.tables := by
  unfold updateMaxes
  split
  · split <;> rfl
  · rfl

theorem updateMaxes_maxTables (m : STsdbMeta) (t : STable) :
    (updateMaxes m t).maxTables = m.maxTables := by
  unfold updateMaxes
  split
  · split <;> rfl
  · rfl

theorem metaInv_updateMaxes {m : STsdbMeta} (hInv : MetaInv m) (t : STable) :
    MetaInv (updateMaxes m t) := by
  obtain ⟨c, b, heq⟩ := updateMaxes_eq m t
  rw [heq]
  exact metaInv_set_maxes hInv c b

/-- Stage lemma: adding a fresh super through `tsdbAddTableToMeta`
preserves the invariant. -/
theorem metaInv_addSuperStage {r : STsdbRepo} (hInv : MetaInv r.meta) {s : STable}
    (hfresh : hashGet r.meta.uidMap s.uid = none)
    (hty : s.ttype = TSDB_SUPER_TABLE) (htid : s.tid = -1)
    (hsuid : s.suid = TSDB_INVALID_SUPER_TABLE_ID)
    (hts : ∃ ts, s.tagSchema = some ts ∧ ts.columns ≠ [])
    (htv : s.tagVal = []) (hsql : s.sql = none) (hps : s.pSuper = none) (hpi : s.pIndex = [])
    (hschema : s.schema ≠ []) (hschlen : s.schema.length ≤ TSDB_MAX_TABLE_SCHEMAS)
    (hchain : (s.schema.map STSchema.version).Chain' (· < ·)) (hwf : wfTable s) :
    MetaInv (tsdbAddTableToMeta r s true).2.meta := by
  rw [addTableToMeta_meta_super hty]
  exact metaInv_updateMaxes
    (metaInv_add_super hInv hfresh hty htid hsuid hts htv hsql hps hpi hschema hschlen hchain hwf)
    s

/-- Stage lemma: splicing a fresh child into its super's index and the
tid array preserves the invariant (generic over the intermediate
meta). -/
theorem metaInv_addChildStage {r1m : STsdbMeta} (hInv1 : MetaInv r1m) {cfg : STableCfg}
    {s2 : STable}
    (hty : cfg.ctype = TSDB_CHILD_TABLE)
    (hs2 : hashGet r1m.uidMap (tsdbNewTable cfg false).suid = some s2)
    (hs2ty : s2.ttype = TSDB_SUPER_TABLE)
    (hfresh2 : hashGet r1m.uidMap (tsdbNewTable cfg false).uid = none)
    (htid1 : 0 < cfg.tid) (htid2 : cfg.tid < (r1m.maxTables : Int))
    (hslot2 : r1m.tables.getD cfg.tid.toNat none = none)
    (htagv : wfTagVal cfg.tagValues)
    (hwfc : wfTable (tsdbNewTable cfg false)) :
    MetaInv (addSlotPut (tsdbAddTableIntoIndexCore r1m (tsdbNewTable cfg false))) := by
  have hs2' : tsdbGetTableByUid r1m (tsdbNewTable cfg false).suid = some s2 := hs2
  rw [indexCore_eq hs2']
  have htagv2 : wfTagVal (tsdbNewTable cfg false).tagVal := by
    rw [newTable_tagVal_child hty]
    exact htagv
  exact metaInv_add_child hInv1 hfresh2 hs2 hs2ty hty htid1 htid2 hslot2
    (newTable_schema_child hty) rfl (newTable_sql_nonstream (by rw [hty]; decide)) htagv2 rfl
    hwfc _ _

/-- Creating a child table whose super does not exist yet (the super
is built from the same cfg and added first) preserves the invariant. -/
theorem metaInv_createChildNewSuper {r : STsdbRepo} (hInv : MetaInv r.meta) {cfg : STableCfg}
    (hcfg : wfCfg r.meta.maxTables cfg)
    (hfresh : tsdbGetTableByUid r.meta cfg.uid = none)
    (hslot : r.meta.tables.getD cfg.tid.toNat none = none)
    (hty : cfg.ctype = TSDB_CHILD_TABLE)
    (hsup : tsdbGetTableByUid r.meta cfg.superUid = none) :
    MetaInv (createChildNewSuper r cfg).meta := by
  obtain ⟨hne_inv, hne_cs, hts_ex, htagv⟩ := hcfg.2.2.2.2.2.2.2.1 hty
  have hsupty : (tsdbNewTable cfg true).ttype = TSDB_SUPER_TABLE := rfl
  have hchlty : (tsdbNewTable cfg false).ttype = TSDB_CHILD_TABLE := hty
  have hchlns : ¬(tsdbNewTable cfg false).ttype = TSDB_SUPER_TABLE := by
    show ¬cfg.ctype = TSDB_SUPER_TABLE
    rw [hty]
    decide
  have htsS : ∃ ts, (tsdbNewTable cfg true).tagSchema = some ts ∧ ts.columns ≠ [] := by
    obtain ⟨ts, hts, _, htsne⟩ := hts_ex
    exact ⟨ts, hts, htsne⟩
  have hschneS : (tsdbNewTable cfg true).schema ≠ [] := by
    show [cfg.schema] ≠ []
    exact List.cons_ne_nil _ _
  have hschlenS : (tsdbNewTable cfg true).schema.length ≤ TSDB_MAX_TABLE_SCHEMAS := by
    show (1 : Nat) ≤ TSDB_MAX_TABLE_SCHEMAS
    decide
  have hchainS : ((tsdbNewTable cfg true).schema.map STSchema.version).Chain' (· < ·) :=
    List.chain'_singleton _
  have hR1 : MetaInv (tsdbAddTableToMeta r (tsdbNewTable cfg true) true).2.meta :=
    metaInv_addSuperStage hInv hsup hsupty rfl rfl htsS rfl rfl rfl rfl
      hschneS hschlenS hchainS (wfTable_newTable_super hcfg hty)
  have hR1uid : (tsdbAddTableToMeta r (tsdbNewTable cfg true) true).2.meta.uidMap =
      hashPut r.meta.uidMap (tsdbNewTable cfg true).uid (tsdbNewTable cfg true) := by
    rw [addTableToMeta_meta_super hsupty, updateMaxes_uidMap]
  have hR1tables : (tsdbAddTableToMeta r (tsdbNewTable cfg true) true).2.meta.tables =
      r.meta.tables := by
    rw [addTableToMeta_meta_super hsupty, updateMaxes_tables]
  have hR1maxT : (tsdbAddTableToMeta r (tsdbNewTable cfg true) true).2.meta.maxTables =
      r.meta.maxTables := by
    rw [addTableToMeta_meta_super hsupty, updateMaxes_maxTables]
  have hs2 : hashGet (tsdbAddTableToMeta r (tsdbNewTable cfg true) true).2.meta.uidMap
      (tsdbNewTable cfg false).suid = some (tsdbNewTable cfg true) := by
    rw [hR1uid, newTable_suid_child hty, hashGet_put,
      if_pos (show (tsdbNewTable cfg true).uid = cfg.superUid from rfl)]
  have hfresh2 : hashGet (tsdbAddTableToMeta r (tsdbNewTable cfg true) true).2.meta.uidMap
      (tsdbNewTable cfg false).uid = none := by
    rw [hR1uid, hashGet_put,
      if_neg (fun hh : (tsdbNewTable cfg true).uid = (tsdbNewTable cfg false).uid =>
        hne_cs hh.symm)]
    exact hfresh
  have htid2 : cfg.tid <
      ((tsdbAddTableToMeta r (tsdbNewTable cfg true) true).2.meta.maxTables : Int) := by
    rw [hR1maxT]
    exact hcfg.2.2.2.1
  have hslot2 : (tsdbAddTableToMeta r (tsdbNewTable cfg true) true).2.meta.tables.getD
      cfg.tid.toNat none = none := by
    rw [hR1tables]
    exact hslot
  show MetaInv (tsdbAddTableToMeta (tsdbAddTableToMeta r (tsdbNewTable cfg true) true).2
    (tsdbNewTable cfg false) true).2.meta
  rw [addTableToMeta_meta_nonsuper hchlns, addNonSuperPair_child hchlty]
  exact metaInv_updateMaxes
    (metaInv_addChildStage hR1 hty hs2 hsupty hfresh2 hcfg.2.2.1 htid2 hslot2 htagv
      (wfTable_newTable_nonsuper hcfg)) _

/-- Creating a child table under an existing super (the super is first
run through `tsdbUpdateTable`) preserves the invariant. -/
theorem metaInv_createChildExisting {r : STsdbRepo} (hInv : MetaInv r.meta) {cfg : STableCfg}
    {s : STable}
    (hcfg : wfCfg r.meta.maxTables cfg)
    (hfresh : tsdbGetTableByUid r.meta cfg.uid = none)
    (hslot : r.meta.tables.getD cfg.tid.toNat none = none)
    (hty : cfg.ctype = TSDB_CHILD_TABLE)
    (hs : tsdbGetTableByUid r.meta cfg.superUid = some s)
    (hsty : s.ttype = TSDB_SUPER_TABLE) :
    MetaInv (createChildExisting r cfg s).meta := by
  obtain ⟨hne_inv, hne_cs, hts_ex, htagv⟩ := hcfg.2.2.2.2.2.2.2.1 hty
  have hsuideq : s.uid = cfg.superUid := hInv.uidEq cfg.superUid s hs
  have hget' : tsdbGetTableByUid r.meta s.uid = some s := by
    rw [hsuideq]
    exact hs
  have hnotchild : ¬s.ttype = TSDB_CHILD_TABLE := by
    rw [hsty]
    decide
  have hwfupd : wfUpdateCfg cfg := by
    refine ⟨hcfg.2.2.2.2.2.2.1, ?_⟩
    intro ts hts
    obtain ⟨ts0, hts0, hwf0, hne0⟩ := hts_ex
    rw [hts0] at hts
    cases Option.some.inj hts
    exact ⟨hwf0, hne0⟩
  have hchlty : (tsdbNewTable cfg false).ttype = TSDB_CHILD_TABLE := hty
  have hchlns : ¬(tsdbNewTable cfg false).ttype = TSDB_SUPER_TABLE := by
    show ¬cfg.ctype = TSDB_SUPER_TABLE
    rw [hty]
    decide
  have hR2 : MetaInv (tsdbUpdateTable r s.uid cfg).2.meta :=
    metaInv_updateTable hInv s.uid hwfupd
  have hR2uid : (tsdbUpdateTable r s.uid cfg).2.meta.uidMap =
      hashPut r.meta.uidMap s.uid (updT2 r.meta (updT1 s cfg) cfg) := by
    rw [updateTable_meta_go hget' hnotchild, updMeta_uidMap]
  have hR2tables : (tsdbUpdateTable r s.uid cfg).2.meta.tables = r.meta.tables := by
    rw [updateTable_meta_go hget' hnotchild, updMeta_tables]
  have hR2maxT : (tsdbUpdateTable r s.uid cfg).2.meta.maxTables = r.meta.maxTables := by
    rw [updateTable_meta_go hget' hnotchild, updMeta_maxTables]
  have hs2ty : (updT2 r.meta (updT1 s cfg) cfg).ttype = TSDB_SUPER_TABLE := by
    rw [updT2_ttype, updT1_ttype]
    exact hsty
  have hs2 : hashGet (tsdbUpdateTable r s.uid cfg).2.meta.uidMap
      (tsdbNewTable cfg false).suid = some (updT2 r.meta (updT1 s cfg) cfg) := by
    rw [hR2uid, newTable_suid_child hty, hashGet_put, if_pos hsuideq]
  have hfresh2 : hashGet (tsdbUpdateTable r s.uid cfg).2.meta.uidMap
      (tsdbNewTable cfg false).uid = none := by
    rw [hR2uid, hashGet_put,
      if_neg (fun hh : s.uid = (tsdbNewTable cfg false).uid =>
        hne_cs (hh.symm.trans hsuideq))]
    exact hfresh
  have htid2 : cfg.tid < ((tsdbUpdateTable r s.uid cfg).2.meta.maxTables : Int) := by
    rw [hR2maxT]
    exact hcfg.2.2.2.1
  have hslot2 : (tsdbUpdateTable r s.uid cfg).2.meta.tables.getD cfg.tid.toNat none = none := by
    rw [hR2tables]
    exact hslot
  show MetaInv (tsdbAddTableToMeta (tsdbUpdateTable r s.uid cfg).2
    (tsdbNewTable cfg false) true).2.meta
  rw [addTableToMeta_meta_nonsuper hchlns, addNonSuperPair_child hchlty]
  exact metaInv_updateMaxes
    (metaInv_addChildStage hR2 hty hs2 hs2ty hfresh2 hcfg.2.2.1 htid2 hslot2 htagv
      (wfTable_newTable_nonsuper hcfg)) _

/-- `tsdbCreateTable` preserves the invariant whenever the cfg is
well-formed and the target tid slot is free. -/
theorem metaInv_createTable {r : STsdbRepo} (hInv : MetaInv r.meta) {cfg : STableCfg}
    (hcfg : wfCfg r.meta.maxTables cfg)
    (hslot : r.meta.tables.getD cfg.tid.toNat none = none) :
    MetaInv (tsdbCreateTable r cfg).repo.meta := by
  cases hget : tsdbGetTableByUid r.meta cfg.uid with
  | some t =>
      rw [createTable_dup hget]
      exact hInv
  | none =>
      by_cases hty : cfg.ctype = TSDB_CHILD_TABLE
      · cases hs : tsdbGetTableByUid r.meta cfg.superUid with
        | none =>
            rw [createTable_child_newsuper hget hty hs]
            exact metaInv_createChildNewSuper hInv hcfg hget hslot hty hs
        | some s =>
            by_cases hsty : s.ttype = TSDB_SUPER_TABLE
            · have hsuideq : s.uid = cfg.superUid := hInv.uidEq cfg.superUid s hs
              rw [createTable_child_existing hget hty hs hsty hsuideq]
              exact metaInv_createChildExisting hInv hcfg hget hslot hty hs hsty
            · rw [createTable_child_notsuper hget hty hs hsty]
              exact hInv
      · rw [createTable_other hget hty]
        exact metaInv_createOther hInv hcfg hget hslot hty

/-! ## Preservation: `tsdbDropTable` -/

theorem dropTable_none_eq {r : STsdbRepo} {uid : Nat}
    (h : tsdbGetTableByUid r.meta uid = none) :
    tsdbDropTable r uid = ⟨-1, some .invalidTableId, r⟩ := by
  unfold tsdbDropTable
  rw [h]

theorem dropTable_super_eq {r : STsdbRepo} {uid : Nat} {t : STable}
    (h : tsdbGetTableByUid r.meta uid = some t) (hty : t.ttype = TSDB_SUPER_TABLE) :
    tsdbDropTable r uid =
      ⟨0, none, tsdbRemoveTableFromMeta (t.pIndex.foldl dropStep r) t true⟩ := by
  unfold tsdbDropTable
  rw [h]
  show (⟨0, none, tsdbRemoveTableFromMeta
    (if t.ttype = TSDB_SUPER_TABLE then t.pIndex.foldl dropStep r else r) t true⟩ : OpResult) = _
  rw [if_pos hty]

theorem dropTable_nonsuper_eq {r : STsdbRepo} {uid : Nat} {t : STable}
    (h : tsdbGetTableByUid r.meta uid = some t) (hty : ¬t.ttype = TSDB_SUPER_TABLE) :
    tsdbDropTable r uid = ⟨0, none, tsdbRemoveTableFromMeta r t true⟩ := by
  unfold tsdbDropTable
  rw [h]
  show (⟨0, none, tsdbRemoveTableFromMeta
    (if t.ttype = TSDB_SUPER_TABLE then t.pIndex.foldl dropStep r else r) t true⟩ : OpResult) = _
  rw [if_neg hty]

theorem insertAct_meta (r : STsdbRepo) (act : Nat) (t : STable) :
    (tsdbInsertTableAct r act t).meta = r.meta := rfl

theorem rmIdx_eq {m : STsdbMeta} {t : STable} {su : Nat} {s : STable}
    (hps : t.pSuper = some su) (hgs : tsdbGetTableByUid m su = some s) :
    tsdbRemoveTableFromIndex m t =
      { m with uidMap := hashPut m.uidMap su (filtSuper s t.uid) } := by
  unfold tsdbRemoveTableFromIndex
  rw [hps]
  show (match tsdbGetTableByUid m su with
    | none => m
    | some s =>
        { m with uidMap :=
            hashPut m.uidMap su ({ s with pIndex := s.pIndex.filter (fun u => u ≠ t.uid) }) }) = _
  rw [hgs]
  rfl

theorem removeFromMeta_meta_uidMap (r : STsdbRepo) (t : STable) (b : Bool) :
    (tsdbRemoveTableFromMeta r t b).meta.uidMap = (remErase r.meta t b).uidMap := by
  simp only [tsdbRemoveTableFromMeta]
  split <;> rfl

theorem removeFromMeta_meta_tables (r : STsdbRepo) (t : STable) (b : Bool) :
    (tsdbRemoveTableFromMeta r t b).meta.tables = (remErase r.meta t b).tables := by
  simp only [tsdbRemoveTableFromMeta]
  split <;> rfl

theorem removeFromMeta_meta_superList (r : STsdbRepo) (t : STable) (b : Bool) :
    (tsdbRemoveTableFromMeta r t b).meta.superList = (remErase r.meta t b).superList := by
  simp only [tsdbRemoveTableFromMeta]
  split <;> rfl

theorem removeFromMeta_meta_maxTables (r : STsdbRepo) (t : STable) (b : Bool) :
    (tsdbRemoveTableFromMeta r t b).meta.maxTables = (remErase r.meta t b).maxTables := by
  simp only [tsdbRemoveTableFromMeta]
  split <;> rfl

theorem remCore_super {m : STsdbMeta} {t : STable} (b : Bool)
    (hty : t.ttype = TSDB_SUPER_TABLE) :
    remCore m t b = { m with superList := (m.superList.reverse.erase t.uid).reverse } := by
  unfold remCore
  rw [if_pos hty]

theorem remCore_nonsuper {m : STsdbMeta} {t : STable} (b : Bool)
    (hns : ¬t.ttype = TSDB_SUPER_TABLE) :
    remCore m t b = remNonSuper m t b := by
  unfold remCore
  rw [if_neg hns]

theorem remNonSuper_noidx {m : STsdbMeta} {t : STable} {b : Bool}
    (h : ¬(t.ttype = TSDB_CHILD_TABLE ∧ b = true)) :
    remNonSuper m t b = remDecr (remSlotTables m t) := by
  unfold remNonSuper
  rw [if_neg h]

theorem remNonSuper_idx {m : STsdbMeta} {t : STable}
    (hch : t.ttype = TSDB_CHILD_TABLE) :
    remNonSuper m t true = remDecr (tsdbRemoveTableFromIndex (remSlotTables m t) t) := by
  unfold remNonSuper
  rw [if_pos ⟨hch, rfl⟩]

/-- The invariant depends only on `maxTables`, `tables`, `superList`
and `uidMap`. -/
theorem metaInv_ext {m m' : STsdbMeta} (h1 : m'.maxTables = m.maxTables)
    (h2 : m'.tables = m.tables) (h3 : m'.superList = m.superList)
    (h4 : m'.uidMap = m.uidMap) (hInv : MetaInv m) : MetaInv m' := by
  refine ⟨?_, ?_, ?_, ?_, ?_, ?_, ?_, ?_, ?_, ?_, ?_, ?_, ?_, ?_⟩ <;>
    simp only [h1, h2, h3, h4]
  · exact hInv.tablesLen
  · exact hInv.keysNodup
  · exact hInv.uidEq
  · exact hInv.wf
  · exact hInv.kinds
  · exact hInv.superOk
  · exact hInv.childOk
  · exact hInv.normalOk
  · exact hInv.nonSuperSlot
  · exact hInv.slotOk
  · exact hInv.superNodup
  · exact hInv.superMem
  · exact hInv.indexOk
  · exact hInv.sortedOk

/-- Removing a registered normal or stream table from the tid array
and the uid map preserves the invariant. -/
theorem metaInv_remove_plain {m : STsdbMeta} (hInv : MetaInv m) {t : STable}
    (hget : hashGet m.uidMap t.uid = some t)
    (hns : ¬t.ttype = TSDB_SUPER_TABLE) (hnc : ¬t.ttype = TSDB_CHILD_TABLE) :
    MetaInv { m with
      tables := tableSetSlot m.tables t.tid none
      uidMap := hashRemove m.uidMap t.uid } := by
  have hL : ∀ u, hashGet (hashRemove m.uidMap t.uid) u =
      if t.uid = u then none else hashGet m.uidMap u :=
    fun u => hashGet_remove hInv.keysNodup t.uid u
  obtain ⟨htid1, htid2, hslot⟩ := hInv.nonSuperSlot t.uid t hget hns
  have htnn : (0 : Int) ≤ t.tid := le_of_lt htid1
  have hsetSlot : tableSetSlot m.tables t.tid none = m.tables.set t.tid.toNat none := by
    unfold tableSetSlot
    rw [if_pos htnn]
  have htnlen : t.tid.toNat < m.tables.length := by
    rw [hInv.tablesLen]
    omega
  refine ⟨?_, keys_remove_nodup hInv.keysNodup t.uid, ?_, ?_, ?_, ?_, ?_, ?_, ?_, ?_, ?_, ?_,
    ?_, ?_⟩
  · show (tableSetSlot m.tables t.tid none).length = m.maxTables
    rw [hsetSlot, List.length_set]
    exact hInv.tablesLen
  · intro u t' h
    by_cases huu : t.uid = u
    · rw [hL, if_pos huu] at h
      cases h
    · rw [hL, if_neg huu] at h
      exact hInv.uidEq u t' h
  · intro u t' h
    by_cases huu : t.uid = u
    · rw [hL, if_pos huu] at h
      cases h
    · rw [hL, if_neg huu] at h
      exact hInv.wf u t' h
  · intro u t' h
    by_cases huu : t.uid = u
    · rw [hL, if_pos huu] at h
      cases h
    · rw [hL, if_neg huu] at h
      exact hInv.kinds u t' h
  · intro u t' h hty
    by_cases huu : t.uid = u
    · rw [hL, if_pos huu] at h
      cases h
    · rw [hL, if_neg huu] at h
      exact hInv.superOk u t' h hty
  · intro u t' h hc
    by_cases huu : t.uid = u
    · rw [hL, if_pos huu] at h
      cases h
    · rw [hL, if_neg huu] at h
      obtain ⟨h1, h2, h3, h4, h5, h6, s, hs, hsty, hmem⟩ := hInv.childOk u t' h hc
      refine ⟨h1, h2, h3, h4, h5, h6, s, ?_, hsty, hmem⟩
      rw [hL]
      have hne : ¬t.uid = t'.suid := by
        intro hh
        rw [← hh, hget] at hs
        cases Option.some.inj hs
        exact hns hsty
      rw [if_neg hne]
      exact hs
  · intro u t' h hty
    by_cases huu : t.uid = u
    · rw [hL, if_pos huu] at h
      cases h
    · rw [hL, if_neg huu] at h
      exact hInv.normalOk u t' h hty
  · intro u t' h hnst'
    by_cases huu : t.uid = u
    · rw [hL, if_pos huu] at h
      cases h
    · rw [hL, if_neg huu] at h
      obtain ⟨k1, k2, k3⟩ := hInv.nonSuperSlot u t' h hnst'
      refine ⟨k1, k2, ?_⟩
      show (tableSetSlot m.tables t.tid none).getD t'.tid.toNat none = some u
      rw [hsetSlot]
      have hneidx : ¬t.tid.toNat = t'.tid.toNat := by
        intro hh
        rw [← hh, hslot] at k3
        cases Option.some.inj k3
        exact huu rfl
      rw [getD_set_ne hneidx]
      exact k3
  · intro i u hsl
    have hsl' : (m.tables.set t.tid.toNat none).getD i none = some u := by
      rw [← hsetSlot]
      exact hsl
    by_cases hi : t.tid.toNat = i
    · rw [← hi, getD_set_self htnlen] at hsl'
      cases hsl'
    · rw [getD_set_ne hi] at hsl'
      obtain ⟨t', ht', htid', hnst'⟩ := hInv.slotOk i u hsl'
      refine ⟨t', ?_, htid', hnst'⟩
      rw [hL]
      have hneu : ¬t.uid = u := by
        intro hh
        rw [← hh, hget] at ht'
        cases Option.some.inj ht'
        apply hi
        rw [htid']
        exact Int.toNat_ofNat i
      rw [if_neg hneu]
      exact ht'
  · exact hInv.superNodup
  · intro su hsu
    obtain ⟨s, hs, hsty⟩ := hInv.superMem su hsu
    refine ⟨s, ?_, hsty⟩
    rw [hL]
    have hne : ¬t.uid = su := by
      intro hh
      rw [← hh, hget] at hs
      cases Option.some.inj hs
      exact hns hsty
    rw [if_neg hne]
    exact hs
  · intro u t'' h hty
    by_cases huu : t.uid = u
    · rw [hL, if_pos huu] at h
      cases h
    · rw [hL, if_neg huu] at h
      obtain ⟨hnd', hall⟩ := hInv.indexOk u t'' h hty
      refine ⟨hnd', ?_⟩
      intro cu hcu
      obtain ⟨c', hc', hcty', hcsu'⟩ := hall cu hcu
      refine ⟨c', ?_, hcty', hcsu'⟩
      rw [hL]
      have hne : ¬t.uid = cu := by
        intro hh
        rw [← hh, hget] at hc'
        cases Option.some.inj hc'
        exact hnc hcty'
      rw [if_neg hne]
      exact hc'
  · intro u t' h hnc'
    by_cases huu : t.uid = u
    · rw [hL, if_pos huu] at h
      cases h
    · rw [hL, if_neg huu] at h
      exact hInv.sortedOk u t' h hnc'

/-- Removing a registered child from the tid array, the uid map and
its super's index preserves the invariant. -/
theorem metaInv_remove_child {m : STsdbMeta} (hInv : MetaInv m) {c s : STable}
    (hget : hashGet m.uidMap c.uid = some c) (hch : c.ttype = TSDB_CHILD_TABLE)
    (hgs : hashGet m.uidMap c.suid = some s) (hsty : s.ttype = TSDB_SUPER_TABLE) :
    MetaInv { m with
      tables := tableSetSlot m.tables c.tid none
      uidMap := hashRemove
        (hashPut m.uidMap c.suid ({ s with pIndex := s.pIndex.filter (fun u => u ≠ c.uid) }))
        c.uid } := by
  have hnsch : ¬c.ttype = TSDB_SUPER_TABLE := by
    rw [hch]
    decide
  have hsuid : s.uid = c.suid := hInv.uidEq c.suid s hgs
  have hL : ∀ u, hashGet (hashRemove
      (hashPut m.uidMap c.suid ({ s with pIndex := s.pIndex.filter (fun u => u ≠ c.uid) }))
      c.uid) u =
      if c.uid = u then none
      else if c.suid = u then
        some ({ s with pIndex := s.pIndex.filter (fun u => u ≠ c.uid) })
      else hashGet m.uidMap u := by
    intro u
    rw [hashGet_remove (keys_put_nodup hInv.keysNodup _ _), hashGet_put]
  have hmemf : ∀ x, x ∈ s.pIndex.filter (fun u => u ≠ c.uid) ↔ x ∈ s.pIndex ∧ x ≠ c.uid := by
    intro x
    simp [List.mem_filter]
  obtain ⟨htid1, htid2, hslot⟩ := hInv.nonSuperSlot c.uid c hget hnsch
  have htnn : (0 : Int) ≤ c.tid := le_of_lt htid1
  have hsetSlot : tableSetSlot m.tables c.tid none = m.tables.set c.tid.toNat none := by
    unfold tableSetSlot
    rw [if_pos htnn]
  have htnlen : c.tid.toNat < m.tables.length := by
    rw [hInv.tablesLen]
    omega
  refine ⟨?_, keys_remove_nodup (keys_put_nodup hInv.keysNodup _ _) c.uid, ?_, ?_, ?_, ?_, ?_,
    ?_, ?_, ?_, ?_, ?_, ?_, ?_⟩
  · show (tableSetSlot m.tables c.tid none).length = m.maxTables
    rw [hsetSlot, List.length_set]
    exact hInv.tablesLen
  · intro u t' h
    by_cases huu : c.uid = u
    · rw [hL, if_pos huu] at h
      cases h
    · rw [hL, if_neg huu] at h
      by_cases hsu : c.suid = u
      · rw [if_pos hsu] at h
        cases Option.some.inj h.symm
        show s.uid = u
        rw [hsuid]
        exact hsu
      · rw [if_neg hsu] at h
        exact hInv.uidEq u t' h
  · intro u t' h
    by_cases huu : c.uid = u
    · rw [hL, if_pos huu] at h
      cases h
    · rw [hL, if_neg huu] at h
      by_cases hsu : c.suid = u
      · rw [if_pos hsu] at h
        cases Option.some.inj h.symm
        exact hInv.wf c.suid s hgs
      · rw [if_neg hsu] at h
        exact hInv.wf u t' h
  · intro u t' h
    by_cases huu : c.uid = u
    · rw [hL, if_pos huu] at h
      cases h
    · rw [hL, if_neg huu] at h
      by_cases hsu : c.suid = u
      · rw [if_pos hsu] at h
        cases Option.some.inj h.symm
        exact Or.inl hsty
      · rw [if_neg hsu] at h
        exact hInv.kinds u t' h
  · intro u t' h hty
    by_cases huu : c.uid = u
    · rw [hL, if_pos huu] at h
      cases h
    · rw [hL, if_neg huu] at h
      by_cases hsu : c.suid = u
      · rw [if_pos hsu] at h
        cases Option.some.inj h.symm
        obtain ⟨g1, g2, g3, g4, g5, g6, g7, g8⟩ := hInv.superOk c.suid s hgs hsty
        refine ⟨g1, g2, g3, g4, g5, g6, g7, ?_⟩
        rw [← hsu]
        exact g8
      · rw [if_neg hsu] at h
        exact hInv.superOk u t' h hty
  · intro u t' h hc
    by_cases huu : c.uid = u
    · rw [hL, if_pos huu] at h
      cases h
    · rw [hL, if_neg huu] at h
      by_cases hsu : c.suid = u
      · rw [if_pos hsu] at h
        cases Option.some.inj h.symm
        have hc' : s.ttype = TSDB_CHILD_TABLE := hc
        rw [hsty] at hc'
        exact absurd hc' (by decide)
      · rw [if_neg hsu] at h
        obtain ⟨h1, h2, h3, h4, h5, h6, s', hs', hsty', hmem'⟩ := hInv.childOk u t' h hc
        refine ⟨h1, h2, h3, h4, h5, h6, ?_⟩
        have hnecu : ¬c.uid = t'.suid := by
          intro hh
          rw [← hh, hget] at hs'
          cases Option.some.inj hs'
          exact absurd hsty' (by rw [hch]; decide)
        by_cases hscs : c.suid = t'.suid
        · refine ⟨{ s with pIndex := s.pIndex.filter (fun u => u ≠ c.uid) }, ?_, hsty, ?_⟩
          · rw [hL, if_neg hnecu, if_pos hscs]
          · have hseq : s' = s := by
              rw [← hscs, hgs] at hs'
              exact (Option.some.inj hs').symm
            show u ∈ s.pIndex.filter (fun u => u ≠ c.uid)
            rw [hmemf]
            refine ⟨?_, fun hh => huu hh.symm⟩
            rw [← hseq]
            exact hmem'
        · refine ⟨s', ?_, hsty', hmem'⟩
          rw [hL, if_neg hnecu, if_neg hscs]
          exact hs'
  · intro u t' h hty
    by_cases huu : c.uid = u
    · rw [hL, if_pos huu] at h
      cases h
    · rw [hL, if_neg huu] at h
      by_cases hsu : c.suid = u
      · rw [if_pos hsu] at h
        cases Option.some.inj h.symm
        have hty' : s.ttype = TSDB_NORMAL_TABLE ∨ s.ttype = TSDB_STREAM_TABLE := hty
        rw [hsty] at hty'
        rcases hty' with hh | hh <;> exact absurd hh (by decide)
      · rw [if_neg hsu] at h
        exact hInv.normalOk u t' h hty
  · intro u t' h hnst'
    by_cases huu : c.uid = u
    · rw [hL, if_pos huu] at h
      cases h
    · rw [hL, if_neg huu] at h
      by_cases hsu : c.suid = u
      · rw [if_pos hsu] at h
        cases Option.some.inj h.symm
        exact absurd hsty hnst'
      · rw [if_neg hsu] at h
        obtain ⟨k1, k2, k3⟩ := hInv.nonSuperSlot u t' h hnst'
        refine ⟨k1, k2, ?_⟩
        show (tableSetSlot m.tables c.tid none).getD t'.tid.toNat none = some u
        rw [hsetSlot]
        have hneidx : ¬c.tid.toNat = t'.tid.toNat := by
          intro hh
          rw [← hh, hslot] at k3
          cases Option.some.inj k3
          exact huu rfl
        rw [getD_set_ne hneidx]
        exact k3
  · intro i u hsl
    have hsl' : (m.tables.set c.tid.toNat none).getD i none = some u := by
      rw [← hsetSlot]
      exact hsl
    by_cases hi : c.tid.toNat = i
    · rw [← hi, getD_set_self htnlen] at hsl'
      cases hsl'
    · rw [getD_set_ne hi] at hsl'
      obtain ⟨t', ht', htid', hnst'⟩ := hInv.slotOk i u hsl'
      have hneu : ¬c.uid = u := by
        intro hh
        rw [← hh, hget] at ht'
        cases Option.some.inj ht'
        apply hi
        rw [htid']
        exact Int.toNat_ofNat i
      by_cases hsu : c.suid = u
      · exfalso
        rw [← hsu, hgs] at ht'
        cases Option.some.inj ht'
        exact hnst' hsty
      · refine ⟨t', ?_, htid', hnst'⟩
        rw [hL, if_neg hneu, if_neg hsu]
        exact ht'
  · exact hInv.superNodup
  · intro su hsu
    obtain ⟨s0, hs0, hsty0⟩ := hInv.superMem su hsu
    have hnecu : ¬c.uid = su := by
      intro hh
      rw [← hh, hget] at hs0
      cases Option.some.inj hs0
      exact absurd hsty0 (by rw [hch]; decide)
    by_cases hscs : c.suid = su
    · refine ⟨{ s with pIndex := s.pIndex.filter (fun u => u ≠ c.uid) }, ?_, hsty⟩
      rw [hL, if_neg hnecu, if_pos hscs]
    · refine ⟨s0, ?_, hsty0⟩
      rw [hL, if_neg hnecu, if_neg hscs]
      exact hs0
  · intro u t'' h hty
    by_cases huu : c.uid = u
    · rw [hL, if_pos huu] at h
      cases h
    · rw [hL, if_neg huu] at h
      by_cases hsu : c.suid = u
      · rw [if_pos hsu] at h
        cases Option.some.inj h.symm
        obtain ⟨hnd', hall⟩ := hInv.indexOk c.suid s hgs hsty
        refine ⟨?_, ?_⟩
        · show (s.pIndex.filter (fun u => u ≠ c.uid)).Nodup
          exact (List.filter_sublist _).nodup hnd'
        · intro cu hcu
          have hcu' : cu ∈ s.pIndex ∧ cu ≠ c.uid := (hmemf cu).1 hcu
          obtain ⟨c', hc', hcty', hcsu'⟩ := hall cu hcu'.1
          have hnescu : ¬c.suid = cu := by
            intro hh
            rw [← hh, hgs] at hc'
            cases Option.some.inj hc'
            rw [hsty] at hcty'
            exact absurd hcty' (by decide)
          refine ⟨c', ?_, hcty', hcsu'.trans hsu⟩
          rw [hL, if_neg (fun hh => hcu'.2 hh.symm), if_neg hnescu]
          exact hc'
      · rw [if_neg hsu] at h
        obtain ⟨hnd', hall⟩ := hInv.indexOk u t'' h hty
        refine ⟨hnd', ?_⟩
        intro cu hcu
        obtain ⟨c', hc', hcty', hcsu'⟩ := hall cu hcu
        have hnecu : ¬c.uid = cu := by
          intro hh
          rw [← hh, hget] at hc'
          cases Option.some.inj hc'
          exact hsu hcsu'
        have hnescu : ¬c.suid = cu := by
          intro hh
          rw [← hh, hgs] at hc'
          cases Option.some.inj hc'
          rw [hsty] at hcty'
          exact absurd hcty' (by decide)
        refine ⟨c', ?_, hcty', hcsu'⟩
        rw [hL, if_neg hnecu, if_neg hnescu]
        exact hc'
  · intro u t' h hnc'
    by_cases huu : c.uid = u
    · rw [hL, if_pos huu] at h
      cases h
    · rw [hL, if_neg huu] at h
      by_cases hsu : c.suid = u
      · rw [if_pos hsu] at h
        cases Option.some.inj h.symm
        exact hInv.sortedOk c.suid s hgs (by rw [hsty]; decide)
      · rw [if_neg hsu] at h
        exact hInv.sortedOk u t' h hnc'

theorem metaInv_removeFromMeta_plain {r : STsdbRepo} (hInv : MetaInv r.meta) {t : STable}
    (hget : hashGet r.meta.uidMap t.uid = some t)
    (hns : ¬t.ttype = TSDB_SUPER_TABLE) (hnc : ¬t.ttype = TSDB_CHILD_TABLE) :
    MetaInv (tsdbRemoveTableFromMeta r t true).meta := by
  have hno : ¬(t.ttype = TSDB_CHILD_TABLE ∧ (true : Bool) = true) := fun hh => hnc hh.1
  refine metaInv_ext ?_ ?_ ?_ ?_ (metaInv_remove_plain hInv hget hns hnc)
  · rw [removeFromMeta_meta_maxTables]
    show (remCore r.meta t true).maxTables = _
    rw [remCore_nonsuper true hns, remNonSuper_noidx hno]
    rfl
  · rw [removeFromMeta_meta_tables]
    show (remCore r.meta t true).tables = _
    rw [remCore_nonsuper true hns, remNonSuper_noidx hno]
    rfl
  · rw [removeFromMeta_meta_superList]
    show (remCore r.meta t true).superList = _
    rw [remCore_nonsuper true hns, remNonSuper_noidx hno]
    rfl
  · rw [removeFromMeta_meta_uidMap]
    show hashRemove (remCore r.meta t true).uidMap t.uid = _
    rw [remCore_nonsuper true hns, remNonSuper_noidx hno]
    rfl

theorem metaInv_removeFromMeta_childidx {r : STsdbRepo} (hInv : MetaInv r.meta) {c s : STable}
    (hget : hashGet r.meta.uidMap c.uid = some c) (hch : c.ttype = TSDB_CHILD_TABLE)
    (hgs : hashGet r.meta.uidMap c.suid = some s) (hsty : s.ttype = TSDB_SUPER_TABLE)
    (hps : c.pSuper = some c.suid) :
    MetaInv (tsdbRemoveTableFromMeta r c true).meta := by
  have hns : ¬c.ttype = TSDB_SUPER_TABLE := by
    rw [hch]
    decide
  have hgs' : tsdbGetTableByUid (remSlotTables r.meta c) c.suid = some s := hgs
  refine metaInv_ext ?_ ?_ ?_ ?_ (metaInv_remove_child hInv hget hch hgs hsty)
  · rw [removeFromMeta_meta_maxTables]
    show (remCore r.meta c true).maxTables = _
    rw [remCore_nonsuper true hns, remNonSuper_idx hch, rmIdx_eq hps hgs']
    rfl
  · rw [removeFromMeta_meta_tables]
    show (remCore r.meta c true).tables = _
    rw [remCore_nonsuper true hns, remNonSuper_idx hch, rmIdx_eq hps hgs']
    rfl
  · rw [removeFromMeta_meta_superList]
    show (remCore r.meta c true).superList = _
    rw [remCore_nonsuper true hns, remNonSuper_idx hch, rmIdx_eq hps hgs']
    rfl
  · rw [removeFromMeta_meta_uidMap]
    show hashRemove (remCore r.meta c true).uidMap c.uid = _
    rw [remCore_nonsuper true hns, remNonSuper_idx hch, rmIdx_eq hps hgs']
    rfl

theorem metaInvD_ext {m m' : STsdbMeta} {su : Nat} {rem : List Nat}
    (h1 : m'.maxTables = m.maxTables) (h2 : m'.tables = m.tables)
    (h3 : m'.superList = m.superList) (h4 : m'.uidMap = m.uidMap)
    (hD : MetaInvD m su rem) : MetaInvD m' su rem := by
  refine ⟨?_, ?_, ?_, ?_, ?_, ?_, ?_, ?_, ?_, ?_, ?_, ?_, ?_, ?_, ?_, ?_, ?_, ?_⟩ <;>
    simp only [h1, h2, h3, h4]
  · exact hD.tablesLen
  · exact hD.keysNodup
  · exact hD.uidEq
  · exact hD.wf
  · exact hD.kinds
  · exact hD.superOk
  · exact hD.childOk
  · exact hD.normalOk
  · exact hD.nonSuperSlot
  · exact hD.slotOk
  · exact hD.superNodup
  · exact hD.superMem
  · exact hD.indexOkD
  · exact hD.indexSu
  · exact hD.sortedOk
  · exact hD.suOk
  · exact hD.remOk
  · exact hD.childrenRem

theorem metaInvD_of_metaInv {m : STsdbMeta} (hInv : MetaInv m) {su : Nat} {s : STable}
    (hgs : hashGet m.uidMap su = some s) (hsty : s.ttype = TSDB_SUPER_TABLE) :
    MetaInvD m su s.pIndex := by
  refine ⟨hInv.tablesLen, hInv.keysNodup, hInv.uidEq, hInv.wf, hInv.kinds, hInv.superOk,
    hInv.childOk, hInv.normalOk, hInv.nonSuperSlot, hInv.slotOk, hInv.superNodup,
    hInv.superMem, ?_, ?_, hInv.sortedOk, ?_, ?_, ?_⟩
  · intro u t h ht _
    exact hInv.indexOk u t h ht
  · intro t0 h0
    rw [hgs] at h0
    cases Option.some.inj h0.symm
    exact (hInv.indexOk su s hgs hsty).1
  · intro t0 h0
    rw [hgs] at h0
    cases Option.some.inj h0.symm
    exact hsty
  · intro cu hcu
    exact Or.inr ((hInv.indexOk su s hgs hsty).2 cu hcu)
  · intro u t h hc hsu'
    obtain ⟨_, _, _, _, _, _, s', hs', _, hmem⟩ := hInv.childOk u t h hc
    rw [hsu', hgs] at hs'
    cases Option.some.inj hs'.symm
    exact hmem

theorem metaInvD_tail {m : STsdbMeta} {su cu : Nat} {rem : List Nat}
    (hD : MetaInvD m su (cu :: rem)) (hnone : hashGet m.uidMap cu = none) :
    MetaInvD m su rem := by
  refine ⟨hD.tablesLen, hD.keysNodup, hD.uidEq, hD.wf, hD.kinds, hD.superOk, hD.childOk,
    hD.normalOk, hD.nonSuperSlot, hD.slotOk, hD.superNodup, hD.superMem, hD.indexOkD,
    hD.indexSu, hD.sortedOk, hD.suOk, ?_, ?_⟩
  · intro cu' hcu'
    exact hD.remOk cu' (List.mem_cons_of_mem cu hcu')
  · intro u t h hc hsu'
    rcases List.mem_cons.1 (hD.childrenRem u t h hc hsu') with hh | hh
    · rw [hh, hnone] at h
      cases h
    · exact hh

/-- One cascade step: removing a pending child (without touching the
index) preserves the weakened invariant with that child discharged. -/
theorem metaInvD_remove_child_step {m : STsdbMeta} {su cu : Nat} {rem : List Nat}
    (hD : MetaInvD m su (cu :: rem)) {c : STable}
    (hgc : hashGet m.uidMap cu = some c) (hch : c.ttype = TSDB_CHILD_TABLE)
    (hcsu : c.suid = su) :
    MetaInvD { m with
      tables := tableSetSlot m.tables c.tid none
      uidMap := hashRemove m.uidMap c.uid } su rem := by
  have hcu_uid : c.uid = cu := hD.uidEq cu c hgc
  have hget : hashGet m.uidMap c.uid = some c := by
    rw [hcu_uid]
    exact hgc
  have hnsch : ¬c.ttype = TSDB_SUPER_TABLE := by
    rw [hch]
    decide
  have hnecsu : ¬c.uid = su := by
    intro hh
    have hx := hD.suOk c (by rw [← hh]; exact hget)
    rw [hch] at hx
    exact absurd hx (by decide)
  have hL : ∀ u, hashGet (hashRemove m.uidMap c.uid) u =
      if c.uid = u then none else hashGet m.uidMap u :=
    fun u => hashGet_remove hD.keysNodup c.uid u
  obtain ⟨htid1, htid2, hslot⟩ := hD.nonSuperSlot c.uid c hget hnsch
  have htnn : (0 : Int) ≤ c.tid := le_of_lt htid1
  have hsetSlot : tableSetSlot m.tables c.tid none = m.tables.set c.tid.toNat none := by
    unfold tableSetSlot
    rw [if_pos htnn]
  have htnlen : c.tid.toNat < m.tables.length := by
    rw [hD.tablesLen]
    omega
  refine ⟨?_, keys_remove_nodup hD.keysNodup c.uid, ?_, ?_, ?_, ?_, ?_, ?_, ?_, ?_, ?_, ?_,
    ?_, ?_, ?_, ?_, ?_, ?_⟩
  · show (tableSetSlot m.tables c.tid none).length = m.maxTables
    rw [hsetSlot, List.length_set]
    exact hD.tablesLen
  · intro u t' h
    by_cases huu : c.uid = u
    · rw [hL, if_pos huu] at h
      cases h
    · rw [hL, if_neg huu] at h
      exact hD.uidEq u t' h
  · intro u t' h
    by_cases huu : c.uid = u
    · rw [hL, if_pos huu] at h
      cases h
    · rw [hL, if_neg huu] at h
      exact hD.wf u t' h
  · intro u t' h
    by_cases huu : c.uid = u
    · rw [hL, if_pos huu] at h
      cases h
    · rw [hL, if_neg huu] at h
      exact hD.kinds u t' h
  · intro u t' h hty
    by_cases huu : c.uid = u
    · rw [hL, if_pos huu] at h
      cases h
    · rw [hL, if_neg huu] at h
      exact hD.superOk u t' h hty
  · intro u t' h hc
    by_cases huu : c.uid = u
    · rw [hL, if_pos huu] at h
      cases h
    · rw [hL, if_neg huu] at h
      obtain ⟨h1, h2, h3, h4, h5, h6, s', hs', hsty', hmem'⟩ := hD.childOk u t' h hc
      refine ⟨h1, h2, h3, h4, h5, h6, s', ?_, hsty', hmem'⟩
      rw [hL]
      have hne : ¬c.uid = t'.suid := by
        intro hh
        rw [← hh, hget] at hs'
        cases Option.some.inj hs'
        exact absurd hsty' (by rw [hch]; decide)
      rw [if_neg hne]
      exact hs'
  · intro u t' h hty
    by_cases huu : c.uid = u
    · rw [hL, if_pos huu] at h
      cases h
    · rw [hL, if_neg huu] at h
      exact hD.normalOk u t' h hty
  · intro u t' h hnst'
    by_cases huu : c.uid = u
    · rw [hL, if_pos huu] at h
      cases h
    · rw [hL, if_neg huu] at h
      obtain ⟨k1, k2, k3⟩ := hD.nonSuperSlot u t' h hnst'
      refine ⟨k1, k2, ?_⟩
      show (tableSetSlot m.tables c.tid none).getD t'.tid.toNat none = some u
      rw [hsetSlot]
      have hneidx : ¬c.tid.toNat = t'.tid.toNat := by
        intro hh
        rw [← hh, hslot] at k3
        cases Option.some.inj k3
        exact huu rfl
      rw [getD_set_ne hneidx]
      exact k3
  · intro i u hsl
    have hsl' : (m.tables.set c.tid.toNat none).getD i none = some u := by
      rw [← hsetSlot]
      exact hsl
    by_cases hi : c.tid.toNat = i
    · rw [← hi, getD_set_self htnlen] at hsl'
      cases hsl'
    · rw [getD_set_ne hi] at hsl'
      obtain ⟨t', ht', htid', hnst'⟩ := hD.slotOk i u hsl'
      refine ⟨t', ?_, htid', hnst'⟩
      rw [hL]
      have hneu : ¬c.uid = u := by
        intro hh
        rw [← hh, hget] at ht'
        cases Option.some.inj ht'
        apply hi
        rw [htid']
        exact Int.toNat_ofNat i
      rw [if_neg hneu]
      exact ht'
  · exact hD.superNodup
  · intro su' hsu'
    obtain ⟨s0, hs0, hsty0⟩ := hD.superMem su' hsu'
    refine ⟨s0, ?_, hsty0⟩
    rw [hL]
    have hne : ¬c.uid = su' := by
      intro hh
      rw [← hh, hget] at hs0
      cases Option.some.inj hs0
      exact absurd hsty0 (by rw [hch]; decide)
    rw [if_neg hne]
    exact hs0
  · intro u t'' h hty hnsu
    by_cases huu : c.uid = u
    · rw [hL, if_pos huu] at h
      cases h
    · rw [hL, if_neg huu] at h
      obtain ⟨hnd', hall⟩ := hD.indexOkD u t'' h hty hnsu
      refine ⟨hnd', ?_⟩
      intro cu' hcu'
      obtain ⟨c', hc', hcty', hcsu'⟩ := hall cu' hcu'
      have hne : ¬c.uid = cu' := by
        intro hh
        rw [← hh, hget] at hc'
        cases Option.some.inj hc'
        exact hnsu (hcsu'.symm.trans hcsu)
      refine ⟨c', ?_, hcty', hcsu'⟩
      rw [hL, if_neg hne]
      exact hc'
  · intro t0 h0
    rw [hL, if_neg hnecsu] at h0
    exact hD.indexSu t0 h0
  · intro u t' h hnc'
    by_cases huu : c.uid = u
    · rw [hL, if_pos huu] at h
      cases h
    · rw [hL, if_neg huu] at h
      exact hD.sortedOk u t' h hnc'
  · intro t0 h0
    rw [hL, if_neg hnecsu] at h0
    exact hD.suOk t0 h0
  · intro cu' hcu'
    by_cases hq : c.uid = cu'
    · refine Or.inl ?_
      rw [hL, if_pos hq]
    · rcases hD.remOk cu' (List.mem_cons_of_mem cu hcu') with hnone | ⟨c'', hc'', hcty'', hcsu''⟩
      · refine Or.inl ?_
        rw [hL, if_neg hq]
        exact hnone
      · refine Or.inr ⟨c'', ?_, hcty'', hcsu''⟩
        rw [hL, if_neg hq]
        exact hc''
  · intro u t' h hc' hsu'
    by_cases huu : c.uid = u
    · rw [hL, if_pos huu] at h
      cases h
    · rw [hL, if_neg huu] at h
      rcases List.mem_cons.1 (hD.childrenRem u t' h hc' hsu') with hh | hh
    
      · exact absurd (hh.trans hcu_uid.symm).symm huu
      · exact hh

/-- After the cascade: dropping the super itself from the super list
and the uid map restores the full invariant. -/
theorem metaInvD_final {m : STsdbMeta} {su : Nat} (hD : MetaInvD m su []) :
    MetaInv { m with
      superList := (m.superList.reverse.erase su).reverse
      uidMap := hashRemove m.uidMap su } := by
  have hL : ∀ u, hashGet (hashRemove m.uidMap su) u =
      if su = u then none else hashGet m.uidMap u :=
    fun u => hashGet_remove hD.keysNodup su u
  have hndrev : m.superList.reverse.Nodup := List.nodup_reverse.mpr hD.superNodup
  have hnew_nodup : ((m.superList.reverse.erase su).reverse).Nodup :=
    List.nodup_reverse.mpr (hndrev.erase su)
  have hmemnew : ∀ y, y ∈ (m.superList.reverse.erase su).reverse ↔
      y ≠ su ∧ y ∈ m.superList := by
    intro y
    rw [List.mem_reverse, List.Nodup.mem_erase_iff hndrev, List.mem_reverse]
  refine ⟨hD.tablesLen, keys_remove_nodup hD.keysNodup su, ?_, ?_, ?_, ?_, ?_, ?_, ?_, ?_,
    hnew_nodup, ?_, ?_, ?_⟩
  · intro u t' h
    by_cases huu : su = u
    · rw [hL, if_pos huu] at h
      cases h
    · rw [hL, if_neg huu] at h
      exact hD.uidEq u t' h
  · intro u t' h
    by_cases huu : su = u
    · rw [hL, if_pos huu] at h
      cases h
    · rw [hL, if_neg huu] at h
      exact hD.wf u t' h
  · intro u t' h
    by_cases huu : su = u
    · rw [hL, if_pos huu] at h
      cases h
    · rw [hL, if_neg huu] at h
      exact hD.kinds u t' h
  · intro u t' h hty
    by_cases huu : su = u
    · rw [hL, if_pos huu] at h
      cases h
    · rw [hL, if_neg huu] at h
      obtain ⟨g1, g2, g3, g4, g5, g6, g7, g8⟩ := hD.superOk u t' h hty
      refine ⟨g1, g2, g3, g4, g5, g6, g7, ?_⟩
      show u ∈ (m.superList.reverse.erase su).reverse
      rw [hmemnew]
      exact ⟨fun hh => huu hh.symm, g8⟩
  · intro u t' h hc
    by_cases huu : su = u
    · rw [hL, if_pos huu] at h
      cases h
    · rw [hL, if_neg huu] at h
      obtain ⟨h1, h2, h3, h4, h5, h6, s', hs', hsty', hmem'⟩ := hD.childOk u t' h hc
      have hnsuid : ¬t'.suid = su := by
        intro hh
        exact absurd (hD.childrenRem u t' h hc hh) (List.not_mem_nil u)
      refine ⟨h1, h2, h3, h4, h5, h6, s', ?_, hsty', hmem'⟩
      rw [hL, if_neg (fun hh => hnsuid hh.symm)]
      exact hs'
  · intro u t' h hty
    by_cases huu : su = u
    · rw [hL, if_pos huu] at h
      cases h
    · rw [hL, if_neg huu] at h
      exact hD.normalOk u t' h hty
  · intro u t' h hnst'
    by_cases huu : su = u
    · rw [hL, if_pos huu] at h
      cases h
    · rw [hL, if_neg huu] at h
      exact hD.nonSuperSlot u t' h hnst'
  · intro i u hsl
    obtain ⟨t', ht', htid', hnst'⟩ := hD.slotOk i u hsl
    have hnu : ¬su = u := by
      intro hh
      exact hnst' (hD.suOk t' (by rw [hh]; exact ht'))
    refine ⟨t', ?_, htid', hnst'⟩
    rw [hL, if_neg hnu]
    exact ht'
  · intro su' hsu'
    have hsu'' := (hmemnew su').1 hsu'
    obtain ⟨s0, hs0, hsty0⟩ := hD.superMem su' hsu''.2
    refine ⟨s0, ?_, hsty0⟩
    rw [hL, if_neg (fun hh => hsu''.1 hh.symm)]
    exact hs0
  · intro u t'' h hty
    by_cases huu : su = u
    · rw [hL, if_pos huu] at h
      cases h
    · rw [hL, if_neg huu] at h
      obtain ⟨hnd', hall⟩ := hD.indexOkD u t'' h hty (fun hh => huu hh.symm)
      refine ⟨hnd', ?_⟩
      intro cu hcu
      obtain ⟨c', hc', hcty', hcsu'⟩ := hall cu hcu
      have hne : ¬su = cu := by
        intro hh
        have hx := hD.suOk c' (by rw [hh]; exact hc')
        rw [hcty'] at hx
        exact absurd hx (by decide)
      refine ⟨c', ?_, hcty', hcsu'⟩
      rw [hL, if_neg hne]
      exact hc'
  · intro u t' h hnc'
    by_cases huu : su = u
    · rw [hL, if_pos huu] at h
      cases h
    · rw [hL, if_neg huu] at h
      exact hD.sortedOk u t' h hnc'

theorem dropStep_none {r : STsdbRepo} {cu : Nat}
    (h : tsdbGetTableByUid r.meta cu = none) : dropStep r cu = r := by
  unfold dropStep
  rw [h]

theorem dropStep_some {r : STsdbRepo} {cu : Nat} {c : STable}
    (h : tsdbGetTableByUid r.meta cu = some c) :
    dropStep r cu =
      tsdbRemoveTableFromMeta (tsdbInsertTableAct r TSDB_DROP_META c) c false := by
  unfold dropStep
  rw [h]

/-- One cascade step at the repo level. -/
theorem dropStep_invD {r : STsdbRepo} {su cu : Nat} {rem : List Nat}
    (hD : MetaInvD r.meta su (cu :: rem)) : MetaInvD (dropStep r cu).meta su rem := by
  cases hgc : tsdbGetTableByUid r.meta cu with
  | none =>
      rw [dropStep_none hgc]
      exact metaInvD_tail hD hgc
  | some c =>
      rw [dropStep_some hgc]
      have hgc' : hashGet r.meta.uidMap cu = some c := hgc
      rcases hD.remOk cu (List.mem_cons_self cu rem) with hnone | ⟨c', hc', hcty, hcsu⟩
      · rw [hgc'] at hnone
        cases hnone
      · rw [hgc'] at hc'
        cases Option.some.inj hc'.symm
        have hnsch : ¬c.ttype = TSDB_SUPER_TABLE := by
          rw [hcty]
          decide
        have hno : ¬(c.ttype = TSDB_CHILD_TABLE ∧ (false : Bool) = true) :=
          fun hh => by cases hh.2
        refine metaInvD_ext ?_ ?_ ?_ ?_
          (metaInvD_remove_child_step hD hgc' hcty hcsu)
        · rw [removeFromMeta_meta_maxTables]
          show (remCore (tsdbInsertTableAct r TSDB_DROP_META c).meta c false).maxTables = _
          rw [meta_insertAct, remCore_nonsuper false hnsch, remNonSuper_noidx hno]
          rfl
        · rw [removeFromMeta_meta_tables]
          show (remCore (tsdbInsertTableAct r TSDB_DROP_META c).meta c false).tables = _
          rw [meta_insertAct, remCore_nonsuper false hnsch, remNonSuper_noidx hno]
          rfl
        · rw [removeFromMeta_meta_superList]
          show (remCore (tsdbInsertTableAct r TSDB_DROP_META c).meta c false).superList = _
          rw [meta_insertAct, remCore_nonsuper false hnsch, remNonSuper_noidx hno]
          rfl
        · rw [removeFromMeta_meta_uidMap]
          show hashRemove
            (remCore (tsdbInsertTableAct r TSDB_DROP_META c).meta c false).uidMap c.uid = _
          rw [meta_insertAct, remCore_nonsuper false hnsch, remNonSuper_noidx hno]
          rfl

/-- Running the cascade over the pending list discharges it. -/
theorem cascade_invD : ∀ (l : List Nat) (r : STsdbRepo) (su : Nat),
    MetaInvD r.meta su l → MetaInvD (l.foldl dropStep r).meta su [] := by
  intro l
  induction l with
  | nil =>
      intro r su hD
      exact hD
  | cons cu rest ih =>
      intro r su hD
      rw [List.foldl_cons]
      exact ih _ su (dropStep_invD hD)

/-- `tsdbDropTable` preserves the invariant. -/
theorem metaInv_dropTable {r : STsdbRepo} (hInv : MetaInv r.meta) (uid : Nat) :
    MetaInv (tsdbDropTable r uid).repo.meta := by
  cases hget : tsdbGetTableByUid r.meta uid with
  | none =>
      rw [dropTable_none_eq hget]
      exact hInv
  | some t =>
      have hget' : hashGet r.meta.uidMap uid = some t := hget
      have huid : t.uid = uid := hInv.uidEq uid t hget'
      by_cases hsty : t.ttype = TSDB_SUPER_TABLE
      · rw [dropTable_super_eq hget hsty]
        have hgs0 : hashGet r.meta.uidMap t.uid = some t := by
          rw [huid]
          exact hget'
        have hD0 : MetaInvD r.meta t.uid t.pIndex := metaInvD_of_metaInv hInv hgs0 hsty
        have hD1 : MetaInvD (t.pIndex.foldl dropStep r).meta t.uid [] :=
          cascade_invD t.pIndex r t.uid hD0
        refine metaInv_ext ?_ ?_ ?_ ?_ (metaInvD_final hD1)
        · rw [removeFromMeta_meta_maxTables]
          show (remCore (t.pIndex.foldl dropStep r).meta t true).maxTables = _
          rw [remCore_super true hsty]
        · rw [removeFromMeta_meta_tables]
          show (remCore (t.pIndex.foldl dropStep r).meta t true).tables = _
          rw [remCore_super true hsty]
        · rw [removeFromMeta_meta_superList]
          show (remCore (t.pIndex.foldl dropStep r).meta t true).superList = _
          rw [remCore_super true hsty]
        · rw [removeFromMeta_meta_uidMap]
          show hashRemove (remCore (t.pIndex.foldl dropStep r).meta t true).uidMap t.uid = _
          rw [remCore_super true hsty]
      · rw [dropTable_nonsuper_eq hget hsty]
        have hgt : hashGet r.meta.uidMap t.uid = some t := by
          rw [huid]
          exact hget'
        by_cases hch : t.ttype = TSDB_CHILD_TABLE
        · obtain ⟨_, _, _, hps, _, _, s, hgs, hsty', _⟩ := hInv.childOk t.uid t hgt hch
          exact metaInv_removeFromMeta_childidx hInv hgt hch hgs hsty' hps
        · exact metaInv_removeFromMeta_plain hInv hgt hsty hch

/-! ## Preservation: `tsdbUpdateTagValue` -/

/-- The invariant depends on the uid map only through lookups and key
distinctness. -/
theorem metaInv_ext_get {m m' : STsdbMeta} (h1 : m'.maxTables = m.maxTables)
    (h2 : m'.tables = m.tables) (h3 : m'.superList = m.superList)
    (h4 : ∀ u, hashGet m'.uidMap u = hashGet m.uidMap u)
    (h5 : (m'.uidMap.map Prod.fst).Nodup) (hInv : MetaInv m) : MetaInv m' := by
  refine ⟨?_, h5, ?_, ?_, ?_, ?_, ?_, ?_, ?_, ?_, ?_, ?_, ?_, ?_⟩ <;>
    simp only [h1, h2, h3, h4]
  · exact hInv.tablesLen
  · exact hInv.uidEq
  · exact hInv.wf
  · exact hInv.kinds
  · exact hInv.superOk
  · exact hInv.childOk
  · exact hInv.normalOk
  · exact hInv.nonSuperSlot
  · exact hInv.slotOk
  · exact hInv.superNodup
  · exact hInv.superMem
  · exact hInv.indexOk
  · exact hInv.sortedOk

theorem addIntoIndex_eq {m : STsdbMeta} {t s : STable}
    (hs : tsdbGetTableByUid m t.suid = some s) :
    tsdbAddTableIntoIndex m t =
      { m with uidMap :=
          hashPut (hashPut m.uidMap t.suid (reinsSuper m t s)) t.uid (reinsChild t) } := by
  unfold tsdbAddTableIntoIndex
  rw [indexCore_eq hs]
  rfl

theorem step2_none {r : STsdbRepo} {msg : SUpdateTableTagValMsg}
    (h : tsdbGetTableByUid r.meta msg.uid = none) :
    tsdbUpdateTagValStep2 r msg = ⟨-1, some .invalidTableId, r⟩ := by
  unfold tsdbUpdateTagValStep2
  rw [h]

theorem step2_stale {r : STsdbRepo} {msg : SUpdateTableTagValMsg} {t : STable}
    (h : tsdbGetTableByUid r.meta msg.uid = some t)
    (hv : ((tsdbGetTableTagSchema r.meta t).getD emptySchema).version > msg.tversion) :
    tsdbUpdateTagValStep2 r msg = ⟨errCodeVal .tagVerOutOfDate, none, r⟩ := by
  unfold tsdbUpdateTagValStep2
  rw [h]
  show (if ((tsdbGetTableTagSchema r.meta t).getD emptySchema).version > msg.tversion
    then OpResult.mk (errCodeVal .tagVerOutOfDate) none r else _) = _
  rw [if_pos hv]

theorem step2_idx {r : STsdbRepo} {msg : SUpdateTableTagValMsg} {t : STable}
    (h : tsdbGetTableByUid r.meta msg.uid = some t)
    (hv : ¬((tsdbGetTableTagSchema r.meta t).getD emptySchema).version > msg.tversion)
    (hidx : (schemaColAt ((tsdbGetTableTagSchema r.meta t).getD emptySchema)
      DEFAULT_TAG_INDEX_COLUMN).colId = msg.colId) :
    tsdbUpdateTagValStep2 r msg = ⟨0, none, { r with meta := tagStepIdx r.meta t msg }⟩ := by
  unfold tsdbUpdateTagValStep2
  rw [h]
  show (if ((tsdbGetTableTagSchema r.meta t).getD emptySchema).version > msg.tversion
    then OpResult.mk (errCodeVal .tagVerOutOfDate) none r else _) = _
  rw [if_neg hv]
  show (if (schemaColAt ((tsdbGetTableTagSchema r.meta t).getD emptySchema)
      DEFAULT_TAG_INDEX_COLUMN).colId = msg.colId
    then OpResult.mk 0 none { r with meta := tagStepIdx r.meta t msg } else _) = _
  rw [if_pos hidx]

theorem step2_noidx {r : STsdbRepo} {msg : SUpdateTableTagValMsg} {t : STable}
    (h : tsdbGetTableByUid r.meta msg.uid = some t)
    (hv : ¬((tsdbGetTableTagSchema r.meta t).getD emptySchema).version > msg.tversion)
    (hidx : ¬(schemaColAt ((tsdbGetTableTagSchema r.meta t).getD emptySchema)
      DEFAULT_TAG_INDEX_COLUMN).colId = msg.colId) :
    tsdbUpdateTagValStep2 r msg = ⟨0, none, { r with meta := tagStepNoIdx r.meta t msg }⟩ := by
  unfold tsdbUpdateTagValStep2
  rw [h]
  show (if ((tsdbGetTableTagSchema r.meta t).getD emptySchema).version > msg.tversion
    then OpResult.mk (errCodeVal .tagVerOutOfDate) none r else _) = _
  rw [if_neg hv]
  show (if (schemaColAt ((tsdbGetTableTagSchema r.meta t).getD emptySchema)
      DEFAULT_TAG_INDEX_COLUMN).colId = msg.colId
    then OpResult.mk 0 none { r with meta := tagStepIdx r.meta t msg } else _) = _
  rw [if_neg hidx]

theorem updateTable_get_ne {r : STsdbRepo} {uid : Nat} {cfg : STableCfg} {u : Nat}
    (hne : ¬uid = u) :
    hashGet (tsdbUpdateTable r uid cfg).2.meta.uidMap u = hashGet r.meta.uidMap u := by
  cases hget : tsdbGetTableByUid r.meta uid with
  | none => rw [updateTable_meta_none hget]
  | some t =>
      by_cases hch : t.ttype = TSDB_CHILD_TABLE
      · rw [updateTable_meta_child hget hch]
      · rw [updateTable_meta_go hget hch, updMeta_uidMap, hashGet_put, if_neg hne]

/-- Re-keying a child in its super's index (remove, mutate tag values,
re-insert) preserves the invariant. -/
theorem metaInv_child_reindex {m : STsdbMeta} (hInv : MetaInv m) {c s : STable}
    (hget : hashGet m.uidMap c.uid = some c) (hch : c.ttype = TSDB_CHILD_TABLE)
    (hgs : hashGet m.uidMap c.suid = some s) (hsty : s.ttype = TSDB_SUPER_TABLE)
    {newTv : SKVRow} (hwtv : wfTagVal newTv)
    (keyOf : Nat → List Nat) (kk : List Nat) :
    MetaInv { m with
      uidMap := hashPut (hashPut m.uidMap c.suid (rekeySuper keyOf kk c s)) c.uid
          (rekeyChild c newTv) } := by
  have hnsch : ¬c.ttype = TSDB_SUPER_TABLE := by
    rw [hch]
    decide
  have hnecs : ¬c.uid = c.suid := by
    intro hh
    rw [← hh, hget] at hgs
    cases Option.some.inj hgs
    exact absurd hsty (by rw [hch]; decide)
  have hsuid : s.uid = c.suid := hInv.uidEq c.suid s hgs
  obtain ⟨csch, cts, csql, cps, ctv, cpi, s0, hs0, hsty0, hmem0⟩ :=
    hInv.childOk c.uid c hget hch
  have hs0eq : s0 = s := by
    rw [hgs] at hs0
    exact (Option.some.inj hs0).symm
  rw [hs0eq] at hmem0
  obtain ⟨sndup, sall⟩ := hInv.indexOk c.suid s hgs hsty
  have hL : ∀ u, hashGet (hashPut
      (hashPut m.uidMap c.suid (rekeySuper keyOf kk c s))
      c.uid (rekeyChild c newTv)) u =
      if c.uid = u then some (rekeyChild c newTv)
      else if c.suid = u then some (rekeySuper keyOf kk c s)
      else hashGet m.uidMap u := by
    intro u
    rw [hashGet_put, hashGet_put]
  have hmemf : ∀ x, x ∈ s.pIndex.filter (fun u => u ≠ c.uid) ↔ x ∈ s.pIndex ∧ x ≠ c.uid := by
    intro x
    simp [List.mem_filter]
  have hmemIns : ∀ x, x ∈ slInsert keyOf kk c.uid (s.pIndex.filter (fun u => u ≠ c.uid)) ↔
      (x = c.uid ∨ (x ∈ s.pIndex ∧ x ≠ c.uid)) := by
    intro x
    rw [mem_slInsert, hmemf]
  have hndIns : (slInsert keyOf kk c.uid (s.pIndex.filter (fun u => u ≠ c.uid))).Nodup := by
    rw [(slInsert_perm keyOf kk c.uid _).nodup_iff]
    refine List.nodup_cons.2 ⟨?_, (List.filter_sublist _).nodup sndup⟩
    intro hmem
    exact ((hmemf c.uid).1 hmem).2 rfl
  refine ⟨hInv.tablesLen, keys_put_nodup (keys_put_nodup hInv.keysNodup _ _) _ _, ?_, ?_, ?_,
    ?_, ?_, ?_, ?_, ?_, hInv.superNodup, ?_, ?_, ?_⟩
  · intro u t' h
    by_cases huu : c.uid = u
    · rw [hL, if_pos huu] at h
      cases Option.some.inj h.symm
      show c.uid = u
      exact huu
    · rw [hL, if_neg huu] at h
      by_cases hsu : c.suid = u
      · rw [if_pos hsu] at h
        cases Option.some.inj h.symm
        show s.uid = u
        exact hsuid.trans hsu
      · rw [if_neg hsu] at h
        exact hInv.uidEq u t' h
  · intro u t' h
    by_cases huu : c.uid = u
    · rw [hL, if_pos huu] at h
      cases Option.some.inj h.symm
      obtain ⟨w1, w2, w3, w4, w5, w6, w7, w8, _, w10, w11⟩ := hInv.wf c.uid c hget
      exact ⟨w1, w2, w3, w4, w5, w6, w7, w8, wfTagVal_wfKVRow hwtv, w10, w11⟩
    · rw [hL, if_neg huu] at h
      by_cases hsu : c.suid = u
      · rw [if_pos hsu] at h
        cases Option.some.inj h.symm
        exact hInv.wf c.suid s hgs
      · rw [if_neg hsu] at h
        exact hInv.wf u t' h
  · intro u t' h
    by_cases huu : c.uid = u
    · rw [hL, if_pos huu] at h
      cases Option.some.inj h.symm
      exact Or.inr (Or.inl hch)
    · rw [hL, if_neg huu] at h
      by_cases hsu : c.suid = u
      · rw [if_pos hsu] at h
        cases Option.some.inj h.symm
        exact Or.inl hsty
      · rw [if_neg hsu] at h
        exact hInv.kinds u t' h
  · intro u t' h hty
    by_cases huu : c.uid = u
    · rw [hL, if_pos huu] at h
      cases Option.some.inj h.symm
      have hx : c.ttype = TSDB_SUPER_TABLE := hty
      rw [hch] at hx
      exact absurd hx (by decide)
    · rw [hL, if_neg huu] at h
      by_cases hsu : c.suid = u
      · rw [if_pos hsu] at h
        cases Option.some.inj h.symm
        obtain ⟨g1, g2, g3, g4, g5, g6, g7, g8⟩ := hInv.superOk c.suid s hgs hsty
        refine ⟨g1, g2, g3, g4, g5, g6, g7, ?_⟩
        rw [← hsu]
        exact g8
      · rw [if_neg hsu] at h
        exact hInv.superOk u t' h hty
  · intro u t' h hc
    by_cases huu : c.uid = u
    · rw [hL, if_pos huu] at h
      cases Option.some.inj h.symm
      refine ⟨csch, cts, csql, rfl, hwtv, cpi, rekeySuper keyOf kk c s, ?_, hsty, ?_⟩
      · show hashGet (hashPut (hashPut m.uidMap c.suid (rekeySuper keyOf kk c s)) c.uid
          (rekeyChild c newTv)) c.suid = some (rekeySuper keyOf kk c s)
        rw [hL, if_neg hnecs, if_pos rfl]
      · show u ∈ slInsert keyOf kk c.uid (s.pIndex.filter (fun u => u ≠ c.uid))
        rw [hmemIns]
        exact Or.inl huu.symm
    · rw [hL, if_neg huu] at h
      by_cases hsu : c.suid = u
      · rw [if_pos hsu] at h
        cases Option.some.inj h.symm
        have hx : s.ttype = TSDB_CHILD_TABLE := hc
        rw [hsty] at hx
        exact absurd hx (by decide)
      · rw [if_neg hsu] at h
        obtain ⟨h1, h2, h3, h4, h5, h6, s'', hs'', hsty'', hmem''⟩ := hInv.childOk u t' h hc
        refine ⟨h1, h2, h3, h4, h5, h6, ?_⟩
        have hnecu : ¬c.uid = t'.suid := by
          intro hh
          rw [← hh, hget] at hs''
          cases Option.some.inj hs''
          exact absurd hsty'' (by rw [hch]; decide)
        by_cases hscs : c.suid = t'.suid
        · have hseq : s'' = s := by
            rw [← hscs, hgs] at hs''
            exact (Option.some.inj hs'').symm
          refine ⟨rekeySuper keyOf kk c s, ?_, hsty, ?_⟩
          · rw [hL, if_neg hnecu, if_pos hscs]
          · show u ∈ slInsert keyOf kk c.uid (s.pIndex.filter (fun u => u ≠ c.uid))
            rw [hmemIns]
            refine Or.inr ⟨?_, fun hh => huu hh.symm⟩
            rw [← hseq]
            exact hmem''
        · refine ⟨s'', ?_, hsty'', hmem''⟩
          rw [hL, if_neg hnecu, if_neg hscs]
          exact hs''
  · intro u t' h hty
    by_cases huu : c.uid = u
    · rw [hL, if_pos huu] at h
      cases Option.some.inj h.symm
      have hx : c.ttype = TSDB_NORMAL_TABLE ∨ c.ttype = TSDB_STREAM_TABLE := hty
      rw [hch] at hx
      rcases hx with hh | hh <;> exact absurd hh (by decide)
    · rw [hL, if_neg huu] at h
      by_cases hsu : c.suid = u
      · rw [if_pos hsu] at h
        cases Option.some.inj h.symm
        have hx : s.ttype = TSDB_NORMAL_TABLE ∨ s.ttype = TSDB_STREAM_TABLE := hty
        rw [hsty] at hx
        rcases hx with hh | hh <;> exact absurd hh (by decide)
      · rw [if_neg hsu] at h
        exact hInv.normalOk u t' h hty
  · intro u t' h hnst'
    by_cases huu : c.uid = u
    · rw [hL, if_pos huu] at h
      cases Option.some.inj h.symm
      obtain ⟨k1, k2, k3⟩ := hInv.nonSuperSlot c.uid c hget hnsch
      refine ⟨k1, k2, ?_⟩
      show m.tables.getD c.tid.toNat none = some u
      rw [← huu]
      exact k3
    · rw [hL, if_neg huu] at h
      by_cases hsu : c.suid = u
      · rw [if_pos hsu] at h
        cases Option.some.inj h.symm
        exact absurd hsty hnst'
      · rw [if_neg hsu] at h
        exact hInv.nonSuperSlot u t' h hnst'
  · intro i u hsl
    obtain ⟨t', ht', htid', hnst'⟩ := hInv.slotOk i u hsl
    by_cases huu : c.uid = u
    · refine ⟨rekeyChild c newTv, ?_, ?_, ?_⟩
      · rw [hL, if_pos huu]
      · show c.tid = (i : Int)
        rw [← huu, hget] at ht'
        cases Option.some.inj ht'
        exact htid'
      · show ¬c.ttype = TSDB_SUPER_TABLE
        exact hnsch
    · by_cases hsu : c.suid = u
      · exfalso
        rw [← hsu, hgs] at ht'
        cases Option.some.inj ht'
        exact hnst' hsty
      · refine ⟨t', ?_, htid', hnst'⟩
        rw [hL, if_neg huu, if_neg hsu]
        exact ht'
  · intro su' hsu'
    obtain ⟨s1, hs1, hsty1⟩ := hInv.superMem su' hsu'
    have hnecu : ¬c.uid = su' := by
      intro hh
      rw [← hh, hget] at hs1
      cases Option.some.inj hs1
      exact absurd hsty1 (by rw [hch]; decide)
    by_cases hscs : c.suid = su'
    · refine ⟨rekeySuper keyOf kk c s, ?_, hsty⟩
      rw [hL, if_neg hnecu, if_pos hscs]
    · refine ⟨s1, ?_, hsty1⟩
      rw [hL, if_neg hnecu, if_neg hscs]
      exact hs1
  · intro u t'' h hty
    by_cases huu : c.uid = u
    · rw [hL, if_pos huu] at h
      cases Option.some.inj h.symm
      have hx : c.ttype = TSDB_SUPER_TABLE := hty
      rw [hch] at hx
      exact absurd hx (by decide)
    · rw [hL, if_neg huu] at h
      by_cases hsu : c.suid = u
      · rw [if_pos hsu] at h
        cases Option.some.inj h.symm
        refine ⟨hndIns, ?_⟩
        intro cu hcu
        have hcu' := (hmemIns cu).1 hcu
        rcases hcu' with hh | ⟨hmem'', hne''⟩
        · refine ⟨rekeyChild c newTv, ?_, hch, ?_⟩
          · rw [hL, if_pos hh.symm]
          · show c.suid = u
            exact hsu
        · obtain ⟨c'', hc'', hcty'', hcsu''⟩ := sall cu hmem''
          have hnescu : ¬c.suid = cu := by
            intro hh
            rw [← hh, hgs] at hc''
            cases Option.some.inj hc''
            rw [hsty] at hcty''
            exact absurd hcty'' (by decide)
          refine ⟨c'', ?_, hcty'', hcsu''.trans hsu⟩
          rw [hL, if_neg (fun hh => hne'' hh.symm), if_neg hnescu]
          exact hc''
      · rw [if_neg hsu] at h
        obtain ⟨hnd'', hall''⟩ := hInv.indexOk u t'' h hty
        refine ⟨hnd'', ?_⟩
        intro cu hcu
        obtain ⟨c'', hc'', hcty'', hcsu''⟩ := hall'' cu hcu
        have hnecu : ¬c.uid = cu := by
          intro hh
          rw [← hh, hget] at hc''
          cases Option.some.inj hc''
          exact hsu hcsu''
        have hnescu : ¬c.suid = cu := by
          intro hh
          rw [← hh, hgs] at hc''
          cases Option.some.inj hc''
          rw [hsty] at hcty''
          exact absurd hcty'' (by decide)
        refine ⟨c'', ?_, hcty'', hcsu''⟩
        rw [hL, if_neg hnecu, if_neg hnescu]
        exact hc''
  · intro u t' h hnc'
    by_cases huu : c.uid = u
    · rw [hL, if_pos huu] at h
      cases Option.some.inj h.symm
      exact absurd hch hnc'
    · rw [hL, if_neg huu] at h
      by_cases hsu : c.suid = u
      · rw [if_pos hsu] at h
        cases Option.some.inj h.symm
        exact hInv.sortedOk c.suid s hgs (by rw [hsty]; decide)
      · rw [if_neg hsu] at h
        exact hInv.sortedOk u t' h hnc'

theorem tagPut_eq (m : STsdbMeta) (t2 : STable) :
    tagPut m t2 = { m with uidMap := hashPut m.uidMap t2.uid t2 } := rfl

theorem metaInv_tagStepNoIdx {m : STsdbMeta} (hInv : MetaInv m) {t : STable}
    {msg : SUpdateTableTagValMsg}
    (hget : hashGet m.uidMap msg.uid = some t) (hch : t.ttype = TSDB_CHILD_TABLE)
    (hwfm : wfMsg msg) : MetaInv (tagStepNoIdx m t msg) := by
  have huid : t.uid = msg.uid := hInv.uidEq msg.uid t hget
  have hget' : hashGet m.uidMap t.uid = some t := by
    rw [huid]
    exact hget
  have ctv : wfTagVal t.tagVal := (hInv.childOk msg.uid t hget hch).2.2.2.2.1
  have hwtv2 : wfTagVal (tdSetKVRowDataOfCol t.tagVal msg.colId msg.vtype msg.data) :=
    wfTagVal_tdSet ctv hwfm.1 hwfm.2.1 hwfm.2.2.1
  have hwf2 : wfTable (tagValNew t msg) := by
    obtain ⟨w1, w2, w3, w4, w5, w6, w7, w8, _, w10, w11⟩ := hInv.wf msg.uid t hget
    exact ⟨w1, w2, w3, w4, w5, w6, w7, w8, wfTagVal_wfKVRow hwtv2, w10, w11⟩
  show MetaInv { m with uidMap := hashPut m.uidMap t.uid (tagValNew t msg) }
  exact metaInv_update_entry hInv hget' hwf2 rfl rfl rfl rfl (Or.inr ⟨hch, hwtv2⟩) rfl rfl rfl
    (Or.inl rfl) (Or.inl rfl)

theorem metaInv_tagStepIdx {m : STsdbMeta} (hInv : MetaInv m) {t : STable}
    {msg : SUpdateTableTagValMsg}
    (hget : hashGet m.uidMap msg.uid = some t) (hch : t.ttype = TSDB_CHILD_TABLE)
    (hwfm : wfMsg msg) : MetaInv (tagStepIdx m t msg) := by
  have huid : t.uid = msg.uid := hInv.uidEq msg.uid t hget
  have hget' : hashGet m.uidMap t.uid = some t := by
    rw [huid]
    exact hget
  obtain ⟨csch, cts, csql, cps, ctv, cpi, s, hgs, hsty, hmem⟩ := hInv.childOk msg.uid t hget hch
  have hwtv2 : wfTagVal (tdSetKVRowDataOfCol t.tagVal msg.colId msg.vtype msg.data) :=
    wfTagVal_tdSet ctv hwfm.1 hwfm.2.1 hwfm.2.2.1
  have hne : ¬t.uid = t.suid := by
    intro hh
    rw [← hh, hget'] at hgs
    cases Option.some.inj hgs
    exact absurd hsty (by rw [hch]; decide)
  unfold tagStepIdx
  rw [rmIdx_eq cps hgs]
  have hs2 : tsdbGetTableByUid
      (tagPut ({ m with uidMap := hashPut m.uidMap t.suid (filtSuper s t.uid) })
        (tagValNew t msg))
      (tagValNew t msg).suid = some (filtSuper s t.uid) := by
    show hashGet
      (hashPut (hashPut m.uidMap t.suid (filtSuper s t.uid))
        (tagValNew t msg).uid (tagValNew t msg)) (tagValNew t msg).suid = _
    rw [hashGet_put, if_neg (show ¬(tagValNew t msg).uid = (tagValNew t msg).suid from hne),
      hashGet_put, if_pos (show t.suid = (tagValNew t msg).suid from rfl)]
  rw [addIntoIndex_eq hs2]
  show MetaInv { m with
    uidMap := hashPut
        (hashPut
          (hashPut (hashPut m.uidMap t.suid (filtSuper s t.uid)) t.uid (tagValNew t msg))
          t.suid
          (rekeySuper (idxKeyOf (tagStepMid m t msg s))
            ((getTagIndexKey (tagStepMid m t msg s) (reinsChild (tagValNew t msg))).getD [])
            t s))
        t.uid (rekeyChild t (tdSetKVRowDataOfCol t.tagVal msg.colId msg.vtype msg.data)) }
  refine metaInv_ext_get ?_ ?_ ?_ ?_ ?_
    (metaInv_child_reindex hInv hget' hch hgs hsty hwtv2
      (idxKeyOf (tagStepMid m t msg s))
      ((getTagIndexKey (tagStepMid m t msg s) (reinsChild (tagValNew t msg))).getD []))
  · rfl
  · rfl
  · rfl
  · intro u
    show hashGet
      (hashPut
        (hashPut
          (hashPut (hashPut m.uidMap t.suid (filtSuper s t.uid)) t.uid (tagValNew t msg))
          t.suid
          (rekeySuper (idxKeyOf (tagStepMid m t msg s))
            ((getTagIndexKey (tagStepMid m t msg s) (reinsChild (tagValNew t msg))).getD [])
            t s))
        t.uid (rekeyChild t (tdSetKVRowDataOfCol t.tagVal msg.colId msg.vtype msg.data))) u =
      hashGet
        (hashPut
          (hashPut m.uidMap t.suid
            (rekeySuper (idxKeyOf (tagStepMid m t msg s))
              ((getTagIndexKey (tagStepMid m t msg s) (reinsChild (tagValNew t msg))).getD [])
              t s))
          t.uid (rekeyChild t (tdSetKVRowDataOfCol t.tagVal msg.colId msg.vtype msg.data))) u
    rw [hashGet_put, hashGet_put, hashGet_put, hashGet_put, hashGet_put, hashGet_put]
    by_cases h1 : t.uid = u
    · simp only [if_pos h1]
    · simp only [if_neg h1]
      by_cases h2 : t.suid = u
      · simp only [if_pos h2]
      · simp only [if_neg h2]
  · show ((hashPut
      (hashPut
        (hashPut (hashPut m.uidMap t.suid (filtSuper s t.uid)) t.uid (tagValNew t msg))
        t.suid
        (rekeySuper (idxKeyOf (tagStepMid m t msg s))
          ((getTagIndexKey (tagStepMid m t msg s) (reinsChild (tagValNew t msg))).getD [])
          t s))
      t.uid
      (rekeyChild t (tdSetKVRowDataOfCol t.tagVal msg.colId msg.vtype msg.data))).map
        Prod.fst).Nodup
    exact keys_put_nodup (keys_put_nodup (keys_put_nodup (keys_put_nodup hInv.keysNodup _ _)
      _ _) _ _) _ _

theorem metaInv_step2 {r : STsdbRepo} {msg : SUpdateTableTagValMsg} {t : STable}
    (hInv : MetaInv r.meta) (hget : tsdbGetTableByUid r.meta msg.uid = some t)
    (hch : t.ttype = TSDB_CHILD_TABLE) (hwfm : wfMsg msg) :
    MetaInv (tsdbUpdateTagValStep2 r msg).repo.meta := by
  by_cases hv : ((tsdbGetTableTagSchema r.meta t).getD emptySchema).version > msg.tversion
  · rw [step2_stale hget hv]
    exact hInv
  · by_cases hidx : (schemaColAt ((tsdbGetTableTagSchema r.meta t).getD emptySchema)
      DEFAULT_TAG_INDEX_COLUMN).colId = msg.colId
    · rw [step2_idx hget hv hidx]
      exact metaInv_tagStepIdx hInv hget hch hwfm
    · rw [step2_noidx hget hv hidx]
      exact metaInv_tagStepNoIdx hInv hget hch hwfm

theorem updTagVal_none {r : STsdbRepo} {msg : SUpdateTableTagValMsg}
    (h : tsdbGetTableByUid r.meta msg.uid = none) :
    tsdbUpdateTagValue r msg = ⟨-1, some .invalidTableId, r⟩ := by
  unfold tsdbUpdateTagValue
  rw [h]

theorem updTagVal_badtid {r : STsdbRepo} {msg : SUpdateTableTagValMsg} {t0 : STable}
    (h : tsdbGetTableByUid r.meta msg.uid = some t0) (ht : t0.tid ≠ msg.tid) :
    tsdbUpdateTagValue r msg = ⟨-1, some .invalidTableId, r⟩ := by
  unfold tsdbUpdateTagValue
  rw [h]
  show (if t0.tid ≠ msg.tid then OpResult.mk (-1) (some .invalidTableId) r else _) = _
  rw [if_pos ht]

theorem updTagVal_nonchild {r : STsdbRepo} {msg : SUpdateTableTagValMsg} {t0 : STable}
    (h : tsdbGetTableByUid r.meta msg.uid = some t0) (ht : ¬t0.tid ≠ msg.tid)
    (hnc : t0.ttype ≠ TSDB_CHILD_TABLE) :
    tsdbUpdateTagValue r msg = ⟨-1, some .invalidAction, r⟩ := by
  unfold tsdbUpdateTagValue
  rw [h]
  show (if t0.tid ≠ msg.tid then OpResult.mk (-1) (some .invalidTableId) r else _) = _
  rw [if_neg ht]
  show (if t0.ttype ≠ TSDB_CHILD_TABLE then OpResult.mk (-1) (some .invalidAction) r else _) = _
  rw [if_pos hnc]

theorem updTagVal_nofetch {r : STsdbRepo} {msg : SUpdateTableTagValMsg} {t0 : STable}
    (h : tsdbGetTableByUid r.meta msg.uid = some t0) (ht : ¬t0.tid ≠ msg.tid)
    (hnc : ¬t0.ttype ≠ TSDB_CHILD_TABLE)
    (hv : ((tsdbGetTableTagSchema r.meta t0).getD emptySchema).version < msg.tversion)
    (hf : msg.fetched = none) :
    tsdbUpdateTagValue r msg = ⟨-1, none, r⟩ := by
  unfold tsdbUpdateTagValue
  rw [h]
  show (if t0.tid ≠ msg.tid then OpResult.mk (-1) (some .invalidTableId) r else _) = _
  rw [if_neg ht]
  show (if t0.ttype ≠ TSDB_CHILD_TABLE then OpResult.mk (-1) (some .invalidAction) r else _) = _
  rw [if_neg hnc]
  show (if ((tsdbGetTableTagSchema r.meta t0).getD emptySchema).version < msg.tversion
    then _ else tsdbUpdateTagValStep2 r msg) = _
  rw [if_pos hv, hf]

theorem updTagVal_fetch_nosuper {r : STsdbRepo} {msg : SUpdateTableTagValMsg} {t0 : STable}
    {fcfg : STableCfg}
    (h : tsdbGetTableByUid r.meta msg.uid = some t0) (ht : ¬t0.tid ≠ msg.tid)
    (hnc : ¬t0.ttype ≠ TSDB_CHILD_TABLE)
    (hv : ((tsdbGetTableTagSchema r.meta t0).getD emptySchema).version < msg.tversion)
    (hf : msg.fetched = some fcfg)
    (hg : tsdbGetTableByUid r.meta fcfg.superUid = none) :
    tsdbUpdateTagValue r msg = ⟨-1, none, r⟩ := by
  unfold tsdbUpdateTagValue
  rw [h]
  show (if t0.tid ≠ msg.tid then OpResult.mk (-1) (some .invalidTableId) r else _) = _
  rw [if_neg ht]
  show (if t0.ttype ≠ TSDB_CHILD_TABLE then OpResult.mk (-1) (some .invalidAction) r else _) = _
  rw [if_neg hnc]
  show (if ((tsdbGetTableTagSchema r.meta t0).getD emptySchema).version < msg.tversion
    then _ else tsdbUpdateTagValStep2 r msg) = _
  rw [if_pos hv, hf]
  show (match tsdbGetTableByUid r.meta fcfg.superUid with
    | none => OpResult.mk (-1) none r
    | some s => tsdbUpdateTagValStep2 ((tsdbUpdateTable r s.uid fcfg).2) msg) = _
  rw [hg]

theorem updTagVal_fetch {r : STsdbRepo} {msg : SUpdateTableTagValMsg} {t0 : STable}
    {fcfg : STableCfg} {s : STable}
    (h : tsdbGetTableByUid r.meta msg.uid = some t0) (ht : ¬t0.tid ≠ msg.tid)
    (hnc : ¬t0.ttype ≠ TSDB_CHILD_TABLE)
    (hv : ((tsdbGetTableTagSchema r.meta t0).getD emptySchema).version < msg.tversion)
    (hf : msg.fetched = some fcfg)
    (hg : tsdbGetTableByUid r.meta fcfg.superUid = some s) :
    tsdbUpdateTagValue r msg = tsdbUpdateTagValStep2 ((tsdbUpdateTable r s.uid fcfg).2) msg := by
  unfold tsdbUpdateTagValue
  rw [h]
  show (if t0.tid ≠ msg.tid then OpResult.mk (-1) (some .invalidTableId) r else _) = _
  rw [if_neg ht]
  show (if t0.ttype ≠ TSDB_CHILD_TABLE then OpResult.mk (-1) (some .invalidAction) r else _) = _
  rw [if_neg hnc]
  show (if ((tsdbGetTableTagSchema r.meta t0).getD emptySchema).version < msg.tversion
    then _ else tsdbUpdateTagValStep2 r msg) = _
  rw [if_pos hv, hf]
  show (match tsdbGetTableByUid r.meta fcfg.superUid with
    | none => OpResult.mk (-1) none r
    | some s => tsdbUpdateTagValStep2 ((tsdbUpdateTable r s.uid fcfg).2) msg) = _
  rw [hg]

theorem updTagVal_go {r : STsdbRepo} {msg : SUpdateTableTagValMsg} {t0 : STable}
    (h : tsdbGetTableByUid r.meta msg.uid = some t0) (ht : ¬t0.tid ≠ msg.tid)
    (hnc : ¬t0.ttype ≠ TSDB_CHILD_TABLE)
    (hv : ¬((tsdbGetTableTagSchema r.meta t0).getD emptySchema).version < msg.tversion) :
    tsdbUpdateTagValue r msg = tsdbUpdateTagValStep2 r msg := by
  unfold tsdbUpdateTagValue
  rw [h]
  show (if t0.tid ≠ msg.tid then OpResult.mk (-1) (some .invalidTableId) r else _) = _
  rw [if_neg ht]
  show (if t0.ttype ≠ TSDB_CHILD_TABLE then OpResult.mk (-1) (some .invalidAction) r else _) = _
  rw [if_neg hnc]
  show (if ((tsdbGetTableTagSchema r.meta t0).getD emptySchema).version < msg.tversion
    then _ else tsdbUpdateTagValStep2 r msg) = _
  rw [if_neg hv]

/-- `tsdbUpdateTagValue` preserves the invariant. -/
theorem metaInv_updateTagValue {r : STsdbRepo} {msg : SUpdateTableTagValMsg}
    (hInv : MetaInv r.meta) (hwfm : wfMsg msg) :
    MetaInv (tsdbUpdateTagValue r msg).repo.meta := by
  cases hget : tsdbGetTableByUid r.meta msg.uid with
  | none =>
      rw [updTagVal_none hget]
      exact hInv
  | some t0 =>
      by_cases ht : t0.tid ≠ msg.tid
      · rw [updTagVal_badtid hget ht]
        exact hInv
      · by_cases hc : t0.ttype ≠ TSDB_CHILD_TABLE
        · rw [updTagVal_nonchild hget ht hc]
          exact hInv
        · have hch : t0.ttype = TSDB_CHILD_TABLE := not_not.mp hc
          by_cases hv : ((tsdbGetTableTagSchema r.meta t0).getD emptySchema).version <
              msg.tversion
          · cases hf : msg.fetched with
            | none =>
                rw [updTagVal_nofetch hget ht hc hv hf]
                exact hInv
            | some fcfg =>
                cases hg : tsdbGetTableByUid r.meta fcfg.superUid with
                | none =>
                    rw [updTagVal_fetch_nosuper hget ht hc hv hf hg]
                    exact hInv
                | some s =>
                    rw [updTagVal_fetch hget ht hc hv hf hg]
                    have hwfu : wfUpdateCfg fcfg := hwfm.2.2.2 fcfg hf
                    have hInv1 : MetaInv (tsdbUpdateTable r s.uid fcfg).2.meta :=
                      metaInv_updateTable hInv s.uid hwfu
                    have hget1 : tsdbGetTableByUid (tsdbUpdateTable r s.uid fcfg).2.meta
                        msg.uid = some t0 := by
                      by_cases hse : s.uid = msg.uid
                      · have hgj : tsdbGetTableByUid r.meta s.uid = some t0 := by
                          rw [hse]
                          exact hget
                        rw [updateTable_meta_child hgj hch]
                        exact hget
                      · show hashGet (tsdbUpdateTable r s.uid fcfg).2.meta.uidMap msg.uid =
                          some t0
                        rw [updateTable_get_ne hse]
                        exact hget
                    exact metaInv_step2 hInv1 hget1 hch hwfm
          · rw [updTagVal_go hget ht hc hv]
            exact metaInv_step2 hInv hget hch hwfm

theorem getD_replicate_none (n i : Nat) :
    (List.replicate n (none : Option Nat)).getD i none = none := by
  rw [List.getD_eq_getElem?_getD, List.getElem?_replicate]
  split <;> rfl

/-- A fresh meta satisfies the invariant. -/
theorem metaInv_fresh (n : Nat) : MetaInv (tsdbNewMeta n) := by
  refine ⟨List.length_replicate n none, List.nodup_nil, ?_, ?_, ?_, ?_, ?_, ?_, ?_, ?_,
    List.nodup_nil, ?_, ?_, ?_⟩
  · intro u t h
    cases h
  · intro u t h
    cases h
  · intro u t h
    cases h
  · intro u t h
    cases h
  · intro u t h
    cases h
  · intro u t h
    cases h
  · intro u t h
    cases h
  · intro i u hsl
    have hsl' : (List.replicate n (none : Option Nat)).getD i none = some u := hsl
    rw [getD_replicate_none n i] at hsl'
    cases hsl'
  · intro su hsu
    cases hsu
  · intro u t h
    cases h
  · intro u t h
    cases h

/-- Every reachable repository state satisfies the invariant. -/
theorem reachable_inv {r : STsdbRepo} (h : Reachable r) : MetaInv r.meta := by
  induction h with
  | fresh n => exact metaInv_fresh n
  | step op hr hok ih =>
      cases op with
      | create cfg => exact metaInv_createTable ih hok.1 hok.2
      | dropT uid => exact metaInv_dropTable ih uid
      | updateTbl uid cfg => exact metaInv_updateTable ih uid hok
      | updateTag msg => exact metaInv_updateTagValue ih hok

theorem removeFromMeta_actList (r : STsdbRepo) (t : STable) (b : Bool) :
    (tsdbRemoveTableFromMeta r t b).actList = r.actList := rfl

theorem insertAct_actList (r : STsdbRepo) (act : Nat) (t : STable) :
    (tsdbInsertTableAct r act t).actList = r.actList ++
      [⟨act, t.uid, if act = TSDB_UPDATE_META then taosCalcChecksumAppend (tsdbEncodeTable t)
        else []⟩] := rfl

theorem dropStep_keysNodup {r : STsdbRepo} {cu : Nat}
    (h : (r.meta.uidMap.map Prod.fst).Nodup) :
    ((dropStep r cu).meta.uidMap.map Prod.fst).Nodup := by
  cases hgc : tsdbGetTableByUid r.meta cu with
  | none =>
      rw [dropStep_none hgc]
      exact h
  | some c =>
      rw [dropStep_some hgc, removeFromMeta_meta_uidMap]
      show ((hashRemove (remCore (tsdbInsertTableAct r TSDB_DROP_META c).meta c false).uidMap
        c.uid).map Prod.fst).Nodup
      rw [meta_insertAct]
      by_cases hns : c.ttype = TSDB_SUPER_TABLE
      · rw [remCore_super false hns]
        exact keys_remove_nodup h c.uid
      · rw [remCore_nonsuper false hns,
          remNonSuper_noidx (fun hh : c.ttype = TSDB_CHILD_TABLE ∧ (false : Bool) = true =>
            by cases hh.2)]
        exact keys_remove_nodup h c.uid

theorem dropStep_get_none {r : STsdbRepo} {cu x : Nat}
    (h : (r.meta.uidMap.map Prod.fst).Nodup)
    (hx : hashGet r.meta.uidMap x = none) :
    hashGet (dropStep r cu).meta.uidMap x = none := by
  cases hgc : tsdbGetTableByUid r.meta cu with
  | none =>
      rw [dropStep_none hgc]
      exact hx
  | some c =>
      rw [dropStep_some hgc, removeFromMeta_meta_uidMap]
      show hashGet (hashRemove (remCore (tsdbInsertTableAct r TSDB_DROP_META c).meta c
        false).uidMap c.uid) x = none
      rw [meta_insertAct]
      by_cases hns : c.ttype = TSDB_SUPER_TABLE
      · rw [remCore_super false hns]
        show hashGet (hashRemove r.meta.uidMap c.uid) x = none
        rw [hashGet_remove h]
        split
        · rfl
        · exact hx
      · rw [remCore_nonsuper false hns,
          remNonSuper_noidx (fun hh : c.ttype = TSDB_CHILD_TABLE ∧ (false : Bool) = true =>
            by cases hh.2)]
        show hashGet (hashRemove r.meta.uidMap c.uid) x = none
        rw [hashGet_remove h]
        split
        · rfl
        · exact hx

theorem cascade_get_none : ∀ (l : List Nat) (r : STsdbRepo) (x : Nat),
    (r.meta.uidMap.map Prod.fst).Nodup → hashGet r.meta.uidMap x = none →
    hashGet ((l.foldl dropStep r)).meta.uidMap x = none := by
  intro l
  induction l with
  | nil =>
      intro r x _ hx
      exact hx
  | cons cu rest ih =>
      intro r x hnd hx
      rw [List.foldl_cons]
      exact ih _ x (dropStep_keysNodup hnd) (dropStep_get_none hnd hx)

/-- The cascade appends exactly one `TSDB_DROP_META` record per pending
child, in index order, and removes every one of them from the uid
map. -/
theorem cascade_run : ∀ (l : List Nat) (r : STsdbRepo) (su : Nat),
    MetaInvD r.meta su l → l.Nodup →
    (∀ cu ∈ l, ∃ c, hashGet r.meta.uidMap cu = some c) →
    (l.foldl dropStep r).actList =
        r.actList ++ l.map (fun cu => (⟨TSDB_DROP_META, cu, []⟩ : ActRecord)) ∧
      (∀ cu ∈ l, hashGet (l.foldl dropStep r).meta.uidMap cu = none) ∧
      (l.foldl dropStep r).meta.superList = r.meta.superList := by
  intro l
  induction l with
  | nil =>
      intro r su hD hnd hlive
      exact ⟨by simp, fun cu hcu => absurd hcu (List.not_mem_nil cu), rfl⟩
  | cons cu rest ih =>
      intro r su hD hnd hlive
      obtain ⟨c, hc⟩ := hlive cu (List.mem_cons_self cu rest)
      have hc2 : tsdbGetTableByUid r.meta cu = some c := hc
      have hcu_uid : c.uid = cu := hD.uidEq cu c hc
      rcases hD.remOk cu (List.mem_cons_self cu rest) with hnone | ⟨c', hc', hcty, hcsu⟩
      · rw [hc] at hnone
        cases hnone
      · rw [hc] at hc'
        cases Option.some.inj hc'.symm
        have hnsch : ¬c.ttype = TSDB_SUPER_TABLE := by
          rw [hcty]
          decide
        have hno : ¬(c.ttype = TSDB_CHILD_TABLE ∧ (false : Bool) = true) :=
          fun hh => by cases hh.2
        have hstep_act : (dropStep r cu).actList =
            r.actList ++ [(⟨TSDB_DROP_META, cu, []⟩ : ActRecord)] := by
          rw [dropStep_some hc2, removeFromMeta_actList]
          show r.actList ++ [(⟨TSDB_DROP_META, c.uid, []⟩ : ActRecord)] = _
          rw [hcu_uid]
        have hstep_get : ∀ x, hashGet (dropStep r cu).meta.uidMap x =
            if c.uid = x then none else hashGet r.meta.uidMap x := by
          intro x
          rw [dropStep_some hc2, removeFromMeta_meta_uidMap]
          show hashGet (hashRemove (remCore (tsdbInsertTableAct r TSDB_DROP_META c).meta c
            false).uidMap c.uid) x = _
          rw [meta_insertAct, remCore_nonsuper false hnsch, remNonSuper_noidx hno]
          show hashGet (hashRemove r.meta.uidMap c.uid) x = _
          rw [hashGet_remove hD.keysNodup]
        have hstep_none : hashGet (dropStep r cu).meta.uidMap cu = none := by
          rw [hstep_get, if_pos hcu_uid]
        have hlive' : ∀ cu' ∈ rest, ∃ c'', hashGet (dropStep r cu).meta.uidMap cu' =
            some c'' := by
          intro cu' hcu'
          obtain ⟨c'', hc''⟩ := hlive cu' (List.mem_cons_of_mem _ hcu')
          have hne : ¬c.uid = cu' := by
            rw [hcu_uid]
            intro hh
            exact (List.nodup_cons.1 hnd).1 (hh ▸ hcu')
          refine ⟨c'', ?_⟩
          rw [hstep_get, if_neg hne]
          exact hc''
        obtain ⟨ihAct, ihNone, ihSup⟩ := ih (dropStep r cu) su (dropStep_invD hD)
          (List.nodup_cons.1 hnd).2 hlive'
        have hstep_sup : (dropStep r cu).meta.superList = r.meta.superList := by
          rw [dropStep_some hc2, removeFromMeta_meta_superList]
          show (remCore (tsdbInsertTableAct r TSDB_DROP_META c).meta c false).superList = _
          rw [meta_insertAct, remCore_nonsuper false hnsch, remNonSuper_noidx hno]
          rfl
        refine ⟨?_, ?_, ?_⟩
        · rw [List.foldl_cons, ihAct, hstep_act, List.map_cons, List.append_assoc,
            List.singleton_append]
        · intro cu' hcu'
          rcases List.mem_cons.1 hcu' with hh | hh
          · rw [List.foldl_cons, hh]
            exact cascade_get_none rest (dropStep r cu) cu
              (dropStep_keysNodup hD.keysNodup) hstep_none
          · rw [List.foldl_cons]
            exact ihNone cu' hh
        · rw [List.foldl_cons, ihSup, hstep_sup]

/-! ## Claim-support lemmas -/

theorem decodedView_ttype (t : STable) : (decodedView t).ttype = t.ttype := by
  unfold decodedView
  split
  · rfl
  · split
    · rfl
    · split <;> rfl

theorem decodedView_uid (t : STable) : (decodedView t).uid = t.uid := by
  unfold decodedView
  split
  · rfl
  · split
    · rfl
    · split <;> rfl

theorem decodedView_tid (t : STable) : (decodedView t).tid = t.tid := by
  unfold decodedView
  split
  · rfl
  · split
    · rfl
    · split <;> rfl

theorem decodedView_name (t : STable) : (decodedView t).name = t.name := by
  unfold decodedView
  split
  · rfl
  · split
    · rfl
    · split <;> rfl

theorem decodedView_pSuper (t : STable) : (decodedView t).pSuper = none := by
  unfold decodedView
  split
  · rfl
  · split
    · rfl
    · split <;> rfl

theorem decodedView_pIndex (t : STable) : (decodedView t).pIndex = [] := by
  unfold decodedView
  split
  · rfl
  · split
    · rfl
    · split <;> rfl

theorem decodedView_child {t : STable} (h : t.ttype = TSDB_CHILD_TABLE) :
    decodedView t =
      { ttype := t.ttype, name := t.name, uid := t.uid, tid := t.tid, suid := t.suid,
        schema := [], tagSchema := none, tagVal := t.tagVal, sql := none, pSuper := none,
        pIndex := [] } := by
  unfold decodedView
  rw [if_pos h]

theorem decodedView_super {t : STable} (h : t.ttype = TSDB_SUPER_TABLE) :
    decodedView t =
      { ttype := t.ttype, name := t.name, uid := t.uid, tid := t.tid, suid := 0,
        schema := t.schema, tagSchema := some (t.tagSchema.getD emptySchema), tagVal := [],
        sql := none, pSuper := none, pIndex := [] } := by
  have hnc : ¬t.ttype = TSDB_CHILD_TABLE := by
    rw [h]
    decide
  unfold decodedView
  rw [if_neg hnc, if_pos h]

theorem decodedView_stream {t : STable} (h : t.ttype = TSDB_STREAM_TABLE) :
    decodedView t =
      { ttype := t.ttype, name := t.name, uid := t.uid, tid := t.tid, suid := 0,
        schema := t.schema, tagSchema := none, tagVal := [], sql := some (t.sql.getD []),
        pSuper := none, pIndex := [] } := by
  have hnc : ¬t.ttype = TSDB_CHILD_TABLE := by
    rw [h]
    decide
  have hns : ¬t.ttype = TSDB_SUPER_TABLE := by
    rw [h]
    decide
  unfold decodedView
  rw [if_neg hnc, if_neg hns, if_pos h]

theorem decodedView_normal {t : STable} (hnc : ¬t.ttype = TSDB_CHILD_TABLE)
    (hns : ¬t.ttype = TSDB_SUPER_TABLE) (hnst : ¬t.ttype = TSDB_STREAM_TABLE) :
    decodedView t =
      { ttype := t.ttype, name := t.name, uid := t.uid, tid := t.tid, suid := 0,
        schema := t.schema, tagSchema := none, tagVal := [], sql := none,
        pSuper := none, pIndex := [] } := by
  unfold decodedView
  rw [if_neg hnc, if_neg hns, if_neg hnst]

/-- Encode-then-decode agrees with the original on every field the
record carries for its kind (a live super has a tag schema, a live
stream has its SQL text). -/
theorem tableEquiv_decodedView (t : STable)
    (hts : t.ttype = TSDB_SUPER_TABLE → ∃ ts, t.tagSchema = some ts)
    (hsql : t.ttype = TSDB_STREAM_TABLE → ∃ q, t.sql = some q) :
    tableEquiv t (decodedView t) := by
  by_cases hch : t.ttype = TSDB_CHILD_TABLE
  · rw [decodedView_child hch]
    exact ⟨rfl, rfl, rfl, rfl, fun _ => ⟨rfl, rfl⟩, fun hh => absurd hch hh,
      fun hh => absurd hh (by rw [hch]; decide), fun hh => absurd hh (by rw [hch]; decide)⟩
  · by_cases hsu : t.ttype = TSDB_SUPER_TABLE
    · rw [decodedView_super hsu]
      refine ⟨rfl, rfl, rfl, rfl, fun hh => absurd hh hch,
        fun _ => rfl, fun _ => ?_, fun hh => absurd hh (by rw [hsu]; decide)⟩
      obtain ⟨ts0, hts0⟩ := hts hsu
      show t.tagSchema = some (t.tagSchema.getD emptySchema)
      rw [hts0]
      rfl
    · by_cases hst : t.ttype = TSDB_STREAM_TABLE
      · rw [decodedView_stream hst]
        refine ⟨rfl, rfl, rfl, rfl, fun hh => absurd hh hch, fun _ => rfl,
          fun hh => absurd hh hsu, fun _ => ?_⟩
        obtain ⟨q0, hq0⟩ := hsql hst
        show t.sql = some (t.sql.getD [])
        rw [hq0]
        rfl
      · rw [decodedView_normal hch hsu hst]
        exact ⟨rfl, rfl, rfl, rfl, fun hh => absurd hh hch, fun _ => rfl,
          fun hh => absurd hh hsu, fun hh => absurd hh hst⟩

theorem getTableSchema_child_unlinked {m : STsdbMeta} {t : STable}
    (hch : t.ttype = TSDB_CHILD_TABLE) (hps : t.pSuper = none) :
    tsdbGetTableSchema m t = none := by
  rw [getTableSchema_child hch, hps]

theorem getTableSchemaByVersion_child_unlinked {m : STsdbMeta} {t : STable} {v : Nat}
    (hch : t.ttype = TSDB_CHILD_TABLE) (hps : t.pSuper = none) :
    tsdbGetTableSchemaByVersion m t v = none := by
  unfold tsdbGetTableSchemaByVersion
  rw [if_pos hch, hps]

theorem getTableTagSchema_child_unlinked {m : STsdbMeta} {t : STable}
    (hch : t.ttype = TSDB_CHILD_TABLE) (hps : t.pSuper = none) :
    tsdbGetTableTagSchema m t = none := by
  rw [getTableTagSchema_child hch, hps]

theorem appendSchema_full {t1 : STable} {cfg : STableCfg}
    (h : ¬t1.schema.length < TSDB_MAX_TABLE_SCHEMAS) :
    (appendSchema t1 cfg).schema = t1.schema.drop 1 ++ [cfg.schema] := by
  unfold appendSchema
  rw [if_neg h]

theorem restore_corrupt {r : STsdbRepo} {cont : List Nat}
    (h : ¬taosCheckChecksumWhole cont = true) :
    tsdbRestoreTable r cont = ⟨-1, some .fileCorrupted, r⟩ := by
  unfold tsdbRestoreTable
  rw [if_neg h]

theorem updMeta_maxes_pos {m : STsdbMeta} {uid : Nat} {t1 t2 : STable} {cfg : STableCfg}
    (hsc : schChangeP m t1 cfg) :
    (updMeta m uid t1 t2 cfg).maxCols = Nat.max m.maxCols (schemaNCols cfg.schema) ∧
      (updMeta m uid t1 t2 cfg).maxRowBytes = Nat.max m.maxRowBytes (schemaTLen cfg.schema) := by
  unfold updMeta
  rw [if_pos hsc]
  exact ⟨rfl, rfl⟩

theorem rmIdx_maxCols (m : STsdbMeta) (t : STable) :
    (tsdbRemoveTableFromIndex m t).maxCols = m.maxCols := by
  unfold tsdbRemoveTableFromIndex
  split
  · rfl
  · split <;> rfl

theorem rmIdx_maxRowBytes (m : STsdbMeta) (t : STable) :
    (tsdbRemoveTableFromIndex m t).maxRowBytes = m.maxRowBytes := by
  unfold tsdbRemoveTableFromIndex
  split
  · rfl
  · split <;> rfl

theorem addIntoIndex_maxCols (m : STsdbMeta) (t : STable) :
    (tsdbAddTableIntoIndex m t).maxCols = m.maxCols := by
  unfold tsdbAddTableIntoIndex tsdbAddTableIntoIndexCore
  split <;> rfl

theorem addIntoIndex_maxRowBytes (m : STsdbMeta) (t : STable) :
    (tsdbAddTableIntoIndex m t).maxRowBytes = m.maxRowBytes := by
  unfold tsdbAddTableIntoIndex tsdbAddTableIntoIndexCore
  split <;> rfl

theorem tagStepIdx_maxCols (m : STsdbMeta) (t : STable) (msg : SUpdateTableTagValMsg) :
    (tagStepIdx m t msg).maxCols = m.maxCols := by
  unfold tagStepIdx
  rw [addIntoIndex_maxCols]
  show (tsdbRemoveTableFromIndex m t).maxCols = m.maxCols
  exact rmIdx_maxCols m t

theorem tagStepIdx_maxRowBytes (m : STsdbMeta) (t : STable) (msg : SUpdateTableTagValMsg) :
    (tagStepIdx m t msg).maxRowBytes = m.maxRowBytes := by
  unfold tagStepIdx
  rw [addIntoIndex_maxRowBytes]
  show (tsdbRemoveTableFromIndex m t).maxRowBytes = m.maxRowBytes
  exact rmIdx_maxRowBytes m t

theorem tagStepNoIdx_maxCols (m : STsdbMeta) (t : STable) (msg : SUpdateTableTagValMsg) :
    (tagStepNoIdx m t msg).maxCols = m.maxCols := rfl

theorem tagStepNoIdx_maxRowBytes (m : STsdbMeta) (t : STable) (msg : SUpdateTableTagValMsg) :
    (tagStepNoIdx m t msg).maxRowBytes = m.maxRowBytes := rfl

theorem tagStepIdx_lookups {m : STsdbMeta} {t : STable} {msg : SUpdateTableTagValMsg}
    {s : STable} (hps : t.pSuper = some t.suid) (hgs : hashGet m.uidMap t.suid = some s)
    (hne : ¬t.uid = t.suid) :
    hashGet (tagStepIdx m t msg).uidMap t.uid = some (reinsChild (tagValNew t msg)) ∧
      hashGet (tagStepIdx m t msg).uidMap t.suid =
        some (rekeySuper (idxKeyOf (tagStepMid m t msg s))
          ((getTagIndexKey (tagStepMid m t msg s) (reinsChild (tagValNew t msg))).getD [])
          t s) := by
  have hgs' : tsdbGetTableByUid m t.suid = some s := hgs
  unfold tagStepIdx
  rw [rmIdx_eq hps hgs']
  have hs2 : tsdbGetTableByUid
      (tagPut ({ m with uidMap := hashPut m.uidMap t.suid (filtSuper s t.uid) })
        (tagValNew t msg))
      (tagValNew t msg).suid = some (filtSuper s t.uid) := by
    show hashGet
      (hashPut (hashPut m.uidMap t.suid (filtSuper s t.uid))
        (tagValNew t msg).uid (tagValNew t msg)) (tagValNew t msg).suid = _
    rw [hashGet_put, if_neg (show ¬(tagValNew t msg).uid = (tagValNew t msg).suid from hne),
      hashGet_put, if_pos (show t.suid = (tagValNew t msg).suid from rfl)]
  rw [addIntoIndex_eq hs2]
  constructor
  · show hashGet
      (hashPut
        (hashPut (hashPut (hashPut m.uidMap t.suid (filtSuper s t.uid)) (tagValNew t msg).uid
          (tagValNew t msg)) (tagValNew t msg).suid _)
        (tagValNew t msg).uid (reinsChild (tagValNew t msg))) t.uid = _
    rw [hashGet_put, if_pos (show (tagValNew t msg).uid = t.uid from rfl)]
  · show hashGet
      (hashPut
        (hashPut (hashPut (hashPut m.uidMap t.suid (filtSuper s t.uid)) (tagValNew t msg).uid
          (tagValNew t msg)) (tagValNew t msg).suid _)
        (tagValNew t msg).uid (reinsChild (tagValNew t msg))) t.suid = _
    rw [hashGet_put, if_neg (show ¬(tagValNew t msg).uid = t.suid from hne),
      hashGet_put, if_pos (show (tagValNew t msg).suid = t.suid from rfl)]
    rfl

theorem tagStepNoIdx_lookups {m : STsdbMeta} (t : STable) (msg : SUpdateTableTagValMsg) :
    hashGet (tagStepNoIdx m t msg).uidMap (tagValNew t msg).uid = some (tagValNew t msg) ∧
      ∀ u, ¬t.uid = u → hashGet (tagStepNoIdx m t msg).uidMap u = hashGet m.uidMap u := by
  constructor
  · show hashGet (hashPut m.uidMap (tagValNew t msg).uid (tagValNew t msg))
      (tagValNew t msg).uid = _
    rw [hashGet_put, if_pos rfl]
  · intro u hne
    show hashGet (hashPut m.uidMap (tagValNew t msg).uid (tagValNew t msg)) u = _
    rw [hashGet_put, if_neg (show ¬(tagValNew t msg).uid = u from hne)]

/-- Full characterization of dropping a live super table: one
`TSDB_DROP_META` record per index entry (in index order), no record
for the super itself, and the super and all its children gone from the
uid map, the super list and the tid array. -/
theorem dropTable_super_run {r : STsdbRepo} (hInv : MetaInv r.meta) {uid : Nat} {t : STable}
    (hget : tsdbGetTableByUid r.meta uid = some t) (hsty : t.ttype = TSDB_SUPER_TABLE) :
    (tsdbDropTable r uid).repo.actList =
        r.actList ++ t.pIndex.map (fun cu => (⟨TSDB_DROP_META, cu, []⟩ : ActRecord)) ∧
      hashGet (tsdbDropTable r uid).repo.meta.uidMap uid = none ∧
      (∀ cu ∈ t.pIndex, hashGet (tsdbDropTable r uid).repo.meta.uidMap cu = none) ∧
      uid ∉ (tsdbDropTable r uid).repo.meta.superList ∧
      (∀ cu ∈ t.pIndex, cu ∉ (tsdbDropTable r uid).repo.meta.superList) ∧
      (∀ i, (tsdbDropTable r uid).repo.meta.tables.getD i none ≠ some uid) ∧
      (∀ cu ∈ t.pIndex, ∀ i, (tsdbDropTable r uid).repo.meta.tables.getD i none ≠ some cu) := by
  have hFinalInv : MetaInv (tsdbDropTable r uid).repo.meta := metaInv_dropTable hInv uid
  have hget' : hashGet r.meta.uidMap uid = some t := hget
  have huid : t.uid = uid := hInv.uidEq uid t hget'
  have hgs0 : hashGet r.meta.uidMap t.uid = some t := by
    rw [huid]
    exact hget'
  have hD0 : MetaInvD r.meta t.uid t.pIndex := metaInvD_of_metaInv hInv hgs0 hsty
  obtain ⟨hnd0, hall0⟩ := hInv.indexOk uid t hget' hsty
  have hlive0 : ∀ cu ∈ t.pIndex, ∃ c, hashGet r.meta.uidMap cu = some c := by
    intro cu hcu
    obtain ⟨c, hc, _, _⟩ := hall0 cu hcu
    exact ⟨c, hc⟩
  obtain ⟨hAct, hGone, hSupEq⟩ := cascade_run t.pIndex r t.uid hD0 hnd0 hlive0
  have hD1 : MetaInvD (t.pIndex.foldl dropStep r).meta t.uid [] :=
    cascade_invD t.pIndex r t.uid hD0
  rw [dropTable_super_eq hget hsty]
  have hAct2 : (tsdbRemoveTableFromMeta (t.pIndex.foldl dropStep r) t true).actList =
      r.actList ++ t.pIndex.map (fun cu => (⟨TSDB_DROP_META, cu, []⟩ : ActRecord)) := by
    rw [removeFromMeta_actList]
    exact hAct
  have hmapEq : ∀ x, hashGet
      (tsdbRemoveTableFromMeta (t.pIndex.foldl dropStep r) t true).meta.uidMap x =
      if t.uid = x then none
      else hashGet (t.pIndex.foldl dropStep r).meta.uidMap x := by
    intro x
    rw [removeFromMeta_meta_uidMap]
    show hashGet (hashRemove
      (remCore (t.pIndex.foldl dropStep r).meta t true).uidMap t.uid) x = _
    rw [remCore_super true hsty]
    show hashGet (hashRemove (t.pIndex.foldl dropStep r).meta.uidMap t.uid) x = _
    rw [hashGet_remove hD1.keysNodup]
  have hNoneUid : hashGet
      (tsdbRemoveTableFromMeta (t.pIndex.foldl dropStep r) t true).meta.uidMap uid = none := by
    rw [hmapEq, if_pos huid]
  have hNoneChildren : ∀ cu ∈ t.pIndex, hashGet
      (tsdbRemoveTableFromMeta (t.pIndex.foldl dropStep r) t true).meta.uidMap cu = none := by
    intro cu hcu
    rw [hmapEq]
    by_cases hh : t.uid = cu
    · rw [if_pos hh]
    · rw [if_neg hh]
      exact hGone cu hcu
  have hSupFinal : (tsdbRemoveTableFromMeta (t.pIndex.foldl dropStep r) t true).meta.superList =
      (r.meta.superList.reverse.erase t.uid).reverse := by
    rw [removeFromMeta_meta_superList]
    show (remCore (t.pIndex.foldl dropStep r).meta t true).superList = _
    rw [remCore_super true hsty, hSupEq]
  have hTabFinal : (tsdbRemoveTableFromMeta (t.pIndex.foldl dropStep r) t true).meta.tables =
      (t.pIndex.foldl dropStep r).meta.tables := by
    rw [removeFromMeta_meta_tables]
    show (remCore (t.pIndex.foldl dropStep r).meta t true).tables = _
    rw [remCore_super true hsty]
  have hndrev : r.meta.superList.reverse.Nodup := List.nodup_reverse.mpr hInv.superNodup
  have hmemnew : ∀ y, y ∈ (r.meta.superList.reverse.erase t.uid).reverse ↔
      y ≠ t.uid ∧ y ∈ r.meta.superList := by
    intro y
    rw [List.mem_reverse, List.Nodup.mem_erase_iff hndrev, List.mem_reverse]
  refine ⟨hAct2, hNoneUid, hNoneChildren, ?_, ?_, ?_, ?_⟩
  · rw [hSupFinal]
    intro hmem
    exact ((hmemnew uid).1 hmem).1 huid.symm
  · intro cu hcu
    rw [hSupFinal]
    intro hmem
    obtain ⟨s0, hs0, hsty0⟩ := hInv.superMem cu ((hmemnew cu).1 hmem).2
    obtain ⟨c0, hc0, hcty0, _⟩ := hall0 cu hcu
    rw [hc0] at hs0
    cases Option.some.inj hs0.symm
    rw [hsty0] at hcty0
    exact absurd hcty0 (by decide)
  · intro i hslot
    rw [hTabFinal] at hslot
    obtain ⟨t0, ht0, _, hnst0⟩ := hD1.slotOk i uid hslot
    rw [← huid] at ht0
    exact hnst0 (hD1.suOk t0 ht0)
  · intro cu hcu i hslot
    rw [hTabFinal] at hslot
    obtain ⟨t0, ht0, _, _⟩ := hD1.slotOk i cu hslot
    rw [hGone cu hcu] at ht0
    cases ht0

theorem maxesB_fresh (n : Nat) : MaxesB (tsdbNewMeta n) := by
  intro u t h
  cases h

theorem updateMaxes_le (m : STsdbMeta) (t : STable) :
    m.maxCols ≤ (updateMaxes m t).maxCols ∧ m.maxRowBytes ≤ (updateMaxes m t).maxRowBytes := by
  unfold updateMaxes
  by_cases h1 : t.ttype ≠ TSDB_CHILD_TABLE
  · rw [if_pos h1]
    cases hs : tsdbGetTableSchema m t with
    | none => exact ⟨le_refl _, le_refl _⟩
    | some sch =>
        constructor
        · show m.maxCols ≤ (if schemaNCols sch > m.maxCols then schemaNCols sch else m.maxCols)
          split
          · omega
          · exact le_refl _
        · show m.maxRowBytes ≤
            (if schemaTLen sch > m.maxRowBytes then schemaTLen sch else m.maxRowBytes)
          split
          · omega
          · exact le_refl _
  · rw [if_neg h1]
    exact ⟨le_refl _, le_refl _⟩

theorem updateMaxes_bound {m : STsdbMeta} {t : STable} {sch : STSchema}
    (h1 : ¬t.ttype = TSDB_CHILD_TABLE) (hs : tsdbGetTableSchema m t = some sch) :
    schemaNCols sch ≤ (updateMaxes m t).maxCols ∧
      schemaTLen sch ≤ (updateMaxes m t).maxRowBytes := by
  unfold updateMaxes
  rw [if_pos h1, hs]
  constructor
  · show schemaNCols sch ≤ (if schemaNCols sch > m.maxCols then schemaNCols sch else m.maxCols)
    split
    · exact le_refl _
    · omega
  · show schemaTLen sch ≤
      (if schemaTLen sch > m.maxRowBytes then schemaTLen sch else m.maxRowBytes)
    split
    · exact le_refl _
    · omega

theorem appendSchema_getLast (t1 : STable) (cfg : STableCfg) :
    (appendSchema t1 cfg).schema.getLast? = some cfg.schema := by
  unfold appendSchema
  split
  · show (t1.schema ++ [cfg.schema]).getLast? = _
    exact List.getLast?_concat _
  · show (t1.schema.drop 1 ++ [cfg.schema]).getLast? = _
    exact List.getLast?_concat _

theorem getD_some_mem : ∀ {l : List (Option Nat)} {i u : Nat},
    l.getD i none = some u → some u ∈ l := by
  intro l
  induction l with
  | nil =>
      intro i u h
      rw [List.getD_nil] at h
      cases h
  | cons a l ih =>
      intro i u h
      cases i with
      | zero =>
          rw [List.getD_cons_zero] at h
          rw [← h]
          exact List.mem_cons_self a l
      | succ n =>
          rw [List.getD_cons_succ] at h
          exact List.mem_cons_of_mem a (ih h)

theorem rescanMaxes_eq (m : STsdbMeta) :
    rescanMaxes m =
      { m with maxCols := (m.tables.foldl (rescanStep m) (0, 0)).1,
               maxRowBytes := (m.tables.foldl (rescanStep m) (0, 0)).2 } := rfl

theorem rescanStep_mono (m : STsdbMeta) : ∀ (l : List (Option Nat)) (acc : Nat × Nat),
    acc.1 ≤ (l.foldl (rescanStep m) acc).1 ∧ acc.2 ≤ (l.foldl (rescanStep m) acc).2 := by
  intro l
  induction l with
  | nil => intro acc; exact ⟨le_refl _, le_refl _⟩
  | cons s rest ih =>
      intro acc
      rw [List.foldl_cons]
      have hstep : acc.1 ≤ (rescanStep m acc s).1 ∧ acc.2 ≤ (rescanStep m acc s).2 := by
        unfold rescanStep
        split
        · exact ⟨le_refl _, le_refl _⟩
        · split
          · exact ⟨le_refl _, le_refl _⟩
          · split
            · exact ⟨le_refl _, le_refl _⟩
            · exact ⟨Nat.le_max_left _ _, Nat.le_max_left _ _⟩
      obtain ⟨h1, h2⟩ := ih (rescanStep m acc s)
      exact ⟨le_trans hstep.1 h1, le_trans hstep.2 h2⟩

theorem rescanStep_elem (m : STsdbMeta) {u : Nat} {t : STable} {sch : STSchema}
    (hgu : hashGet m.uidMap u = some t) (hsch : tsdbGetTableSchema m t = some sch) :
    ∀ (l : List (Option Nat)) (acc : Nat × Nat), some u ∈ l →
      schemaNCols sch ≤ (l.foldl (rescanStep m) acc).1 ∧
        schemaTLen sch ≤ (l.foldl (rescanStep m) acc).2 := by
  intro l
  induction l with
  | nil =>
      intro acc h
      cases h
  | cons s rest ih =>
      intro acc hmem
      rw [List.foldl_cons]
      rcases List.mem_cons.1 hmem with hh | hh
      · have hgu' : tsdbGetTableByUid m u = some t := hgu
        have hstep : rescanStep m acc s =
            (Nat.max acc.1 (schemaNCols sch), Nat.max acc.2 (schemaTLen sch)) := by
          rw [← hh]
          simp only [rescanStep, hgu', hsch]
        rw [hstep]
        obtain ⟨h1, h2⟩ := rescanStep_mono m rest (Nat.max acc.1 (schemaNCols sch),
          Nat.max acc.2 (schemaTLen sch))
        exact ⟨le_trans (Nat.le_max_right _ _) h1, le_trans (Nat.le_max_right _ _) h2⟩
      · exact ih (rescanStep m acc s) hh

theorem rescan_bound {m : STsdbMeta} {i u : Nat} {t : STable} {sch : STSchema}
    (hslot : m.tables.getD i none = some u) (hgu : hashGet m.uidMap u = some t)
    (hsch : tsdbGetTableSchema m t = some sch) :
    schemaNCols sch ≤ (rescanMaxes m).maxCols ∧
      schemaTLen sch ≤ (rescanMaxes m).maxRowBytes := by
  rw [rescanMaxes_eq]
  exact rescanStep_elem m hgu hsch m.tables (0, 0) (getD_some_mem hslot)

theorem remErase_maxes (m : STsdbMeta) (t : STable) (b : Bool) :
    (remErase m t b).maxCols = m.maxCols ∧ (remErase m t b).maxRowBytes = m.maxRowBytes := by
  have h1 : (remErase m t b).maxCols = (remCore m t b).maxCols := rfl
  have h2 : (remErase m t b).maxRowBytes = (remCore m t b).maxRowBytes := rfl
  rw [h1, h2]
  unfold remCore
  split
  · exact ⟨rfl, rfl⟩
  · unfold remNonSuper
    split
    · constructor
      · show (tsdbRemoveTableFromIndex (remSlotTables m t) t).maxCols = _
        rw [rmIdx_maxCols]
        rfl
      · show (tsdbRemoveTableFromIndex (remSlotTables m t) t).maxRowBytes = _
        rw [rmIdx_maxRowBytes]
        rfl
    · exact ⟨rfl, rfl⟩

theorem removeFromMeta_cases (r : STsdbRepo) (t : STable) (b : Bool) :
    (tsdbRemoveTableFromMeta r t b).meta = remErase r.meta t b ∨
      (tsdbRemoveTableFromMeta r t b).meta = rescanMaxes (remErase r.meta t b) := by
  simp only [tsdbRemoveTableFromMeta]
  split
  · exact Or.inr rfl
  · exact Or.inl rfl

theorem rmIdx_none_psuper {m : STsdbMeta} {t : STable} (h : t.pSuper = none) :
    tsdbRemoveTableFromIndex m t = m := by
  unfold tsdbRemoveTableFromIndex
  rw [h]

theorem rmIdx_none_super {m : STsdbMeta} {t : STable} {su : Nat} (hps : t.pSuper = some su)
    (h : tsdbGetTableByUid m su = none) : tsdbRemoveTableFromIndex m t = m := by
  unfold tsdbRemoveTableFromIndex
  rw [hps]
  show (match tsdbGetTableByUid m su with
    | none => m
    | some s =>
        { m with uidMap :=
            hashPut m.uidMap su ({ s with pIndex := s.pIndex.filter (fun u => u ≠ t.uid) }) }) = _
  rw [h]

theorem rmIdx_tables (m : STsdbMeta) (t : STable) :
    (tsdbRemoveTableFromIndex m t).tables = m.tables := by
  cases hps : t.pSuper with
  | none => rw [rmIdx_none_psuper hps]
  | some su =>
      cases hgs : tsdbGetTableByUid m su with
      | none => rw [rmIdx_none_super hps hgs]
      | some s => rw [rmIdx_eq hps hgs]

theorem rmIdx_keys_nodup {m : STsdbMeta} (hnd : (m.uidMap.map Prod.fst).Nodup) (t : STable) :
    ((tsdbRemoveTableFromIndex m t).uidMap.map Prod.fst).Nodup := by
  cases hps : t.pSuper with
  | none => rw [rmIdx_none_psuper hps]; exact hnd
  | some su =>
      cases hgs : tsdbGetTableByUid m su with
      | none => rw [rmIdx_none_super hps hgs]; exact hnd
      | some s =>
          rw [rmIdx_eq hps hgs]
          exact keys_put_nodup hnd _ _

theorem rmIdx_get_cases (m : STsdbMeta) (t : STable) (u : Nat) :
    hashGet (tsdbRemoveTableFromIndex m t).uidMap u = hashGet m.uidMap u ∨
      ∃ s, hashGet m.uidMap u = some s ∧
        hashGet (tsdbRemoveTableFromIndex m t).uidMap u = some (filtSuper s t.uid) := by
  cases hps : t.pSuper with
  | none =>
      rw [rmIdx_none_psuper hps]
      exact Or.inl rfl
  | some su =>
      cases hgs : tsdbGetTableByUid m su with
      | none =>
          rw [rmIdx_none_super hps hgs]
          exact Or.inl rfl
      | some s =>
          rw [rmIdx_eq hps hgs]
          by_cases hu : su = u
          · refine Or.inr ⟨s, ?_, ?_⟩
            · rw [← hu]
              exact hgs
            · show hashGet (hashPut m.uidMap su (filtSuper s t.uid)) u = _
              rw [hashGet_put, if_pos hu]
          · refine Or.inl ?_
            show hashGet (hashPut m.uidMap su (filtSuper s t.uid)) u = _
            rw [hashGet_put, if_neg hu]

theorem remCore_get_cases (m : STsdbMeta) (t : STable) (b : Bool) (u : Nat) :
    hashGet (remCore m t b).uidMap u = hashGet m.uidMap u ∨
      ∃ s, hashGet m.uidMap u = some s ∧
        hashGet (remCore m t b).uidMap u = some (filtSuper s t.uid) := by
  unfold remCore
  split
  · exact Or.inl rfl
  · unfold remNonSuper
    split
    · exact rmIdx_get_cases (remSlotTables m t) t u
    · exact Or.inl rfl

theorem remCore_keys_nodup {m : STsdbMeta} (hnd : (m.uidMap.map Prod.fst).Nodup)
    (t : STable) (b : Bool) : ((remCore m t b).uidMap.map Prod.fst).Nodup := by
  by_cases hts : t.ttype = TSDB_SUPER_TABLE
  · rw [remCore_super b hts]
    exact hnd
  · rw [remCore_nonsuper b hts]
    by_cases hcb : t.ttype = TSDB_CHILD_TABLE ∧ b = true
    · obtain ⟨hch, hb⟩ := hcb
      cases hb
      rw [remNonSuper_idx hch]
      show ((tsdbRemoveTableFromIndex (remSlotTables m t) t).uidMap.map Prod.fst).Nodup
      exact rmIdx_keys_nodup
        (show (((remSlotTables m t).uidMap).map Prod.fst).Nodup from hnd) t
    · rw [remNonSuper_noidx hcb]
      exact hnd

theorem remErase_get_cases {m : STsdbMeta} (t : STable) (b : Bool)
    (hnd : (m.uidMap.map Prod.fst).Nodup) (u : Nat) (hne : ¬t.uid = u) :
    hashGet (remErase m t b).uidMap u = hashGet m.uidMap u ∨
      ∃ s, hashGet m.uidMap u = some s ∧
        hashGet (remErase m t b).uidMap u = some (filtSuper s t.uid) := by
  have hmap : (remErase m t b).uidMap = hashRemove (remCore m t b).uidMap t.uid := rfl
  rw [hmap, hashGet_remove (remCore_keys_nodup hnd t b), if_neg hne]
  exact remCore_get_cases m t b u

theorem remErase_get_self {m : STsdbMeta} (t : STable) (b : Bool)
    (hnd : (m.uidMap.map Prod.fst).Nodup) :
    hashGet (remErase m t b).uidMap t.uid = none := by
  have hmap : (remErase m t b).uidMap = hashRemove (remCore m t b).uidMap t.uid := rfl
  rw [hmap, hashGet_remove (remCore_keys_nodup hnd t b), if_pos rfl]

theorem maxesB_remove {r : STsdbRepo} {t : STable} (b : Bool)
    (hnd : (r.meta.uidMap.map Prod.fst).Nodup)
    (hgetNS : ¬t.ttype = TSDB_SUPER_TABLE → hashGet r.meta.uidMap t.uid = some t)
    (hNS : ∀ u t0, hashGet r.meta.uidMap u = some t0 → t0.ttype ≠ TSDB_SUPER_TABLE →
      0 < t0.tid ∧ t0.tid < (r.meta.maxTables : Int) ∧
        r.meta.tables.getD t0.tid.toNat none = some u)
    (hB : MaxesB r.meta) : MaxesB (tsdbRemoveTableFromMeta r t b).meta := by
  have hlook : ∀ u t0, hashGet (remErase r.meta t b).uidMap u = some t0 →
      ∃ t1, hashGet r.meta.uidMap u = some t1 ∧ t1.schema = t0.schema ∧
        t1.ttype = t0.ttype ∧ t1.tid = t0.tid ∧ ¬t.uid = u := by
    intro u t0 h0
    by_cases hne : t.uid = u
    · rw [← hne, remErase_get_self t b hnd] at h0
      cases h0
    · rcases remErase_get_cases t b hnd u hne with he | ⟨s, hs, he⟩
      · rw [he] at h0
        exact ⟨t0, h0, rfl, rfl, rfl, hne⟩
      · rw [he] at h0
        cases Option.some.inj h0
        exact ⟨s, hs, rfl, rfl, rfl, hne⟩
  rcases removeFromMeta_cases r t b with hcase | hcase <;> rw [hcase]
  · intro u t0 h0 hty sch hsch
    obtain ⟨t1, h1, hsc, hty1, _, _⟩ := hlook u t0 h0
    obtain ⟨hc, hbb⟩ := hB u t1 h1 (by rw [hty1]; exact hty) sch (by rw [hsc]; exact hsch)
    obtain ⟨hm1, hm2⟩ := remErase_maxes r.meta t b
    rw [hm1, hm2]
    exact ⟨hc, hbb⟩
  · intro u t0 h0 hty sch hsch
    have h0' : hashGet (remErase r.meta t b).uidMap u = some t0 := h0
    obtain ⟨t1, h1, hsc, hty1, htid, hneu⟩ := hlook u t0 h0'
    have hty1' : t1.ttype = TSDB_NORMAL_TABLE ∨ t1.ttype = TSDB_STREAM_TABLE := by
      rw [hty1]
      exact hty
    have hns1 : ¬t1.ttype = TSDB_SUPER_TABLE := by
      rcases hty1' with hh | hh <;> rw [hh] <;> decide
    obtain ⟨hpos, _, hslot⟩ := hNS u t1 h1 hns1
    have htab : (remErase r.meta t b).tables.getD t1.tid.toNat none = some u := by
      have hcc : (remErase r.meta t b).tables = (remCore r.meta t b).tables := rfl
      rw [hcc]
      by_cases hts : t.ttype = TSDB_SUPER_TABLE
      · rw [remCore_super b hts]
        exact hslot
      · rw [remCore_nonsuper b hts]
        have htabs : (remNonSuper r.meta t b).tables = tableSetSlot r.meta.tables t.tid none := by
          by_cases hcb : t.ttype = TSDB_CHILD_TABLE ∧ b = true
          · obtain ⟨hch, hb⟩ := hcb
            cases hb
            rw [remNonSuper_idx hch]
            show (tsdbRemoveTableFromIndex (remSlotTables r.meta t) t).tables = _
            rw [rmIdx_tables]
            rfl
          · rw [remNonSuper_noidx hcb]
            rfl
        rw [htabs]
        obtain ⟨hpost, _, hslott⟩ := hNS t.uid t (hgetNS hts) hts
        unfold tableSetSlot
        rw [if_pos (le_of_lt hpost)]
        have hij : ¬t.tid.toNat = t1.tid.toNat := by
          intro hh
          rw [← hh] at hslot
          exact hneu (Option.some.inj (hslott.symm.trans hslot))
        rw [getD_set_ne hij]
        exact hslot
    have hsch2 : tsdbGetTableSchema (remErase r.meta t b) t0 = some sch := by
      rw [getTableSchema_nonchild]
      · exact hsch
      · rcases hty with hh | hh
        · exact Or.inl hh
        · exact Or.inr (Or.inr hh)
    have htab0 : (remErase r.meta t b).tables.getD t0.tid.toNat none = some u := by
      rw [← htid]
      exact htab
    exact rescan_bound htab0 h0' hsch2

theorem updMeta_maxes_le (m : STsdbMeta) (uid : Nat) (t1 t2 : STable) (cfg : STableCfg) :
    m.maxCols ≤ (updMeta m uid t1 t2 cfg).maxCols ∧
      m.maxRowBytes ≤ (updMeta m uid t1 t2 cfg).maxRowBytes := by
  unfold updMeta
  split
  · exact ⟨Nat.le_max_left _ _, Nat.le_max_left _ _⟩
  · exact ⟨le_refl _, le_refl _⟩

theorem maxesB_updateTable {r : STsdbRepo} (hB : MaxesB r.meta) (uid : Nat) (cfg : STableCfg) :
    MaxesB (tsdbUpdateTable r uid cfg).2.meta := by
  cases hget : tsdbGetTableByUid r.meta uid with
  | none =>
      rw [updateTable_meta_none hget]
      exact hB
  | some t =>
      by_cases hch : t.ttype = TSDB_CHILD_TABLE
      · rw [updateTable_meta_child hget hch]
        exact hB
      · rw [updateTable_meta_go hget hch]
        intro u t0 h0 hty sch hsch
        rw [updMeta_uidMap, hashGet_put] at h0
        obtain ⟨hle1, hle2⟩ :=
          updMeta_maxes_le r.meta uid (updT1 t cfg) (updT2 r.meta (updT1 t cfg) cfg) cfg
        by_cases hu : uid = u
        · rw [if_pos hu] at h0
          cases Option.some.inj h0
          by_cases hsc : schChangeP r.meta (updT1 t cfg) cfg
          · have ht2 : updT2 r.meta (updT1 t cfg) cfg = appendSchema (updT1 t cfg) cfg := by
              unfold updT2
              rw [if_pos hsc]
            rw [ht2, appendSchema_getLast] at hsch
            cases Option.some.inj hsch
            unfold updMeta
            rw [if_pos hsc]
            exact ⟨Nat.le_max_right _ _, Nat.le_max_right _ _⟩
          · have ht2 : updT2 r.meta (updT1 t cfg) cfg = updT1 t cfg := by
              unfold updT2
              rw [if_neg hsc]
            rw [ht2, updT1_schema] at hsch
            have hty' : t.ttype = TSDB_NORMAL_TABLE ∨ t.ttype = TSDB_STREAM_TABLE := by
              rw [ht2, updT1_ttype] at hty
              exact hty
            have hget' : hashGet r.meta.uidMap u = some t := by
              rw [← hu]
              exact hget
            obtain ⟨hc, hb⟩ := hB u t hget' hty' sch hsch
            exact ⟨le_trans hc hle1, le_trans hb hle2⟩
        · rw [if_neg hu] at h0
          obtain ⟨hc, hb⟩ := hB u t0 h0 hty sch hsch
          exact ⟨le_trans hc hle1, le_trans hb hle2⟩

theorem maxesB_createOther {r : STsdbRepo} {cfg : STableCfg}
    (hty : ¬cfg.ctype = TSDB_CHILD_TABLE)
    (hkind : cfg.ctype = TSDB_NORMAL_TABLE ∨ cfg.ctype = TSDB_STREAM_TABLE)
    (hB : MaxesB r.meta) : MaxesB (createOther r cfg).meta := by
  have htN : ¬(tsdbNewTable cfg false).ttype = TSDB_CHILD_TABLE := hty
  have hnsup : ¬(tsdbNewTable cfg false).ttype = TSDB_SUPER_TABLE := by
    show ¬cfg.ctype = TSDB_SUPER_TABLE
    rcases hkind with hk | hk <;> rw [hk] <;> decide
  have hmeta : (createOther r cfg).meta =
      updateMaxes (addSlotPut (addNonSuperPair r.meta (tsdbNewTable cfg false) true))
        (addNonSuperPair r.meta (tsdbNewTable cfg false) true).2 := by
    show (tsdbAddTableToMeta r (tsdbNewTable cfg false) true).2.meta = _
    exact addTableToMeta_meta_nonsuper hnsup
  have hpair : addNonSuperPair r.meta (tsdbNewTable cfg false) true =
      (r.meta, tsdbNewTable cfg false) :=
    addNonSuperPair_plain (fun hh => htN hh.1)
  rw [hmeta, hpair]
  intro u t0 h0 hty0 sch hsch
  have h0' : hashGet (hashPut r.meta.uidMap (tsdbNewTable cfg false).uid
      (tsdbNewTable cfg false)) u = some t0 := by
    rw [updateMaxes_uidMap] at h0
    exact h0
  rw [hashGet_put] at h0'
  obtain ⟨hle1, hle2⟩ := updateMaxes_le
    (addSlotPut (r.meta, tsdbNewTable cfg false)) (tsdbNewTable cfg false)
  by_cases hu : (tsdbNewTable cfg false).uid = u
  · rw [if_pos hu] at h0'
    cases Option.some.inj h0'
    rw [newTable_schema_nonchild hty] at hsch
    have hsch' : sch = cfg.schema := by
      cases hsch
      rfl
    have hbound := updateMaxes_bound htN (show tsdbGetTableSchema
        (addSlotPut (r.meta, tsdbNewTable cfg false)) (tsdbNewTable cfg false) =
        some cfg.schema by
      rw [getTableSchema_nonchild (by
        rcases hkind with hk | hk
        · exact Or.inl hk
        · exact Or.inr (Or.inr hk)), newTable_schema_nonchild hty]
      rfl)
    rw [hsch']
    exact hbound
  · rw [if_neg hu] at h0'
    obtain ⟨hc, hb⟩ := hB u t0 h0' hty0 sch hsch
    exact ⟨le_trans hc hle1, le_trans hb hle2⟩

theorem indexCore_none {m : STsdbMeta} {t : STable}
    (hs : tsdbGetTableByUid m t.suid = none) : tsdbAddTableIntoIndexCore m t = (m, t) := by
  unfold tsdbAddTableIntoIndexCore
  rw [hs]

theorem maxesB_addSuper {r : STsdbRepo} {t : STable}
    (hsup : t.ttype = TSDB_SUPER_TABLE) (hB : MaxesB r.meta) :
    MaxesB (tsdbAddTableToMeta r t true).2.meta := by
  rw [addTableToMeta_meta_super hsup]
  intro u t0 h0 hty0 sch hsch
  have h0' : hashGet (hashPut r.meta.uidMap t.uid t) u = some t0 := by
    rw [updateMaxes_uidMap] at h0
    exact h0
  rw [hashGet_put] at h0'
  by_cases hu : t.uid = u
  · rw [if_pos hu] at h0'
    cases Option.some.inj h0'
    rcases hty0 with hh | hh
    · rw [hsup] at hh
      exact absurd hh (by decide)
    · rw [hsup] at hh
      exact absurd hh (by decide)
  · rw [if_neg hu] at h0'
    obtain ⟨hc, hb⟩ := hB u t0 h0' hty0 sch hsch
    have hle := updateMaxes_le
      ({ r.meta with superList := r.meta.superList ++ [t.uid], uidMap := hashPut r.meta.uidMap t.uid t }) t
    constructor
    · exact le_trans hc hle.1
    · exact le_trans hb hle.2

theorem maxesB_addChild {r : STsdbRepo} {t : STable}
    (hch : t.ttype = TSDB_CHILD_TABLE) (hB : MaxesB r.meta) :
    MaxesB (tsdbAddTableToMeta r t true).2.meta := by
  have hnsup : ¬t.ttype = TSDB_SUPER_TABLE := by
    rw [hch]
    decide
  rw [addTableToMeta_meta_nonsuper hnsup, addNonSuperPair_child hch]
  cases hs : tsdbGetTableByUid r.meta t.suid with
  | none =>
      rw [indexCore_none hs]
      show MaxesB (updateMaxes (addSlotPut (r.meta, t)) t)
      rw [updateMaxes_child hch]
      intro u t0 h0 hty0 sch hsch
      have h0' : hashGet (hashPut r.meta.uidMap t.uid t) u = some t0 := h0
      rw [hashGet_put] at h0'
      by_cases hu : t.uid = u
      · rw [if_pos hu] at h0'
        cases Option.some.inj h0'
        rcases hty0 with hh | hh
        · rw [hch] at hh
          exact absurd hh (by decide)
        · rw [hch] at hh
          exact absurd hh (by decide)
      · rw [if_neg hu] at h0'
        exact hB u t0 h0' hty0 sch hsch
  | some s =>
      rw [indexCore_eq hs]
      show MaxesB (updateMaxes
        (addSlotPut
          ({ r.meta with
              uidMap := hashPut r.meta.uidMap t.suid
                ({ s with
                    pIndex := slInsert (idxKeyOf r.meta)
                      ((getTagIndexKey r.meta { t with pSuper := some t.suid }).getD [])
                      t.uid s.pIndex }) },
            { t with pSuper := some t.suid }))
        ({ t with pSuper := some t.suid }))
      have hch' : ({ t with pSuper := some t.suid }).ttype = TSDB_CHILD_TABLE := hch
      rw [updateMaxes_child hch']
      intro u t0 h0 hty0 sch hsch
      have h0' : hashGet (hashPut (hashPut r.meta.uidMap t.suid
          ({ s with
              pIndex := slInsert (idxKeyOf r.meta)
                ((getTagIndexKey r.meta { t with pSuper := some t.suid }).getD [])
                t.uid s.pIndex })) t.uid ({ t with pSuper := some t.suid })) u = some t0 := h0
      rw [hashGet_put, hashGet_put] at h0'
      by_cases hu1 : t.uid = u
      · rw [if_pos hu1] at h0'
        cases Option.some.inj h0'
        rcases hty0 with hh | hh
        · have hh' : t.ttype = TSDB_NORMAL_TABLE := hh
          rw [hch] at hh'
          exact absurd hh' (by decide)
        · have hh' : t.ttype = TSDB_STREAM_TABLE := hh
          rw [hch] at hh'
          exact absurd hh' (by decide)
      · rw [if_neg hu1] at h0'
        by_cases hu2 : t.suid = u
        · rw [if_pos hu2] at h0'
          cases Option.some.inj h0'
          have hs' : hashGet r.meta.uidMap u = some s := by
            rw [← hu2]
            exact hs
          have hty0' : s.ttype = TSDB_NORMAL_TABLE ∨ s.ttype = TSDB_STREAM_TABLE := hty0
          have hsch' : s.schema.getLast? = some sch := hsch
          exact hB u s hs' hty0' sch hsch'
        · rw [if_neg hu2] at h0'
          exact hB u t0 h0' hty0 sch hsch

theorem maxesB_createChildNewSuper {r : STsdbRepo} {cfg : STableCfg}
    (hty : cfg.ctype = TSDB_CHILD_TABLE) (hB : MaxesB r.meta) :
    MaxesB (createChildNewSuper r cfg).meta := by
  have hch : (tsdbNewTable cfg false).ttype = TSDB_CHILD_TABLE := hty
  show MaxesB (tsdbAddTableToMeta ((tsdbAddTableToMeta r (tsdbNewTable cfg true) true).2)
    (tsdbNewTable cfg false) true).2.meta
  exact maxesB_addChild hch (maxesB_addSuper rfl hB)

theorem maxesB_createChildExisting {r : STsdbRepo} {cfg : STableCfg} {s : STable}
    (hty : cfg.ctype = TSDB_CHILD_TABLE) (hB : MaxesB r.meta) :
    MaxesB (createChildExisting r cfg s).meta := by
  have hch : (tsdbNewTable cfg false).ttype = TSDB_CHILD_TABLE := hty
  show MaxesB (tsdbAddTableToMeta ((tsdbUpdateTable r s.uid cfg).2)
    (tsdbNewTable cfg false) true).2.meta
  exact maxesB_addChild hch (maxesB_updateTable hB s.uid cfg)

theorem maxesB_createTable {r : STsdbRepo} (hInv : MetaInv r.meta) {cfg : STableCfg}
    (hcfg : wfCfg r.meta.maxTables cfg) (hB : MaxesB r.meta) :
    MaxesB (tsdbCreateTable r cfg).repo.meta := by
  cases hget : tsdbGetTableByUid r.meta cfg.uid with
  | some t =>
      rw [createTable_dup hget]
      exact hB
  | none =>
      by_cases hty : cfg.ctype = TSDB_CHILD_TABLE
      · cases hs : tsdbGetTableByUid r.meta cfg.superUid with
        | none =>
            rw [createTable_child_newsuper hget hty hs]
            exact maxesB_createChildNewSuper hty hB
        | some s =>
            by_cases hsty : s.ttype = TSDB_SUPER_TABLE
            · have hsuideq : s.uid = cfg.superUid := hInv.uidEq cfg.superUid s hs
              rw [createTable_child_existing hget hty hs hsty hsuideq]
              exact maxesB_createChildExisting hty hB
            · rw [createTable_child_notsuper hget hty hs hsty]
              exact hB
      · have hkind : cfg.ctype = TSDB_NORMAL_TABLE ∨ cfg.ctype = TSDB_STREAM_TABLE := by
          rcases hcfg.1 with hk | hk
          · exact absurd hk hty
          · exact hk
        rw [createTable_other hget hty]
        exact maxesB_createOther hty hkind hB

theorem cascade_maxesB : ∀ (l : List Nat) (r : STsdbRepo) (su : Nat),
    MetaInvD r.meta su l → MaxesB r.meta → MaxesB ((l.foldl dropStep r).meta) := by
  intro l
  induction l with
  | nil =>
      intro r su hD hB
      exact hB
  | cons cu rest ih =>
      intro r su hD hB
      rw [List.foldl_cons]
      refine ih _ su (dropStep_invD hD) ?_
      cases hgc : tsdbGetTableByUid r.meta cu with
      | none =>
          rw [dropStep_none hgc]
          exact hB
      | some c =>
          rw [dropStep_some hgc]
          have hgc' : hashGet r.meta.uidMap cu = some c := hgc
          have hcu : c.uid = cu := hD.uidEq cu c hgc'
          refine maxesB_remove false hD.keysNodup ?_ hD.nonSuperSlot hB
          intro _
          rw [hcu]
          exact hgc'

theorem maxesB_dropTable {r : STsdbRepo} (hInv : MetaInv r.meta) (hB : MaxesB r.meta)
    (uid : Nat) : MaxesB (tsdbDropTable r uid).repo.meta := by
  cases hget : tsdbGetTableByUid r.meta uid with
  | none =>
      rw [dropTable_none_eq hget]
      exact hB
  | some t =>
      have hget' : hashGet r.meta.uidMap uid = some t := hget
      have huid : t.uid = uid := hInv.uidEq uid t hget'
      have hgt : hashGet r.meta.uidMap t.uid = some t := by
        rw [huid]
        exact hget'
      by_cases hsty : t.ttype = TSDB_SUPER_TABLE
      · rw [dropTable_super_eq hget hsty]
        have hD0 : MetaInvD r.meta t.uid t.pIndex := metaInvD_of_metaInv hInv hgt hsty
        have hD1 : MetaInvD (t.pIndex.foldl dropStep r).meta t.uid [] :=
          cascade_invD t.pIndex r t.uid hD0
        have hB1 : MaxesB (t.pIndex.foldl dropStep r).meta :=
          cascade_maxesB t.pIndex r t.uid hD0 hB
        refine maxesB_remove true hD1.keysNodup ?_ hD1.nonSuperSlot hB1
        intro hns
        exact absurd hsty hns
      · rw [dropTable_nonsuper_eq hget hsty]
        refine maxesB_remove true hInv.keysNodup ?_ hInv.nonSuperSlot hB
        intro _
        exact hgt

theorem tagStepIdx_get_other {m : STsdbMeta} {t : STable} {msg : SUpdateTableTagValMsg}
    {s : STable} (hps : t.pSuper = some t.suid) (hgs : hashGet m.uidMap t.suid = some s)
    (hne : ¬t.uid = t.suid) {u : Nat} (h1 : ¬t.uid = u) (h2 : ¬t.suid = u) :
    hashGet (tagStepIdx m t msg).uidMap u = hashGet m.uidMap u := by
  have hgs' : tsdbGetTableByUid m t.suid = some s := hgs
  unfold tagStepIdx
  rw [rmIdx_eq hps hgs']
  have hs2 : tsdbGetTableByUid
      (tagPut ({ m with uidMap := hashPut m.uidMap t.suid (filtSuper s t.uid) })
        (tagValNew t msg))
      (tagValNew t msg).suid = some (filtSuper s t.uid) := by
    show hashGet
      (hashPut (hashPut m.uidMap t.suid (filtSuper s t.uid)) (tagValNew t msg).uid
        (tagValNew t msg)) (tagValNew t msg).suid = _
    rw [hashGet_put, if_neg (show ¬(tagValNew t msg).uid = (tagValNew t msg).suid from hne),
      hashGet_put, if_pos (show t.suid = (tagValNew t msg).suid from rfl)]
  rw [addIntoIndex_eq hs2]
  show hashGet
    (hashPut
      (hashPut (hashPut (hashPut m.uidMap t.suid (filtSuper s t.uid)) (tagValNew t msg).uid
        (tagValNew t msg)) (tagValNew t msg).suid
        (reinsSuper
          (tagPut ({ m with uidMap := hashPut m.uidMap t.suid (filtSuper s t.uid) })
            (tagValNew t msg))
          (tagValNew t msg) (filtSuper s t.uid)))
      (tagValNew t msg).uid (reinsChild (tagValNew t msg))) u = _
  rw [hashGet_put, if_neg (show ¬(tagValNew t msg).uid = u from h1),
    hashGet_put, if_neg (show ¬(tagValNew t msg).suid = u from h2),
    hashGet_put, if_neg (show ¬(tagValNew t msg).uid = u from h1),
    hashGet_put, if_neg (show ¬t.suid = u from h2)]

theorem maxesB_step2 {r : STsdbRepo} {msg : SUpdateTableTagValMsg} {t0 : STable}
    (hInv : MetaInv r.meta) (hget : tsdbGetTableByUid r.meta msg.uid = some t0)
    (hch : t0.ttype = TSDB_CHILD_TABLE) (hB : MaxesB r.meta) :
    MaxesB (tsdbUpdateTagValStep2 r msg).repo.meta := by
  have hget' : hashGet r.meta.uidMap msg.uid = some t0 := hget
  have huid0 : t0.uid = msg.uid := hInv.uidEq msg.uid t0 hget'
  have hg0 : hashGet r.meta.uidMap t0.uid = some t0 := by
    rw [huid0]
    exact hget'
  by_cases hv : ((tsdbGetTableTagSchema r.meta t0).getD emptySchema).version > msg.tversion
  · rw [step2_stale hget hv]
    exact hB
  · obtain ⟨_, _, _, hps, _, _, s, hgs, hsty, _⟩ := hInv.childOk t0.uid t0 hg0 hch
    have hne : ¬t0.uid = t0.suid := by
      intro hh
      rw [← hh] at hgs
      rw [hg0] at hgs
      cases Option.some.inj hgs
      rw [hch] at hsty
      exact absurd hsty (by decide)
    by_cases hidx : (schemaColAt ((tsdbGetTableTagSchema r.meta t0).getD emptySchema)
        DEFAULT_TAG_INDEX_COLUMN).colId = msg.colId
    · rw [step2_idx hget hv hidx]
      intro u t1 h1 hty1 sch hsch
      have hmc : (tagStepIdx r.meta t0 msg).maxCols = r.meta.maxCols :=
        tagStepIdx_maxCols r.meta t0 msg
      have hmrb : (tagStepIdx r.meta t0 msg).maxRowBytes = r.meta.maxRowBytes :=
        tagStepIdx_maxRowBytes r.meta t0 msg
      rw [show ({ r with meta := tagStepIdx r.meta t0 msg } : STsdbRepo).meta =
        tagStepIdx r.meta t0 msg from rfl] at h1 ⊢
      rw [hmc, hmrb]
      by_cases hu1 : t0.uid = u
      · have hl := (@tagStepIdx_lookups r.meta t0 msg s hps hgs hne).1
        rw [← hu1] at h1
        rw [hl] at h1
        cases Option.some.inj h1
        rcases hty1 with hh | hh
        · have hh' : t0.ttype = TSDB_NORMAL_TABLE := hh
          rw [hch] at hh'
          exact absurd hh' (by decide)
        · have hh' : t0.ttype = TSDB_STREAM_TABLE := hh
          rw [hch] at hh'
          exact absurd hh' (by decide)
      · by_cases hu2 : t0.suid = u
        · have hl := (@tagStepIdx_lookups r.meta t0 msg s hps hgs hne).2
          rw [← hu2] at h1
          rw [hl] at h1
          cases Option.some.inj h1
          have hgs2 : hashGet r.meta.uidMap u = some s := by
            rw [← hu2]
            exact hgs
          have hty1' : s.ttype = TSDB_NORMAL_TABLE ∨ s.ttype = TSDB_STREAM_TABLE := hty1
          have hsch' : s.schema.getLast? = some sch := hsch
          exact hB u s hgs2 hty1' sch hsch'
        · rw [tagStepIdx_get_other hps hgs hne hu1 hu2] at h1
          exact hB u t1 h1 hty1 sch hsch
    · rw [step2_noidx hget hv hidx]
      intro u t1 h1 hty1 sch hsch
      rw [show ({ r with meta := tagStepNoIdx r.meta t0 msg } : STsdbRepo).meta =
        tagStepNoIdx r.meta t0 msg from rfl] at h1 ⊢
      rw [tagStepNoIdx_maxCols, tagStepNoIdx_maxRowBytes]
      by_cases hu1 : t0.uid = u
      · have hl : hashGet (tagStepNoIdx r.meta t0 msg).uidMap t0.uid =
            some (tagValNew t0 msg) := (@tagStepNoIdx_lookups r.meta t0 msg).1
        rw [← hu1] at h1
        rw [hl] at h1
        cases Option.some.inj h1
        rcases hty1 with hh | hh
        · have hh' : t0.ttype = TSDB_NORMAL_TABLE := hh
          rw [hch] at hh'
          exact absurd hh' (by decide)
        · have hh' : t0.ttype = TSDB_STREAM_TABLE := hh
          rw [hch] at hh'
          exact absurd hh' (by decide)
      · rw [(@tagStepNoIdx_lookups r.meta t0 msg).2 u hu1] at h1
        exact hB u t1 h1 hty1 sch hsch

theorem maxesB_updateTagValue {r : STsdbRepo} {msg : SUpdateTableTagValMsg}
    (hInv : MetaInv r.meta) (hwfm : wfMsg msg) (hB : MaxesB r.meta) :
    MaxesB (tsdbUpdateTagValue r msg).repo.meta := by
  cases hget : tsdbGetTableByUid r.meta msg.uid with
  | none =>
      rw [updTagVal_none hget]
      exact hB
  | some t0 =>
      by_cases ht : t0.tid ≠ msg.tid
      · rw [updTagVal_badtid hget ht]
        exact hB
      · by_cases hc : t0.ttype ≠ TSDB_CHILD_TABLE
        · rw [updTagVal_nonchild hget ht hc]
          exact hB
        · have hch : t0.ttype = TSDB_CHILD_TABLE := not_not.mp hc
          by_cases hv : ((tsdbGetTableTagSchema r.meta t0).getD emptySchema).version <
              msg.tversion
          · cases hf : msg.fetched with
            | none =>
                rw [updTagVal_nofetch hget ht hc hv hf]
                exact hB
            | some fcfg =>
                cases hg : tsdbGetTableByUid r.meta fcfg.superUid with
                | none =>
                    rw [updTagVal_fetch_nosuper hget ht hc hv hf hg]
                    exact hB
                | some s =>
                    rw [updTagVal_fetch hget ht hc hv hf hg]
                    have hwfu : wfUpdateCfg fcfg := hwfm.2.2.2 fcfg hf
                    have hInv1 : MetaInv (tsdbUpdateTable r s.uid fcfg).2.meta :=
                      metaInv_updateTable hInv s.uid hwfu
                    have hB1 : MaxesB (tsdbUpdateTable r s.uid fcfg).2.meta :=
                      maxesB_updateTable hB s.uid fcfg
                    have hget1 : tsdbGetTableByUid (tsdbUpdateTable r s.uid fcfg).2.meta
                        msg.uid = some t0 := by
                      by_cases hse : s.uid = msg.uid
                      · have hgj : tsdbGetTableByUid r.meta s.uid = some t0 := by
                          rw [hse]
                          exact hget
                        rw [updateTable_meta_child hgj hch]
                        exact hget
                      · show hashGet (tsdbUpdateTable r s.uid fcfg).2.meta.uidMap msg.uid =
                          some t0
                        rw [updateTable_get_ne hse]
                        exact hget
                    exact maxesB_step2 hInv1 hget1 hch hB1
          · rw [updTagVal_go hget ht hc hv]
            exact maxesB_step2 hInv hget hch hB

/-- Every reachable state keeps `maxCols` / `maxRowBytes` at or above
the width of every normal and stream table's current schema. -/
theorem reachable_maxesB {r : STsdbRepo} (h : Reachable r) : MaxesB r.meta := by
  induction h with
  | fresh n => exact maxesB_fresh n
  | step op hr hok ih =>
      have hInv := reachable_inv hr
      cases op with
      | create cfg => exact maxesB_createTable hInv hok.1 ih
      | dropT uid => exact maxesB_dropTable hInv ih uid
      | updateTbl uid cfg => exact maxesB_updateTable ih uid cfg
      | updateTag msg => exact maxesB_updateTagValue hInv hok ih

theorem restore_step {r : STsdbRepo} {t : STable} (h : wfTable t) :
    tsdbRestoreTable r (taosCalcChecksumAppend (tsdbEncodeTable t)) =
      ⟨0, none, (tsdbAddTableToMeta r (decodedView t) false).2⟩ := by
  unfold tsdbRestoreTable
  rw [check_calcAppend]
  have hdec : tsdbDecodeTable (taosCalcChecksumAppend (tsdbEncodeTable t)) =
      some (decodedView t, encFixedU32 (tcksum (tsdbEncodeTable t))) :=
    tsdbDecodeTable_enc h (encFixedU32 (tcksum (tsdbEncodeTable t)))
  rw [if_pos rfl, hdec]

theorem hashGet_pair_mem : ∀ {mp : List (Nat × STable)},
    (mp.map Prod.fst).Nodup → ∀ {u : Nat} {t : STable}, (u, t) ∈ mp →
      hashGet mp u = some t := by
  intro mp
  induction mp with
  | nil =>
      intro _ u t hm
      cases hm
  | cons p rest ih =>
      intro hnd u t hm
      obtain ⟨pk, pv⟩ := p
      simp only [List.map_cons, List.nodup_cons] at hnd
      rcases List.mem_cons.1 hm with hh | hh
      · cases hh
        show (if u = u then some t else hashGet rest u) = some t
        rw [if_pos rfl]
      · show (if pk = u then some pv else hashGet rest u) = some t
        have hne : ¬pk = u := by
          intro hk
          apply hnd.1
          rw [hk]
          exact List.mem_map.2 ⟨(u, t), hh, rfl⟩
        rw [if_neg hne]
        exact ih hnd.2 hh

theorem hashPut_absent : ∀ {mp : List (Nat × STable)} {k : Nat}, hashGet mp k = none →
    ∀ v, hashPut mp k v = mp ++ [(k, v)] := by
  intro mp
  induction mp with
  | nil =>
      intro k _ v
      rfl
  | cons p rest ih =>
      intro k hnone v
      obtain ⟨pk, pv⟩ := p
      have hh : (if pk = k then some pv else hashGet rest k) = none := hnone
      by_cases hc : pk = k
      · rw [if_pos hc] at hh
        cases hh
      · rw [if_neg hc] at hh
        show (if pk = k then (k, v) :: rest else (pk, pv) :: hashPut rest k v) = _
        rw [if_neg hc, ih hh v]
        rfl

theorem hashGet_append_none : ∀ {mp : List (Nat × STable)} {u : Nat},
    hashGet mp u = none → ∀ l2, hashGet (mp ++ l2) u = hashGet l2 u := by
  intro mp
  induction mp with
  | nil =>
      intro u _ l2
      rfl
  | cons p rest ih =>
      intro u hnone l2
      obtain ⟨pk, pv⟩ := p
      have hh : (if pk = u then some pv else hashGet rest u) = none := hnone
      by_cases hc : pk = u
      · rw [if_pos hc] at hh
        cases hh
      · rw [if_neg hc] at hh
        show (if pk = u then some pv else hashGet (rest ++ l2) u) = _
        rw [if_neg hc]
        exact ih hh l2

theorem hashGet_append_some : ∀ {mp : List (Nat × STable)} {u : Nat} {v : STable},
    hashGet mp u = some v → ∀ l2, hashGet (mp ++ l2) u = some v := by
  intro mp
  induction mp with
  | nil =>
      intro u v hs l2
      cases hs
  | cons p rest ih =>
      intro u v hs l2
      obtain ⟨pk, pv⟩ := p
      have hh : (if pk = u then some pv else hashGet rest u) = some v := hs
      by_cases hc : pk = u
      · rw [if_pos hc] at hh
        show (if pk = u then some pv else hashGet (rest ++ l2) u) = some v
        rw [if_pos hc]
        exact hh
      · rw [if_neg hc] at hh
        show (if pk = u then some pv else hashGet (rest ++ l2) u) = some v
        rw [if_neg hc]
        exact ih hh l2

theorem restoreInv_base (m : STsdbMeta) : RestoreInv m [] (freshRepo m.maxTables).meta := by
  refine ⟨rfl, List.length_replicate m.maxTables none, rfl, fun u => rfl, ?_, ?_, ?_⟩
  · intro i u h
    have h' : (List.replicate m.maxTables (none : Option Nat)).getD i none = some u := h
    rw [getD_replicate_none] at h'
    cases h'
  · intro i u _ hs
    cases hs
  · intro i _
    exact getD_replicate_none m.maxTables i

theorem restoreInv_step {m : STsdbMeta} (hInv : MetaInv m) {processed : List (Nat × STable)}
    {R : STsdbRepo} (hRI : RestoreInv m processed R.meta) {u0 : Nat} {t0 : STable}
    (hm : hashGet m.uidMap u0 = some t0) (hfresh : hashGet processed u0 = none) :
    RestoreInv m (processed ++ [(u0, t0)])
      (tsdbRestoreTable R (taosCalcChecksumAppend (tsdbEncodeTable t0))).repo.meta := by
  have hwf : wfTable t0 := hInv.wf u0 t0 hm
  have huid : t0.uid = u0 := hInv.uidEq u0 t0 hm
  have hduid : (decodedView t0).uid = u0 := by
    rw [decodedView_uid]
    exact huid
  have hRfresh : hashGet R.meta.uidMap u0 = none := by
    rw [hRI.look u0, hfresh]
    rfl
  have hrepo : (tsdbRestoreTable R (taosCalcChecksumAppend (tsdbEncodeTable t0))).repo =
      (tsdbAddTableToMeta R (decodedView t0) false).2 := by
    rw [restore_step hwf]
  rw [hrepo]
  -- shared facts about the new uid map
  have hput : ∀ mp : List (Nat × STable), hashGet mp u0 = none →
      hashPut mp (decodedView t0).uid (decodedView t0) = mp ++ [(u0, decodedView t0)] := by
    intro mp hn
    rw [hduid]
    exact hashPut_absent hn (decodedView t0)
  have hlook2 : ∀ u, hashGet (R.meta.uidMap ++ [(u0, decodedView t0)]) u =
      (hashGet (processed ++ [(u0, t0)]) u).map decodedView := by
    intro u
    cases hpu : hashGet processed u with
    | some v =>
        have hRu : hashGet R.meta.uidMap u = some (decodedView v) := by
          rw [hRI.look u, hpu]
          rfl
        rw [hashGet_append_some hRu, hashGet_append_some hpu]
        rfl
    | none =>
        have hRu : hashGet R.meta.uidMap u = none := by
          rw [hRI.look u, hpu]
          rfl
        rw [hashGet_append_none hRu, hashGet_append_none hpu]
        show (if u0 = u then some (decodedView t0) else none) =
          Option.map decodedView (if u0 = u then some t0 else none)
        by_cases hc : u0 = u
        · rw [if_pos hc, if_pos hc]
          rfl
        · rw [if_neg hc, if_neg hc]
          rfl
  have hkeys2 : (R.meta.uidMap ++ [(u0, decodedView t0)]).map Prod.fst =
      (processed ++ [(u0, t0)]).map Prod.fst := by
    rw [List.map_append, List.map_append, hRI.keys]
    rfl
  have hsome2 : ∀ u, (hashGet (processed ++ [(u0, t0)]) u).isSome = true →
      (hashGet processed u).isSome = true ∨ u = u0 := by
    intro u hs
    cases hpu : hashGet processed u with
    | some v => exact Or.inl (by simp [hpu])
    | none =>
        rw [hashGet_append_none hpu] at hs
        by_cases hc : u0 = u
        · exact Or.inr hc.symm
        · have hgone : hashGet [(u0, t0)] u = none := by
            show (if u0 = u then some t0 else hashGet [] u) = none
            rw [if_neg hc]
            rfl
          rw [hgone] at hs
          cases hs
  by_cases hsup : t0.ttype = TSDB_SUPER_TABLE
  · -- super: onto the super list, no slot
    have hdsup : (decodedView t0).ttype = TSDB_SUPER_TABLE := by
      rw [decodedView_ttype]
      exact hsup
    rw [addTableToMeta_meta_super hdsup]
    have hmap : (updateMaxes
        ({ R.meta with superList := R.meta.superList ++ [(decodedView t0).uid], uidMap := hashPut R.meta.uidMap (decodedView t0).uid (decodedView t0) })
        (decodedView t0)).uidMap = R.meta.uidMap ++ [(u0, decodedView t0)] := by
      rw [updateMaxes_uidMap]
      exact hput R.meta.uidMap hRfresh
    have htab : (updateMaxes
        ({ R.meta with superList := R.meta.superList ++ [(decodedView t0).uid], uidMap := hashPut R.meta.uidMap (decodedView t0).uid (decodedView t0) })
        (decodedView t0)).tables = R.meta.tables := by
      rw [updateMaxes_tables]
    refine ⟨?_, ?_, ?_, ?_, ?_, ?_, ?_⟩
    · rw [updateMaxes_maxTables]
      exact hRI.maxT
    · rw [htab]
      exact hRI.tlen
    · rw [hmap]
      exact hkeys2
    · intro u
      rw [hmap]
      exact hlook2 u
    · intro i u h
      rw [htab] at h
      exact hRI.slotA i u h
    · intro i u hslot hs
      rw [htab]
      rcases hsome2 u hs with hh | hh
      · exact hRI.slotB i u hslot hh
      · exfalso
        cases hh
        obtain ⟨t1, hg1, _, hns1⟩ := hInv.slotOk i u0 hslot
        rw [hm] at hg1
        cases Option.some.inj hg1
        exact hns1 hsup
    · intro i h
      rw [htab]
      exact hRI.slotD i h
  · -- non-super: into the tid slot
    obtain ⟨hpos, hlt, hslotm⟩ := hInv.nonSuperSlot u0 t0 hm hsup
    have hdns : ¬(decodedView t0).ttype = TSDB_SUPER_TABLE := by
      rw [decodedView_ttype]
      exact hsup
    rw [addTableToMeta_meta_nonsuper hdns]
    have hpair : addNonSuperPair R.meta (decodedView t0) false = (R.meta, decodedView t0) :=
      addNonSuperPair_plain (fun hh => by cases hh.2)
    rw [hpair]
    have hdtid : (decodedView t0).tid = t0.tid := decodedView_tid t0
    have hmap : (updateMaxes (addSlotPut (R.meta, decodedView t0)) (decodedView t0)).uidMap =
        R.meta.uidMap ++ [(u0, decodedView t0)] := by
      rw [updateMaxes_uidMap]
      exact hput R.meta.uidMap hRfresh
    have htab : (updateMaxes (addSlotPut (R.meta, decodedView t0)) (decodedView t0)).tables =
        R.meta.tables.set t0.tid.toNat (some u0) := by
      rw [updateMaxes_tables]
      show tableSetSlot R.meta.tables (decodedView t0).tid (some (decodedView t0).uid) = _
      rw [hdtid, hduid]
      unfold tableSetSlot
      rw [if_pos (le_of_lt hpos)]
    have htoNat : t0.tid.toNat < R.meta.tables.length := by
      rw [hRI.tlen]
      omega
    refine ⟨?_, ?_, ?_, ?_, ?_, ?_, ?_⟩
    · rw [updateMaxes_maxTables]
      exact hRI.maxT
    · rw [htab, List.length_set]
      exact hRI.tlen
    · rw [hmap]
      exact hkeys2
    · intro u
      rw [hmap]
      exact hlook2 u
    · intro i u h
      rw [htab] at h
      by_cases hi : t0.tid.toNat = i
      · rw [← hi, getD_set_self htoNat] at h
        cases Option.some.inj h
        rw [← hi]
        exact hslotm
      · rw [getD_set_ne hi] at h
        exact hRI.slotA i u h
    · intro i u hslot hs
      rw [htab]
      rcases hsome2 u hs with hh | hh
      · have hne : ¬t0.tid.toNat = i := by
          intro hi
          rw [← hi, hslotm] at hslot
          cases Option.some.inj hslot
          rw [hfresh] at hh
          cases hh
        rw [getD_set_ne hne]
        exact hRI.slotB i u hslot hh
      · cases hh
        obtain ⟨t1, hg1, htid1, _⟩ := hInv.slotOk i u0 hslot
        rw [hm] at hg1
        cases Option.some.inj hg1
        have hi : t0.tid.toNat = i := by
          rw [htid1]
          exact Int.toNat_natCast i
        rw [← hi, getD_set_self htoNat]
    · intro i h
      have hne : ¬t0.tid.toNat = i := by
        intro hi
        rw [← hi, hslotm] at h
        cases h
      rw [htab, getD_set_ne hne]
      exact hRI.slotD i h

theorem restoreAll_inv {m : STsdbMeta} (hInv : MetaInv m) :
    ∀ (l2 l1 : List (Nat × STable)), m.uidMap = l1 ++ l2 →
      ∀ R : STsdbRepo, RestoreInv m l1 R.meta →
        RestoreInv m (l1 ++ l2)
          (restoreAll R
            (l2.map (fun p => taosCalcChecksumAppend (tsdbEncodeTable p.2)))).meta := by
  intro l2
  induction l2 with
  | nil =>
      intro l1 heq R hRI
      rw [List.append_nil]
      exact hRI
  | cons p rest ih =>
      intro l1 heq R hRI
      obtain ⟨u0, t0⟩ := p
      have hmem : (u0, t0) ∈ m.uidMap := by
        rw [heq]
        exact List.mem_append_right l1 (List.mem_cons_self _ _)
      have hm : hashGet m.uidMap u0 = some t0 := hashGet_pair_mem hInv.keysNodup hmem
      have hfresh : hashGet l1 u0 = none := by
        apply hashGet_keys_none
        intro hmem1
        have hkeys : (m.uidMap.map Prod.fst) = l1.map Prod.fst ++
            (u0 :: rest.map Prod.fst) := by
          rw [heq, List.map_append]
          rfl
        have hnd := hInv.keysNodup
        rw [hkeys] at hnd
        have hdisj := List.disjoint_of_nodup_append hnd
        exact hdisj hmem1 (List.mem_cons_self _ _)
      have hstep := restoreInv_step hInv hRI hm hfresh
      have heq2 : m.uidMap = (l1 ++ [(u0, t0)]) ++ rest := by
        rw [heq, List.append_assoc, List.singleton_append]
      have hfold := ih (l1 ++ [(u0, t0)]) heq2
        ((tsdbRestoreTable R (taosCalcChecksumAppend (tsdbEncodeTable t0))).repo) hstep
      rw [List.append_assoc, List.singleton_append] at hfold
      exact hfold

theorem restored_inv {m : STsdbMeta} (hInv : MetaInv m) :
    RestoreInv m m.uidMap (restoreAll (freshRepo m.maxTables) (liveRecords m)).meta := by
  have h := restoreAll_inv hInv m.uidMap [] (by rw [List.nil_append])
    (freshRepo m.maxTables) (restoreInv_base m)
  rw [List.nil_append] at h
  exact h

theorem orgMeta_eq (m : STsdbMeta) :
    tsdbOrgMeta m = (List.range m.maxTables).foldl orgStep m := rfl

theorem orgStep_zero (acc : STsdbMeta) : orgStep acc 0 = acc := rfl

theorem orgStep_none {acc : STsdbMeta} {k : Nat} (hk : ¬k = 0)
    (h : acc.tables.getD k none = none) : orgStep acc k = acc := by
  unfold orgStep
  rw [if_neg hk, h]

theorem orgStep_nochild {acc : STsdbMeta} {k u : Nat} {t : STable} (hk : ¬k = 0)
    (h : acc.tables.getD k none = some u) (h2 : tsdbGetTableByUid acc u = some t)
    (h3 : ¬t.ttype = TSDB_CHILD_TABLE) : orgStep acc k = acc := by
  unfold orgStep
  rw [if_neg hk, h]
  show (match tsdbGetTableByUid acc u with
    | none => acc
    | some t => if t.ttype = TSDB_CHILD_TABLE then tsdbAddTableIntoIndex acc t else acc) = acc
  rw [h2]
  show (if t.ttype = TSDB_CHILD_TABLE then tsdbAddTableIntoIndex acc t else acc) = acc
  rw [if_neg h3]

theorem orgStep_child {acc : STsdbMeta} {k u : Nat} {t : STable} (hk : ¬k = 0)
    (h : acc.tables.getD k none = some u) (h2 : tsdbGetTableByUid acc u = some t)
    (h3 : t.ttype = TSDB_CHILD_TABLE) : orgStep acc k = tsdbAddTableIntoIndex acc t := by
  unfold orgStep
  rw [if_neg hk, h]
  show (match tsdbGetTableByUid acc u with
    | none => acc
    | some t => if t.ttype = TSDB_CHILD_TABLE then tsdbAddTableIntoIndex acc t else acc) = _
  rw [h2]
  show (if t.ttype = TSDB_CHILD_TABLE then tsdbAddTableIntoIndex acc t else acc) = _
  rw [if_pos h3]

theorem orgInv_base {m : STsdbMeta} (hInv : MetaInv m) :
    OrgInv m 0 (restoreAll (freshRepo m.maxTables) (liveRecords m)).meta := by
  have hRI := restored_inv hInv
  refine ⟨hRI.maxT, ?_, ?_, ?_, ?_, ?_⟩
  · intro i
    cases hmi : m.tables.getD i none with
    | none => exact hRI.slotD i hmi
    | some u =>
        obtain ⟨t1, hg1, _, _⟩ := hInv.slotOk i u hmi
        refine hRI.slotB i u hmi ?_
        rw [hg1]
        rfl
  · intro u t hg _
    rw [hRI.look u, hg]
    rfl
  · intro u t hg _
    rw [hRI.look u, hg]
    have : ¬t.tid.toNat < 0 := Nat.not_lt_zero _
    rw [if_neg this]
    rfl
  · intro u t hg _
    refine ⟨[], ?_, ?_⟩
    · rw [hRI.look u, hg]
      have hpe : ({ decodedView t with pIndex := ([] : List Nat) }) = decodedView t := by
        rw [← decodedView_pIndex t]
      rw [hpe]
      rfl
    · intro cu
      constructor
      · intro hcu
        cases hcu
      · intro ⟨c, _, _, _, hlt⟩
        exact absurd hlt (Nat.not_lt_zero _)
  · intro u hg
    rw [hRI.look u, hg]
    rfl

theorem orgInv_carry {m : STsdbMeta} {k : Nat} {Mo : STsdbMeta} (hOI : OrgInv m k Mo)
    (hnok : ∀ cu c, hashGet m.uidMap cu = some c → c.ttype = TSDB_CHILD_TABLE →
      ¬c.tid.toNat = k) : OrgInv m (k + 1) Mo := by
  refine ⟨hOI.maxT, hOI.slots, hOI.other, ?_, ?_, hOI.none_⟩
  · intro u t hg hch
    have h := hOI.child u t hg hch
    by_cases hlt : t.tid.toNat < k
    · rw [if_pos hlt] at h
      rw [if_pos (by omega)]
      exact h
    · rw [if_neg hlt] at h
      rw [if_neg (by have := hnok u t hg hch; omega)]
      exact h
  · intro u t hg hsup
    obtain ⟨pI, hMoS, hmemI⟩ := hOI.superEx u t hg hsup
    refine ⟨pI, hMoS, ?_⟩
    intro cu
    rw [hmemI cu]
    constructor
    · intro ⟨c, hc, h2, h3, h4⟩
      exact ⟨c, hc, h2, h3, by omega⟩
    · intro ⟨c, hc, h2, h3, h4⟩
      refine ⟨c, hc, h2, h3, ?_⟩
      have := hnok cu c hc h2
      omega

theorem addIntoIndex_get {m : STsdbMeta} {t s : STable}
    (hs : tsdbGetTableByUid m t.suid = some s) (w : Nat) :
    hashGet (tsdbAddTableIntoIndex m t).uidMap w =
      if t.uid = w then some (reinsChild t)
      else if t.suid = w then some (reinsSuper m t s)
      else hashGet m.uidMap w := by
  rw [addIntoIndex_eq hs]
  show hashGet (hashPut (hashPut m.uidMap t.suid (reinsSuper m t s)) t.uid (reinsChild t)) w = _
  rw [hashGet_put, hashGet_put]

theorem addIntoIndex_tables (m : STsdbMeta) (t : STable) :
    (tsdbAddTableIntoIndex m t).tables = m.tables := by
  unfold tsdbAddTableIntoIndex tsdbAddTableIntoIndexCore
  split <;> rfl

theorem addIntoIndex_maxTables (m : STsdbMeta) (t : STable) :
    (tsdbAddTableIntoIndex m t).maxTables = m.maxTables := by
  unfold tsdbAddTableIntoIndex tsdbAddTableIntoIndexCore
  split <;> rfl

theorem orgInv_step {m : STsdbMeta} (hInv : MetaInv m) {k : Nat} {Mo : STsdbMeta}
    (hOI : OrgInv m k Mo) : OrgInv m (k + 1) (orgStep Mo k) := by
  have hchildk : ∀ cu c, hashGet m.uidMap cu = some c → c.ttype = TSDB_CHILD_TABLE →
      c.tid.toNat = k → m.tables.getD k none = some cu := by
    intro cu c hg hch htid
    have hns : c.ttype ≠ TSDB_SUPER_TABLE := by
      rw [hch]
      decide
    obtain ⟨_, _, hslot⟩ := hInv.nonSuperSlot cu c hg hns
    rw [htid] at hslot
    exact hslot
  have hpos1 : ∀ cu c, hashGet m.uidMap cu = some c → c.ttype = TSDB_CHILD_TABLE →
      1 ≤ c.tid.toNat := by
    intro cu c hg hch
    have hns : c.ttype ≠ TSDB_SUPER_TABLE := by
      rw [hch]
      decide
    obtain ⟨hpos, _, _⟩ := hInv.nonSuperSlot cu c hg hns
    omega
  by_cases hk0 : k = 0
  · subst hk0
    rw [orgStep_zero]
    refine orgInv_carry hOI ?_
    intro cu c hc hch he
    have := hpos1 cu c hc hch
    omega
  · cases hmslot : m.tables.getD k none with
    | none =>
        have hMoslot : Mo.tables.getD k none = none := by
          rw [hOI.slots k]
          exact hmslot
        rw [orgStep_none hk0 hMoslot]
        refine orgInv_carry hOI ?_
        intro cu c hc hch he
        rw [hchildk cu c hc hch he] at hmslot
        cases hmslot
    | some u =>
        obtain ⟨t1, hg1, htid1, hns1⟩ := hInv.slotOk k u hmslot
        have hMoslot : Mo.tables.getD k none = some u := by
          rw [hOI.slots k]
          exact hmslot
        have htoN : t1.tid.toNat = k := by
          rw [htid1]
          exact Int.toNat_natCast k
        have honlyu : ∀ cu c, hashGet m.uidMap cu = some c → c.ttype = TSDB_CHILD_TABLE →
            c.tid.toNat = k → cu = u ∧ c = t1 := by
          intro cu c hc hch he
          have hcu : cu = u :=
            Option.some.inj ((hchildk cu c hc hch he).symm.trans hmslot)
          subst hcu
          rw [hg1] at hc
          exact ⟨rfl, (Option.some.inj hc).symm⟩
        rcases hInv.kinds u t1 hg1 with hsup1 | hkind
        · exact absurd hsup1 hns1
        rcases hkind with hch1 | hnr
        · -- a child sits at slot k: it is spliced into its super's index
          obtain ⟨hsch1, htg1, hsql1, hps1, hwtv1, hpidx1, s1, hgs1, hsty1, hmem1⟩ :=
            hInv.childOk u t1 hg1 hch1
          have huid1 : t1.uid = u := hInv.uidEq u t1 hg1
          have hvalMo : hashGet Mo.uidMap u = some (decodedView t1) := by
            have h := hOI.child u t1 hg1 hch1
            rw [if_neg (by omega : ¬t1.tid.toNat < k)] at h
            exact h
          have hdvch : (decodedView t1).ttype = TSDB_CHILD_TABLE := by
            rw [decodedView_ttype]
            exact hch1
          have hvalMo' : tsdbGetTableByUid Mo u = some (decodedView t1) := hvalMo
          rw [orgStep_child hk0 hMoslot hvalMo' hdvch]
          have hnesu : ¬u = t1.suid := by
            intro hh
            rw [← hh] at hgs1
            rw [hg1] at hgs1
            cases Option.some.inj hgs1
            rw [hch1] at hsty1
            exact absurd hsty1 (by decide)
          obtain ⟨pI, hMoS, hmemI⟩ := hOI.superEx t1.suid s1 hgs1 hsty1
          have hduid : (decodedView t1).uid = u := by
            rw [decodedView_uid]
            exact huid1
          have hdsu : (decodedView t1).suid = t1.suid := by
            rw [decodedView_child hch1]
          have hs2 : tsdbGetTableByUid Mo (decodedView t1).suid =
              some ({ decodedView s1 with pIndex := pI }) := by
            rw [hdsu]
            exact hMoS
          have hlook : ∀ w, hashGet (tsdbAddTableIntoIndex Mo (decodedView t1)).uidMap w =
              if u = w then some (reinsChild (decodedView t1))
              else if t1.suid = w then
                some (reinsSuper Mo (decodedView t1) ({ decodedView s1 with pIndex := pI }))
              else hashGet Mo.uidMap w := by
            intro w
            rw [addIntoIndex_get hs2 w, hduid, hdsu]
          refine ⟨?_, ?_, ?_, ?_, ?_, ?_⟩
          · rw [addIntoIndex_maxTables]
            exact hOI.maxT
          · intro i
            rw [addIntoIndex_tables]
            exact hOI.slots i
          · intro w t' hg' hty'
            rw [hlook w]
            have hw1 : ¬u = w := by
              intro hh
              rw [← hh] at hg'
              rw [hg1] at hg'
              cases Option.some.inj hg'
              rcases hty' with hh2 | hh2
              · rw [hch1] at hh2
                exact absurd hh2 (by decide)
              · rw [hch1] at hh2
                exact absurd hh2 (by decide)
            rw [if_neg hw1]
            have hw2 : ¬t1.suid = w := by
              intro hh
              rw [← hh] at hg'
              rw [hgs1] at hg'
              cases Option.some.inj hg'
              rcases hty' with hh2 | hh2
              · rw [hsty1] at hh2
                exact absurd hh2 (by decide)
              · rw [hsty1] at hh2
                exact absurd hh2 (by decide)
            rw [if_neg hw2]
            exact hOI.other w t' hg' hty'
          · intro w t' hg' hch'
            rw [hlook w]
            by_cases hw1 : u = w
            · rw [if_pos hw1]
              rw [← hw1] at hg'
              rw [hg1] at hg'
              cases Option.some.inj hg'
              rw [if_pos (by omega : t1.tid.toNat < k + 1)]
            · rw [if_neg hw1]
              have hw2 : ¬t1.suid = w := by
                intro hh
                rw [← hh] at hg'
                rw [hgs1] at hg'
                cases Option.some.inj hg'
                rw [hsty1] at hch'
                exact absurd hch' (by decide)
              rw [if_neg hw2]
              have h := hOI.child w t' hg' hch'
              have hne : ¬t'.tid.toNat = k := by
                intro he
                obtain ⟨hcu, _⟩ := honlyu w t' hg' hch' he
                exact hw1 hcu.symm
              by_cases hlt : t'.tid.toNat < k
              · rw [if_pos hlt] at h
                rw [if_pos (by omega)]
                exact h
              · rw [if_neg hlt] at h
                rw [if_neg (by omega)]
                exact h
          · intro w t' hg' hsup'
            rw [hlook w]
            have hw1 : ¬u = w := by
              intro hh
              rw [← hh] at hg'
              rw [hg1] at hg'
              cases Option.some.inj hg'
              rw [hch1] at hsup'
              exact absurd hsup' (by decide)
            rw [if_neg hw1]
            by_cases hw2 : t1.suid = w
            · rw [if_pos hw2]
              rw [← hw2] at hg'
              rw [hgs1] at hg'
              cases Option.some.inj hg'
              refine ⟨slInsert (idxKeyOf Mo)
                ((getTagIndexKey Mo (reinsChild (decodedView t1))).getD [])
                (decodedView t1).uid pI, rfl, ?_⟩
              intro cu
              rw [mem_slInsert, hduid]
              constructor
              · intro hh
                rcases hh with hh | hh
                · subst hh
                  exact ⟨t1, hg1, hch1, by rw [hw2], by omega⟩
                · obtain ⟨c, hc, h2, h3, h4⟩ := (hmemI cu).1 hh
                  exact ⟨c, hc, h2, by rw [← hw2]; exact h3, by omega⟩
              · intro ⟨c, hc, h2, h3, h4⟩
                by_cases hlt : c.tid.toNat < k
                · refine Or.inr ((hmemI cu).2 ⟨c, hc, h2, ?_, hlt⟩)
                  rw [hw2]
                  exact h3
                · have he : c.tid.toNat = k := by omega
                  obtain ⟨hcu, _⟩ := honlyu cu c hc h2 he
                  exact Or.inl hcu
            · rw [if_neg hw2]
              obtain ⟨pI', hMoS', hmemI'⟩ := hOI.superEx w t' hg' hsup'
              refine ⟨pI', hMoS', ?_⟩
              intro cu
              rw [hmemI' cu]
              constructor
              · intro ⟨c, hc, h2, h3, h4⟩
                exact ⟨c, hc, h2, h3, by omega⟩
              · intro ⟨c, hc, h2, h3, h4⟩
                by_cases hlt : c.tid.toNat < k
                · exact ⟨c, hc, h2, h3, hlt⟩
                · exfalso
                  have he : c.tid.toNat = k := by omega
                  obtain ⟨_, hceq⟩ := honlyu cu c hc h2 he
                  subst hceq
                  rw [h3] at hw2
                  exact hw2 rfl
          · intro w hg'
            rw [hlook w]
            have hw1 : ¬u = w := by
              intro hh
              rw [← hh] at hg'
              rw [hg1] at hg'
              cases hg'
            have hw2 : ¬t1.suid = w := by
              intro hh
              rw [← hh] at hg'
              rw [hgs1] at hg'
              cases hg'
            rw [if_neg hw1, if_neg hw2]
            exact hOI.none_ w hg'
        · -- normal or stream at slot k: organize skips it
          have hvalMo : hashGet Mo.uidMap u = some (decodedView t1) := hOI.other u t1 hg1 hnr
          have hvalMo' : tsdbGetTableByUid Mo u = some (decodedView t1) := hvalMo
          have hdvnc : ¬(decodedView t1).ttype = TSDB_CHILD_TABLE := by
            rw [decodedView_ttype]
            rcases hnr with hh | hh <;> rw [hh] <;> decide
          rw [orgStep_nochild hk0 hMoslot hvalMo' hdvnc]
          refine orgInv_carry hOI ?_
          intro cu c hc hch he
          obtain ⟨hcu, hceq⟩ := honlyu cu c hc hch he
          subst hceq
          rcases hnr with hh | hh
          · rw [hh] at hch
            exact absurd hch (by decide)
          · rw [hh] at hch
            exact absurd hch (by decide)

theorem orgInv_fold {m : STsdbMeta} (hInv : MetaInv m) {Mo : STsdbMeta}
    (h0 : OrgInv m 0 Mo) : ∀ j, OrgInv m j ((List.range j).foldl orgStep Mo) := by
  intro j
  induction j with
  | zero => exact h0
  | succ n ih =>
      rw [List.range_succ, List.foldl_append]
      exact orgInv_step hInv ih

theorem metaRoundtrip_equiv {m : STsdbMeta} (hInv : MetaInv m) : metaEquivRT m := by
  have hO0 := orgInv_fold hInv (orgInv_base hInv)
    ((restoreAll (freshRepo m.maxTables) (liveRecords m)).meta.maxTables)
  have hrt : metaRoundtrip m = (List.range
      (restoreAll (freshRepo m.maxTables) (liveRecords m)).meta.maxTables).foldl orgStep
      (restoreAll (freshRepo m.maxTables) (liveRecords m)).meta :=
    orgMeta_eq (restoreAll (freshRepo m.maxTables) (liveRecords m)).meta
  have hmaxT : (restoreAll (freshRepo m.maxTables) (liveRecords m)).meta.maxTables
      = m.maxTables := (restored_inv hInv).maxT
  rw [hmaxT] at hO0 hrt
  have htidlt : ∀ cu c, hashGet m.uidMap cu = some c → c.ttype = TSDB_CHILD_TABLE →
      c.tid.toNat < m.maxTables := by
    intro cu c hc hch
    have hns : c.ttype ≠ TSDB_SUPER_TABLE := by
      rw [hch]
      decide
    obtain ⟨h1, h2, _⟩ := hInv.nonSuperSlot cu c hc hns
    omega
  refine ⟨?_, ?_, ?_, ?_, ?_⟩
  · intro u hg
    rw [hrt]
    exact hO0.none_ u hg
  · intro u t hg hch
    rw [hrt]
    have h := hO0.child u t hg hch
    rw [if_pos (htidlt u t hg hch)] at h
    rw [h]
    obtain ⟨hsch, htg, hsql, hps, _, hpidx, _⟩ := hInv.childOk u t hg hch
    have heq : reinsChild (decodedView t) = t := by
      rw [decodedView_child hch]
      show ({ ttype := t.ttype, name := t.name, uid := t.uid, tid := t.tid, suid := t.suid,
                schema := ([] : List STSchema), tagSchema := (none : Option STSchema),
                tagVal := t.tagVal, sql := (none : Option (List Nat)), pSuper := some t.suid,
                pIndex := ([] : List Nat) } : STable) = t
      rw [← hsch, ← htg, ← hsql, ← hps, ← hpidx]
    rw [heq]
  · intro u t hg hty
    rw [hrt]
    have h := hO0.other u t hg (Or.inl hty)
    rw [h]
    obtain ⟨_, htg, htv, hps, hpidx, _, hsqln⟩ := hInv.normalOk u t hg (Or.inl hty)
    have hnc : ¬t.ttype = TSDB_CHILD_TABLE := by
      rw [hty]
      decide
    have hnsu : ¬t.ttype = TSDB_SUPER_TABLE := by
      rw [hty]
      decide
    have hnst : ¬t.ttype = TSDB_STREAM_TABLE := by
      rw [hty]
      decide
    have hsq : t.sql = none := hsqln hty
    have heq : decodedView t = { t with suid := 0 } := by
      rw [decodedView_normal hnc hnsu hnst]
      show ({ ttype := t.ttype, name := t.name, uid := t.uid, tid := t.tid, suid := 0,
                schema := t.schema, tagSchema := (none : Option STSchema),
                tagVal := ([] : SKVRow), sql := (none : Option (List Nat)),
                pSuper := (none : Option Nat),
                pIndex := ([] : List Nat) } : STable) = { t with suid := 0 }
      rw [← htg, ← htv, ← hsq, ← hps, ← hpidx]
    rw [heq]
  · intro u t hg hty
    rw [hrt]
    have h := hO0.other u t hg (Or.inr hty)
    rw [h]
    obtain ⟨_, htg, htv, hps, hpidx, _, _⟩ := hInv.normalOk u t hg (Or.inr hty)
    have heq : decodedView t = { t with suid := 0, sql := some (t.sql.getD []) } := by
      rw [decodedView_stream hty]
      show ({ ttype := t.ttype, name := t.name, uid := t.uid, tid := t.tid, suid := 0,
                schema := t.schema, tagSchema := (none : Option STSchema),
                tagVal := ([] : SKVRow), sql := some (t.sql.getD []),
                pSuper := (none : Option Nat),
                pIndex := ([] : List Nat) } : STable) =
        { t with suid := 0, sql := some (t.sql.getD []) }
      rw [← htg, ← htv, ← hps, ← hpidx]
    rw [heq]
  · intro u t hg hty
    obtain ⟨pI, hval, hmemI⟩ := hO0.superEx u t hg hty
    obtain ⟨_, _, ⟨ts, hts, _⟩, _, _, _, _, _⟩ := hInv.superOk u t hg hty
    have heq : ({ decodedView t with pIndex := pI } : STable) =
        { t with suid := 0, pIndex := pI } := by
      rw [decodedView_super hty]
      show ({ ttype := t.ttype, name := t.name, uid := t.uid, tid := t.tid, suid := 0,
                schema := t.schema, tagSchema := some (t.tagSchema.getD emptySchema),
                tagVal := ([] : SKVRow), sql := (none : Option (List Nat)),
                pSuper := (none : Option Nat), pIndex := pI } : STable) =
        { t with suid := 0, pIndex := pI }
      obtain ⟨_, _, _, htv, hsql, hps, _, _⟩ := hInv.superOk u t hg hty
      have htgeq : some (t.tagSchema.getD emptySchema) = t.tagSchema := by
        rw [hts]
        rfl
      rw [htgeq, ← htv, ← hsql, ← hps]
    refine ⟨pI, ?_, ?_⟩
    · rw [hrt, hval, heq]
    · intro cu
      rw [hmemI cu]
      constructor
      · intro ⟨c, hc, hcch, hcsu, _⟩
        obtain ⟨_, _, _, _, _, _, s, hgs, _, hmem⟩ := hInv.childOk cu c hc hcch
        rw [hcsu] at hgs
        rw [hg] at hgs
        cases Option.some.inj hgs
        exact hmem
      · intro hcu
        obtain ⟨_, hall⟩ := hInv.indexOk u t hg hty
        obtain ⟨c, hc, hcch, hcsu⟩ := hall cu hcu
        exact ⟨c, hc, hcch, hcsu, htidlt cu c hc hcch⟩

/-! ## The claims -/

/-- C1 (amended).  For every reachable state, encoding every live
table, restoring the records into a fresh meta and organizing yields a
meta whose uid map agrees with the original per uid: a missing uid
stays missing, a child table is recovered exactly, a normal table is
recovered up to its unused `suid` field (reset to `0`, the calloc
default, because the record does not carry it), a stream table
additionally carries its SQL text through `Option.getD`, and a super
table is recovered up to `suid` and its tag index, whose membership is
exactly the original index membership.  The original claim's equality
of `maxCols` / `maxRowBytes` does not hold (see the counterexample):
the drop-path rescan can leave them understating live super tables,
while the restore path recomputes them from the records. -/
theorem claim1_restore_roundtrip {r : STsdbRepo} (h : Reachable r) : metaEquivRT r.meta :=
  metaRoundtrip_equiv (reachable_inv h)

theorem claim1_restore_roundtrip_witness : metaEquivRT rC1.meta :=
  claim1_restore_roundtrip
    (Reachable.step (DDLOp.create cfgC1) (Reachable.fresh 4) (by decide))

set_option maxRecDepth 100000 in
theorem claim1_restore_roundtrip_counterexample :
    ¬(metaRoundtrip rDrop.meta).maxCols = rDrop.meta.maxCols := by decide

/-- C2 (amended).  After every DDL sequence, `maxCols` and
`maxRowBytes` are upper bounds on the column count and row byte width
of the current schema of every Normal and Stream table in the catalog.
The original claim's equality over all non-child tables (super tables
included) does not hold: the drop-path rescan walks only the tid
array, which never holds super tables, so the maxima can understate a
live super table's schema (see the counterexample). -/
theorem claim2_maxes_bound {r : STsdbRepo} (h : Reachable r) : MaxesB r.meta :=
  reachable_maxesB h

theorem claim2_maxes_bound_witness : MaxesB rN.meta :=
  claim2_maxes_bound (Reachable.step (DDLOp.create cfgN) (Reachable.fresh 4) (by decide))

theorem claim2_maxes_bound_counterexample :
    rDrop.meta.maxCols = 0 ∧
      tsdbGetTableByUid rDrop.meta 10 = some tS0 ∧
      tS0.ttype = TSDB_SUPER_TABLE ∧
      schemaNCols (tS0.schema.getLast?.getD emptySchema) = 1 := by decide

/-- C3 (amended).  Dropping a live super table with the index
`t.pIndex` appends exactly one `TSDB_DROP_META` action record per
index entry, in index order, and NO record for the super itself (the
original claim's N+1 does not hold, see the counterexample);
afterwards the super and every child are gone from the uid map, the
super list and the tid array. -/
theorem claim3_drop_super_cascade {r : STsdbRepo} (h : Reachable r) {uid : Nat} {t : STable}
    (hget : tsdbGetTableByUid r.meta uid = some t) (hsty : t.ttype = TSDB_SUPER_TABLE) :
    (tsdbDropTable r uid).repo.actList =
        r.actList ++ t.pIndex.map (fun cu => (⟨TSDB_DROP_META, cu, []⟩ : ActRecord)) ∧
      hashGet (tsdbDropTable r uid).repo.meta.uidMap uid = none ∧
      (∀ cu ∈ t.pIndex, hashGet (tsdbDropTable r uid).repo.meta.uidMap cu = none) ∧
      uid ∉ (tsdbDropTable r uid).repo.meta.superList ∧
      (∀ cu ∈ t.pIndex, cu ∉ (tsdbDropTable r uid).repo.meta.superList) ∧
      (∀ i, (tsdbDropTable r uid).repo.meta.tables.getD i none ≠ some uid) ∧
      (∀ cu ∈ t.pIndex, ∀ i, (tsdbDropTable r uid).repo.meta.tables.getD i none ≠ some cu) :=
  dropTable_super_run (reachable_inv h) hget hsty

theorem claim3_drop_super_cascade_witness :
    (tsdbDropTable rC1 10).repo.actList =
        rC1.actList ++ tS1.pIndex.map (fun cu => (⟨TSDB_DROP_META, cu, []⟩ : ActRecord)) ∧
      hashGet (tsdbDropTable rC1 10).repo.meta.uidMap 10 = none ∧
      (∀ cu ∈ tS1.pIndex, hashGet (tsdbDropTable rC1 10).repo.meta.uidMap cu = none) ∧
      10 ∉ (tsdbDropTable rC1 10).repo.meta.superList ∧
      (∀ cu ∈ tS1.pIndex, cu ∉ (tsdbDropTable rC1 10).repo.meta.superList) ∧
      (∀ i, (tsdbDropTable rC1 10).repo.meta.tables.getD i none ≠ some 10) ∧
      (∀ cu ∈ tS1.pIndex, ∀ i,
        (tsdbDropTable rC1 10).repo.meta.tables.getD i none ≠ some cu) :=
  claim3_drop_super_cascade
    (Reachable.step (DDLOp.create cfgC1) (Reachable.fresh 4) (by decide))
    (show tsdbGetTableByUid rC1.meta 10 = some tS1 by decide) (by decide)

theorem claim3_drop_super_cascade_counterexample :
    ((tsdbGetTableByUid rC2.meta 10).getD tX).pIndex.length = 2 ∧
      (tsdbGetTableByUid rC2.meta 10).isSome = true ∧
      (tsdbDropTable rC2 10).repo.actList.length = rC2.actList.length + 2 := by decide

/-- C4.  In every reachable state the schema history of every
non-child table is strictly ascending by version and holds at most
`TSDB_MAX_TABLE_SCHEMAS` entries, and its newest entry is the table's
current schema; appending a newer schema to a full history drops the
oldest entry and appends the newest. -/
theorem claim4_schema_history {r : STsdbRepo} (h : Reachable r) :
    (∀ u t, hashGet r.meta.uidMap u = some t → t.ttype ≠ TSDB_CHILD_TABLE →
      t.schema.length ≤ TSDB_MAX_TABLE_SCHEMAS ∧
        (t.schema.map STSchema.version).Chain' (· < ·) ∧
        tsdbGetTableSchema r.meta t = t.schema.getLast?) ∧
    ∀ t1 cfg, ¬t1.schema.length < TSDB_MAX_TABLE_SCHEMAS →
      (appendSchema t1 cfg).schema = t1.schema.drop 1 ++ [cfg.schema] ∧
        (appendSchema t1 cfg).schema.getLast? = some cfg.schema := by
  have hInv := reachable_inv h
  constructor
  · intro u t hg hnc
    obtain ⟨h1, h2⟩ := hInv.sortedOk u t hg hnc
    refine ⟨h1, h2, ?_⟩
    rcases hInv.kinds u t hg with hh | hh | hh | hh
    · rw [getTableSchema_nonchild (Or.inr (Or.inl hh))]
    · exact absurd hh hnc
    · rw [getTableSchema_nonchild (Or.inl hh)]
    · rw [getTableSchema_nonchild (Or.inr (Or.inr hh))]
  · intro t1 cfg hfull
    exact ⟨appendSchema_full hfull, appendSchema_getLast t1 cfg⟩

theorem claim4_schema_history_witness :
    (∀ u t, hashGet rN.meta.uidMap u = some t → t.ttype ≠ TSDB_CHILD_TABLE →
      t.schema.length ≤ TSDB_MAX_TABLE_SCHEMAS ∧
        (t.schema.map STSchema.version).Chain' (· < ·) ∧
        tsdbGetTableSchema rN.meta t = t.schema.getLast?) ∧
    ∀ t1 cfg, ¬t1.schema.length < TSDB_MAX_TABLE_SCHEMAS →
      (appendSchema t1 cfg).schema = t1.schema.drop 1 ++ [cfg.schema] ∧
        (appendSchema t1 cfg).schema.getLast? = some cfg.schema :=
  claim4_schema_history
    (Reachable.step (DDLOp.create cfgN) (Reachable.fresh 4) (by decide))

/-- C5.  Decoding the bytes produced by encoding a well-formed table
succeeds, consumes the whole encoding, and yields a table equal to
the original on the kind, name, uid, tid and every field the record
carries for its kind (a live super has a tag schema, a live stream has
its SQL text). -/
theorem claim5_codec_roundtrip {t : STable} (h : wfTable t)
    (hts : t.ttype = TSDB_SUPER_TABLE → ∃ ts, t.tagSchema = some ts)
    (hsql : t.ttype = TSDB_STREAM_TABLE → ∃ q, t.sql = some q) :
    tsdbDecodeTable (tsdbEncodeTable t) = some (decodedView t, []) ∧
      tableEquiv t (decodedView t) := by
  constructor
  · have hh := tsdbDecodeTable_enc h []
    rw [List.append_nil] at hh
    exact hh
  · exact tableEquiv_decodedView t hts hsql

theorem claim5_codec_roundtrip_witness :
    tsdbDecodeTable (tsdbEncodeTable tC1) = some (decodedView tC1, []) ∧
      tableEquiv tC1 (decodedView tC1) :=
  claim5_codec_roundtrip (by decide)
    (fun hh => absurd hh (by decide)) (fun hh => absurd hh (by decide))

/-- C6.  A restore record that fails the whole-record checksum makes
`tsdbRestoreTable` return `-1` with `terrno` set to `FILE_CORRUPTED`,
and the repository (hence the meta) is left untouched. -/
theorem claim6_restore_corrupted {r : STsdbRepo} {cont : List Nat}
    (h : ¬taosCheckChecksumWhole cont = true) :
    (tsdbRestoreTable r cont).ret = -1 ∧
      (tsdbRestoreTable r cont).errno = some .fileCorrupted ∧
      (tsdbRestoreTable r cont).repo = r := by
  rw [restore_corrupt h]
  exact ⟨rfl, rfl, rfl⟩

theorem claim6_restore_corrupted_witness :
    (tsdbRestoreTable (freshRepo 4)
        ((taosCalcChecksumAppend (tsdbEncodeTable tX)).map (fun b => b + 1))).ret = -1 ∧
      (tsdbRestoreTable (freshRepo 4)
        ((taosCalcChecksumAppend (tsdbEncodeTable tX)).map (fun b => b + 1))).errno =
          some .fileCorrupted ∧
      (tsdbRestoreTable (freshRepo 4)
        ((taosCalcChecksumAppend (tsdbEncodeTable tX)).map (fun b => b + 1))).repo =
          freshRepo 4 :=
  claim6_restore_corrupted (by decide)

/-- C7.  Creating a table whose `cfg.uid` is already present in the
uid map fails with `TABLE_ALREADY_EXIST` and leaves the repository
(tid array, super list, uid map and action log) unchanged. -/
theorem claim7_create_duplicate {r : STsdbRepo} {cfg : STableCfg} {t : STable}
    (h : tsdbGetTableByUid r.meta cfg.uid = some t) :
    (tsdbCreateTable r cfg).ret = errCodeVal .tableAlreadyExist ∧
      (tsdbCreateTable r cfg).repo = r := by
  rw [createTable_dup h]
  exact ⟨rfl, rfl⟩

theorem claim7_create_duplicate_witness :
    (tsdbCreateTable rN cfgN).ret = errCodeVal .tableAlreadyExist ∧
      (tsdbCreateTable rN cfgN).repo = rN :=
  claim7_create_duplicate (show tsdbGetTableByUid rN.meta cfgN.uid = some tN1 by decide)

/-- C8 (amended).  A successful `update_tag_value` on a child table at
the current tag-schema version mutates the child's tag values in
place; when the updated column is the designated tag[0] the child is
removed from its super's index (one filter of its uid) and re-inserted
(one `slInsert`), and for any other column the super's entry is left
untouched; in both cases NO action record is appended — the original
claim's one action record does not hold (see the counterexample; a
record is appended only by the optional super-schema refresh through
`tsdbUpdateTable` when the client's tag version is newer). -/
theorem claim8_tag_update {r : STsdbRepo} {msg : SUpdateTableTagValMsg} {t0 s : STable}
    (hInv : MetaInv r.meta) (hget : tsdbGetTableByUid r.meta msg.uid = some t0)
    (ht : ¬t0.tid ≠ msg.tid) (hch : t0.ttype = TSDB_CHILD_TABLE)
    (hveq : ((tsdbGetTableTagSchema r.meta t0).getD emptySchema).version = msg.tversion)
    (hgs : hashGet r.meta.uidMap t0.suid = some s) :
    (tsdbUpdateTagValue r msg).ret = 0 ∧
    (tsdbUpdateTagValue r msg).repo.actList = r.actList ∧
    ((schemaColAt ((tsdbGetTableTagSchema r.meta t0).getD emptySchema)
        DEFAULT_TAG_INDEX_COLUMN).colId = msg.colId →
      hashGet (tsdbUpdateTagValue r msg).repo.meta.uidMap t0.uid =
        some { t0 with tagVal := tdSetKVRowDataOfCol t0.tagVal msg.colId msg.vtype msg.data,
                       pSuper := some t0.suid } ∧
      ∃ kk, hashGet (tsdbUpdateTagValue r msg).repo.meta.uidMap t0.suid =
        some { s with pIndex := slInsert (idxKeyOf (tagStepMid r.meta t0 msg s)) kk t0.uid
                        (s.pIndex.filter (fun w => w ≠ t0.uid)) }) ∧
    (¬(schemaColAt ((tsdbGetTableTagSchema r.meta t0).getD emptySchema)
        DEFAULT_TAG_INDEX_COLUMN).colId = msg.colId →
      hashGet (tsdbUpdateTagValue r msg).repo.meta.uidMap t0.uid =
        some { t0 with tagVal := tdSetKVRowDataOfCol t0.tagVal msg.colId msg.vtype msg.data } ∧
      hashGet (tsdbUpdateTagValue r msg).repo.meta.uidMap t0.suid =
        hashGet r.meta.uidMap t0.suid) := by
  have hv : ¬((tsdbGetTableTagSchema r.meta t0).getD emptySchema).version < msg.tversion := by
    omega
  have hv2 : ¬((tsdbGetTableTagSchema r.meta t0).getD emptySchema).version > msg.tversion := by
    omega
  have hnc : ¬t0.ttype ≠ TSDB_CHILD_TABLE := not_not_intro hch
  have hgo : tsdbUpdateTagValue r msg = tsdbUpdateTagValStep2 r msg := updTagVal_go hget ht hnc hv
  have hget' : hashGet r.meta.uidMap msg.uid = some t0 := hget
  have huid0 : t0.uid = msg.uid := hInv.uidEq msg.uid t0 hget'
  have hg0 : hashGet r.meta.uidMap t0.uid = some t0 := by
    rw [huid0]
    exact hget'
  obtain ⟨_, _, _, hps, _, _, s', hgs', hsty', _⟩ := hInv.childOk t0.uid t0 hg0 hch
  rw [hgs] at hgs'
  cases Option.some.inj hgs'
  have hne : ¬t0.uid = t0.suid := by
    intro hh
    rw [← hh] at hgs
    rw [hg0] at hgs
    cases Option.some.inj hgs
    rw [hch] at hsty'
    exact absurd hsty' (by decide)
  by_cases hidx : (schemaColAt ((tsdbGetTableTagSchema r.meta t0).getD emptySchema)
      DEFAULT_TAG_INDEX_COLUMN).colId = msg.colId
  · rw [hgo, step2_idx hget hv2 hidx]
    refine ⟨rfl, rfl, fun _ => ?_, fun hn => absurd hidx hn⟩
    obtain ⟨hl1, hl2⟩ := @tagStepIdx_lookups r.meta t0 msg s hps hgs hne
    constructor
    · show hashGet (tagStepIdx r.meta t0 msg).uidMap t0.uid = _
      rw [hl1]
      rfl
    · refine ⟨(getTagIndexKey (tagStepMid r.meta t0 msg s)
        (reinsChild (tagValNew t0 msg))).getD [], ?_⟩
      show hashGet (tagStepIdx r.meta t0 msg).uidMap t0.suid = _
      rw [hl2]
      rfl
  · rw [hgo, step2_noidx hget hv2 hidx]
    refine ⟨rfl, rfl, fun hy => absurd hy hidx, fun _ => ?_⟩
    obtain ⟨hl1, hl2⟩ := @tagStepNoIdx_lookups r.meta t0 msg
    constructor
    · have hl1' : hashGet (tagStepNoIdx r.meta t0 msg).uidMap t0.uid =
          some (tagValNew t0 msg) := hl1
      show hashGet (tagStepNoIdx r.meta t0 msg).uidMap t0.uid = _
      rw [hl1']
      rfl
    · show hashGet (tagStepNoIdx r.meta t0 msg).uidMap t0.suid = _
      exact hl2 t0.suid hne

theorem claim8_tag_update_witness :
    (tsdbUpdateTagValue rC1 msgT).ret = 0 ∧
    (tsdbUpdateTagValue rC1 msgT).repo.actList = rC1.actList ∧
    ((schemaColAt ((tsdbGetTableTagSchema rC1.meta tC1).getD emptySchema)
        DEFAULT_TAG_INDEX_COLUMN).colId = msgT.colId →
      hashGet (tsdbUpdateTagValue rC1 msgT).repo.meta.uidMap tC1.uid =
        some { tC1 with
                 tagVal := tdSetKVRowDataOfCol tC1.tagVal msgT.colId msgT.vtype msgT.data,
                 pSuper := some tC1.suid } ∧
      ∃ kk, hashGet (tsdbUpdateTagValue rC1 msgT).repo.meta.uidMap tC1.suid =
        some { tS1 with pIndex := slInsert (idxKeyOf (tagStepMid rC1.meta tC1 msgT tS1)) kk
                          tC1.uid (tS1.pIndex.filter (fun w => w ≠ tC1.uid)) }) ∧
    (¬(schemaColAt ((tsdbGetTableTagSchema rC1.meta tC1).getD emptySchema)
        DEFAULT_TAG_INDEX_COLUMN).colId = msgT.colId →
      hashGet (tsdbUpdateTagValue rC1 msgT).repo.meta.uidMap tC1.uid =
        some { tC1 with
                 tagVal := tdSetKVRowDataOfCol tC1.tagVal msgT.colId msgT.vtype msgT.data } ∧
      hashGet (tsdbUpdateTagValue rC1 msgT).repo.meta.uidMap tC1.suid =
        hashGet rC1.meta.uidMap tC1.suid) :=
  claim8_tag_update
    (reachable_inv (Reachable.step (DDLOp.create cfgC1) (Reachable.fresh 4) (by decide)))
    (show tsdbGetTableByUid rC1.meta msgT.uid = some tC1 by decide) (by decide) (by decide)
    (by decide) (show hashGet rC1.meta.uidMap tC1.suid = some tS1 by decide)

theorem claim8_tag_update_counterexample :
    (tsdbUpdateTagValue rC1 msgT).ret = 0 ∧
      (tsdbUpdateTagValue rC1 msgT).repo.actList.length = rC1.actList.length := by decide

/-- C9.  Creating a child table whose `cfg.superUid` resolves to an
existing table that is not a super table returns `-1`, sets no error
code, and leaves the repository unchanged. -/
theorem claim9_create_child_under_nonsuper {r : STsdbRepo} {cfg : STableCfg} {s : STable}
    (h : tsdbGetTableByUid r.meta cfg.uid = none) (hty : cfg.ctype = TSDB_CHILD_TABLE)
    (hs : tsdbGetTableByUid r.meta cfg.superUid = some s)
    (hnsty : ¬s.ttype = TSDB_SUPER_TABLE) :
    (tsdbCreateTable r cfg).ret = -1 ∧ (tsdbCreateTable r cfg).errno = none ∧
      (tsdbCreateTable r cfg).repo = r := by
  rw [createTable_child_notsuper h hty hs hnsty]
  exact ⟨rfl, rfl, rfl⟩

theorem claim9_create_child_under_nonsuper_witness :
    (tsdbCreateTable rN cfgCBad).ret = -1 ∧ (tsdbCreateTable rN cfgCBad).errno = none ∧
      (tsdbCreateTable rN cfgCBad).repo = rN :=
  claim9_create_child_under_nonsuper (by decide) (by decide)
    (show tsdbGetTableByUid rN.meta cfgCBad.superUid = some tN1 by decide) (by decide)

/-- C10.  For a child table whose super reference is unset (as between
restore and organize), the three schema getters return `NULL` rather
than dereferencing the missing super. -/
theorem claim10_unlinked_child_getters {m : STsdbMeta} {t : STable} (v : Nat)
    (hch : t.ttype = TSDB_CHILD_TABLE) (hps : t.pSuper = none) :
    tsdbGetTableSchema m t = none ∧ tsdbGetTableSchemaByVersion m t v = none ∧
      tsdbGetTableTagSchema m t = none :=
  ⟨getTableSchema_child_unlinked hch hps,
    getTableSchemaByVersion_child_unlinked hch hps,
    getTableTagSchema_child_unlinked hch hps⟩

theorem claim10_unlinked_child_getters_witness :
    tsdbGetTableSchema (tsdbNewMeta 4) tCu = none ∧
      tsdbGetTableSchemaByVersion (tsdbNewMeta 4) tCu 0 = none ∧
      tsdbGetTableTagSchema (tsdbNewMeta 4) tCu = none :=
  claim10_unlinked_child_getters 0 (by decide) (by decide)

end Tsdb
